import Mathlib

/-!
Unscented Kalman filter (`src/ukf.cpp`): shallow embedding and properties

The C++ class `UKF` is embedded as a record `UKF F` over an ordered field `F`
standing for `double`; the arithmetic operations of the source are taken exactly
(no rounding), with two exceptions below.  The routines the source calls from
`<cmath>` and Eigen but does not define are collected in `Numerics F` and passed to
every operation, so that each definition is a program over `F` (it runs on `ℚ`) and
each theorem says what it needs from those routines.

Rounding is modelled where it changes what the program does and not only the last
digits of a result: the conversion of `px_init`, `py_init` to `float`
(`Numerics.NarrowsToFloat`, `roundBinary 24`), and the updates `a -= 2. * M_PI`,
`a += 2. * M_PI` of the angle-normalisation loops, which on `double` can give `a` back
so that the loop never ends (`normalizeLoopsRounded`, `UKF.PredictionRounded`, with
`roundBinary 53`).

A division whose divisor the source does not guard is written with
`checkedDiv`, and a matrix inverse with `inverse`: they return `none` when the
divisor (the determinant) is zero, the case in which the IEEE result is not a
real number.
-/

open BigOperators

/-- The routines of `<cmath>` and Eigen that `ukf.cpp` calls and that are not
among the sources, taken as parameters. `toFloat` is the narrowing conversion
`double → float → double` of the two `float` locals of `ProcessMeasurement`; `llt`
is `P.llt().matrixL()` on 7×7 matrices. -/
structure Numerics (F : Type) where
  sqrt : F → F
  sin : F → F
  cos : F → F
  atan2 : F → F → F
  M_PI : F
  toFloat : F → F
  llt : Matrix (Fin 7) (Fin 7) F → Matrix (Fin 7) (Fin 7) F

/-- Modelled from the spec: the enumeration `MeasurementPackage::SensorType`
(`measurement_package.h` is not among the sources), the sensor kind tag
LIDAR | RADAR of the measurement payload, under the names `ukf.cpp` uses. -/
inductive SensorType where
  | LASER
  | RADAR
  deriving DecidableEq, Repr

/-- Modelled from the spec: the record `MeasurementPackage`
(`measurement_package.h` is not among the sources) with the three members `ukf.cpp`
reads: a timestamp in integer microseconds, the sensor kind and the raw readings,
two for a LASER package (entries 0 and 1), three for a RADAR package. -/
structure MeasurementPackage (F : Type) where
  timestamp_ : Int
  sensor_type_ : SensorType
  raw_measurements_ : Fin 3 → F

/-- Modelled from the spec: the data members of class `UKF` (`ukf.h` is not among
the sources) that `ukf.cpp` reads or writes, with the shapes its constructor gives
them; `lambda_` is a `double`, as the spec's weight `λ/(λ+n)` needs, `n_x_` and
`n_aug_` are `int`, `time_us_` is an integer count of microseconds. -/
structure UKF (F : Type) where
  is_initialized_ : Bool
  use_laser_ : Bool
  use_radar_ : Bool
  x_ : Fin 5 → F
  P_ : Matrix (Fin 5) (Fin 5) F
  Xsig_pred_ : Matrix (Fin 5) (Fin 15) F
  time_us_ : Int
  std_a_ : F
  std_yawdd_ : F
  std_laspx_ : F
  std_laspy_ : F
  std_radr_ : F
  std_radphi_ : F
  std_radrd_ : F
  weights_ : Fin 15 → F
  n_x_ : Int
  n_aug_ : Int
  lambda_ : F
  NIS_LIDAR_ : F
  NIS_RADAR_ : F
  R_LIDAR_ : Matrix (Fin 2) (Fin 2) F
  R_RADAR_ : Matrix (Fin 3) (Fin 3) F

section Defs

variable {F : Type} [LinearOrderedField F] [FloorRing F]

/-- Loop of the constructor, lines 77-87: entry `i - 1` of `weights_` for the
loop index `i = 1 .. 2 * n_aug_ + 1`. -/
def UKF.ctorWeights (lambda_ : F) (n_aug_ : Int) : Fin 15 → F :=
  fun j =>
    let i : Nat := j.val + 1
    if i = 1 then lambda_ / (lambda_ + (n_aug_ : F))
    else 1 / (2 * (lambda_ + (n_aug_ : F)))

/-- The constructor `UKF::UKF()` (named `new`: inside the namespace of the
record the name `UKF` is the record itself).  `Xsig_pred_` and `time_us_` are allocated but not
assigned by the constructor; their initial contents are the arguments `X0` and
`t0`. -/
def UKF.new (X0 : Matrix (Fin 5) (Fin 15) F) (t0 : Int) : UKF F :=
  let n_aug_ : Int := 7
  let lambda_ : F := ((3 - n_aug_ : Int) : F)
  let std_laspx_ : F := 15 / 100
  let std_laspy_ : F := 15 / 100
  let std_radr_ : F := 3 / 10
  let std_radphi_ : F := 3 / 100
  let std_radrd_ : F := 3 / 10
  { is_initialized_ := false
    use_laser_ := true
    use_radar_ := true
    x_ := ![1, 1, 1, 1, 1]
    P_ := !![1, 0, 0, 0, 0;
             0, 1, 0, 0, 0;
             0, 0, 1, 0, 0;
             0, 0, 0, 1, 0;
             0, 0, 0, 0, 1]
    Xsig_pred_ := X0
    time_us_ := t0
    std_a_ := 1
    std_yawdd_ := 1
    std_laspx_ := std_laspx_
    std_laspy_ := std_laspy_
    std_radr_ := std_radr_
    std_radphi_ := std_radphi_
    std_radrd_ := std_radrd_
    weights_ := UKF.ctorWeights lambda_ n_aug_
    n_x_ := 5
    n_aug_ := n_aug_
    lambda_ := lambda_
    NIS_LIDAR_ := 0
    NIS_RADAR_ := 0
    R_LIDAR_ := !![std_laspx_ * std_laspx_, 0;
                   0, std_laspy_ * std_laspy_]
    R_RADAR_ := !![std_radr_ * std_radr_, 0, 0;
                   0, std_radphi_ * std_radphi_, 0;
                   0, 0, std_radrd_ * std_radrd_] }

/-- A division `a / b` whose divisor the source does not test: `none` when the
divisor is zero. -/
def checkedDiv (a b : F) : Option F :=
  if b = 0 then none else some (a / b)

/-- Modelled from the spec: the call `S.inverse()` (Eigen is not among the sources)
is the `S⁻¹` of the spec's Kalman gain `K = T · S⁻¹`: the inverse of an invertible
matrix, and `none` for a singular one, for which the spec defines no gain. -/
def inverse {n : Nat} (A : Matrix (Fin n) (Fin n) F) : Option (Matrix (Fin n) (Fin n) F) :=
  if A.det = 0 then none else some (A.det⁻¹ • A.adjugate)

/-- The loop `while (a > M_PI) a -= 2. * M_PI;` run for at most `fuel + 1` tests
of its guard: `none` when the guard still holds after `fuel` subtractions. The
subtraction is exact here; `whileAbovePiRounded` is the loop with the rounding of
`double`. -/
def whileAbovePi (pi : F) : Nat → F → Option F
  | 0, a => if a > pi then none else some a
  | fuel + 1, a => if a > pi then whileAbovePi pi fuel (a - 2 * pi) else some a

/-- The loop `while (a < -M_PI) a += 2. * M_PI;`, bounded like `whileAbovePi`. -/
def whileBelowNegPi (pi : F) : Nat → F → Option F
  | 0, a => if a < -pi then none else some a
  | fuel + 1, a => if a < -pi then whileBelowNegPi pi fuel (a + 2 * pi) else some a

/-- The two angle-normalisation loops in sequence (lines 258-261, 384-387,
402-405, 409-412, 421-424), each with at most `fuel` iterations. -/
def normalizeLoops (pi : F) (fuel : Nat) (a : F) : Option F :=
  (whileAbovePi pi fuel a).bind (whileBelowNegPi pi fuel)

/-- A number of iterations after which the loops have stopped, for `0 < pi`. -/
def angleFuel (pi a : F) : Nat :=
  ⌈|a| / (2 * pi)⌉₊ + 1

/-- The value the normalisation loops leave in the variable they work on, in exact
arithmetic (the loops are run with `angleFuel` iterations, which is enough when
`0 < pi`, see `normalizeLoops_angleFuel`). -/
def normalizeAngle (pi a : F) : F :=
  (normalizeLoops pi (angleFuel pi a) a).getD a

/-- Lines 161-168: the augmented mean state. -/
def UKF.x_aug (x_ : Fin 5 → F) : Fin 7 → F :=
  ![x_ 0, x_ 1, x_ 2, x_ 3, x_ 4, 0, 0]

/-- Lines 171-174: the augmented covariance matrix. -/
def UKF.P_aug (P_ : Matrix (Fin 5) (Fin 5) F) (std_a_ std_yawdd_ : F) :
    Matrix (Fin 7) (Fin 7) F :=
  Matrix.of fun r c =>
    if h : r.val < 5 ∧ c.val < 5 then P_ ⟨r.val, h.1⟩ ⟨c.val, h.2⟩
    else if r.val = 5 ∧ c.val = 5 then std_a_ * std_a_
    else if r.val = 6 ∧ c.val = 6 then std_yawdd_ * std_yawdd_
    else 0

/-- Lines 180-186: the augmented sigma points; column 0 is `x_aug`, column
`i + 1` is `x_aug + sqrt_aug * L.col(i)` and column `i + 1 + n_aug_` is
`x_aug - sqrt_aug * L.col(i)` for `i = 0 .. 6`. -/
def UKF.Xsig_aug (x_aug : Fin 7 → F) (sqrt_aug : F) (L : Matrix (Fin 7) (Fin 7) F) :
    Matrix (Fin 7) (Fin 15) F :=
  Matrix.of fun r c =>
    if c.val = 0 then x_aug r
    else if h : c.val < 8 then x_aug r + sqrt_aug * L r ⟨c.val - 1, by omega⟩
    else x_aug r - sqrt_aug * L r ⟨c.val - 8, by omega⟩

/-- Index `i + 1` of the column written by line 184 for the loop index `i`. -/
def UKF.colPlus (i : Fin 7) : Fin 15 := ⟨i.val + 1, by omega⟩

/-- Index `i + 1 + n_aug_` of the column written by line 185 for the loop index `i`. -/
def UKF.colMinus (i : Fin 7) : Fin 15 := ⟨i.val + 8, by omega⟩

/-- Lines 196-236: the CTRV propagation of one augmented sigma point `p` over
`delta_t`, giving the column written into `Xsig_pred_`. -/
def UKF.predictPoint (m : Numerics F) (delta_t : F) (p : Fin 7 → F) : Fin 5 → F :=
  let p_x := p 0
  let p_y := p 1
  let v := p 2
  let yaw := p 3
  let yawd := p 4
  let nu_a := p 5
  let nu_yawdd := p 6
  let px_p :=
    if |yawd| > 1 / 1000 then p_x + v / yawd * (m.sin (yaw + yawd * delta_t) - m.sin yaw)
    else p_x + v * delta_t * m.cos yaw
  let py_p :=
    if |yawd| > 1 / 1000 then p_y + v / yawd * (m.cos yaw - m.cos (yaw + yawd * delta_t))
    else p_y + v * delta_t * m.sin yaw
  let v_p := v
  let yaw_p := yaw + yawd * delta_t
  let yawd_p := yawd
  let px_p := px_p + 1 / 2 * nu_a * delta_t * delta_t * m.cos yaw
  let py_p := py_p + 1 / 2 * nu_a * delta_t * delta_t * m.sin yaw
  let v_p := v_p + nu_a * delta_t
  let yaw_p := yaw_p + 1 / 2 * nu_yawdd * delta_t * delta_t
  let yawd_p := yawd_p + nu_yawdd * delta_t
  ![px_p, py_p, v_p, yaw_p, yawd_p]

/-- Lines 243-247: the weighted sum of the columns of `Xsig_pred_`. -/
def UKF.predictedMean (w : Fin 15 → F) (X : Matrix (Fin 5) (Fin 15) F) : Fin 5 → F :=
  fun r => ∑ i : Fin 15, w i * X r i

/-- Lines 256-261 and 400-405: the difference `Xsig_pred_.col(i) - x_` with its
yaw entry (index 3) passed through the normalisation loops. -/
def UKF.x_diff (m : Numerics F) (X : Matrix (Fin 5) (Fin 15) F) (x : Fin 5 → F)
    (i : Fin 15) : Fin 5 → F :=
  fun r => if r = 3 then normalizeAngle m.M_PI (X r i - x r) else X r i - x r

/-- Lines 250-264: the weighted sum of the outer products of the normalised
differences. -/
def UKF.predictedCov (m : Numerics F) (w : Fin 15 → F) (X : Matrix (Fin 5) (Fin 15) F)
    (x : Fin 5 → F) : Matrix (Fin 5) (Fin 5) F :=
  Matrix.of fun a b => ∑ i : Fin 15, (UKF.x_diff m X x i a * UKF.x_diff m X x i b) * w i

/-- Lines 194-266: one iteration of the outer loop of `Prediction` for the
column `i`: it writes column `i` of `Xsig_pred_` and then recomputes `x_` and
`P_` from all fifteen columns of `Xsig_pred_` as they stand. -/
def UKF.predictionBody (m : Numerics F) (delta_t : F) (Xsig_aug : Matrix (Fin 7) (Fin 15) F)
    (s : UKF F) (i : Fin 15) : UKF F :=
  let col := UKF.predictPoint m delta_t (fun r => Xsig_aug r i)
  let X : Matrix (Fin 5) (Fin 15) F :=
    Matrix.of fun r c => if c = i then col r else s.Xsig_pred_ r c
  let x := UKF.predictedMean s.weights_ X
  let P := UKF.predictedCov m s.weights_ X x
  { s with Xsig_pred_ := X, x_ := x, P_ := P }

/-- Lines 160-186 of `Prediction`: the augmented sigma points of the state `s`. -/
def UKF.sigmaPoints (m : Numerics F) (s : UKF F) : Matrix (Fin 7) (Fin 15) F :=
  let x_aug := UKF.x_aug s.x_
  let P_aug := UKF.P_aug s.P_ s.std_a_ s.std_yawdd_
  let L := m.llt P_aug
  let sqrt_aug := m.sqrt (s.lambda_ + (s.n_aug_ : F))
  UKF.Xsig_aug x_aug sqrt_aug L

/-- The method `UKF::Prediction(double delta_t)`: the augmented sigma points are
built from the state on entry, then the outer loop runs over the fifteen
columns. -/
def UKF.Prediction (m : Numerics F) (s : UKF F) (delta_t : F) : UKF F :=
  (List.finRange 15).foldl (UKF.predictionBody m delta_t (UKF.sigmaPoints m s)) s

/-- Lines 291-296 and 368-373: the weighted sum of the columns of `Zsig`. -/
def UKF.z_pred {k : Nat} (w : Fin 15 → F) (Zsig : Matrix (Fin k) (Fin 15) F) : Fin k → F :=
  fun r => ∑ i : Fin 15, Zsig r i * w i

/-- Lines 283-289: the lidar measurement sigma points, rows 0 and 1 of
`Xsig_pred_`. -/
def UKF.lidarZsig (X : Matrix (Fin 5) (Fin 15) F) : Matrix (Fin 2) (Fin 15) F :=
  Matrix.of fun r i => ![X 0 i, X 1 i] r

/-- Lines 301-310: the innovation covariance `S` of `UpdateLidar`. -/
def UKF.lidarS (s : UKF F) : Matrix (Fin 2) (Fin 2) F :=
  let Zsig := UKF.lidarZsig s.Xsig_pred_
  let z_pred := UKF.z_pred s.weights_ Zsig
  (Matrix.of fun a b =>
    ∑ i : Fin 15, s.weights_ i * (Zsig a i - z_pred a) * (Zsig b i - z_pred b)) + s.R_LIDAR_

/-- Lines 313-322: the cross-covariance `T` of `UpdateLidar`; the state
difference is used as it is. -/
def UKF.lidarT (s : UKF F) : Matrix (Fin 5) (Fin 2) F :=
  let Zsig := UKF.lidarZsig s.Xsig_pred_
  let z_pred := UKF.z_pred s.weights_ Zsig
  Matrix.of fun a b =>
    ∑ i : Fin 15, s.weights_ i * (s.Xsig_pred_ a i - s.x_ a) * (Zsig b i - z_pred b)

/-- The method `UKF::UpdateLidar`; `none` when `S` is singular. The output to
`cout` is not part of the state. -/
def UKF.UpdateLidar (s : UKF F) (meas_package : MeasurementPackage F) : Option (UKF F) :=
  let z : Fin 2 → F := ![meas_package.raw_measurements_ 0, meas_package.raw_measurements_ 1]
  let z_pred := UKF.z_pred s.weights_ (UKF.lidarZsig s.Xsig_pred_)
  let S := UKF.lidarS s
  let T := UKF.lidarT s
  (inverse S).map fun Sinv =>
    let K : Matrix (Fin 5) (Fin 2) F := T * Sinv
    let z_diff : Fin 2 → F := z - z_pred
    { s with
      x_ := s.x_ + K.mulVec z_diff
      P_ := s.P_ - K * S * K.transpose
      NIS_LIDAR_ := Matrix.dotProduct (Matrix.vecMul z_diff Sinv) z_diff }

/-- Lines 353-365: the radar projection of one predicted sigma point; the
division by `rho` is not guarded in the source. -/
def UKF.radarPoint (m : Numerics F) (p : Fin 5 → F) : Option (Fin 3 → F) :=
  let p_x := p 0
  let p_y := p 1
  let v := p 2
  let yaw := p 3
  let rho := m.sqrt (p_x * p_x + p_y * p_y)
  let phi := m.atan2 p_y p_x
  (checkedDiv (p_x * m.cos yaw * v + p_y * m.sin yaw * v) rho).map fun rho_dot =>
    ![rho, phi, rho_dot]

/-- Lines 350-366: the radar measurement sigma points, defined when each of the
fifteen projections is. -/
def UKF.radarZsig (m : Numerics F) (X : Matrix (Fin 5) (Fin 15) F) :
    Option (Matrix (Fin 3) (Fin 15) F) :=
  if h : ∀ i : Fin 15, (UKF.radarPoint m (fun r => X r i)).isSome then
    some (Matrix.of fun r i => (UKF.radarPoint m (fun r => X r i)).get (h i) r)
  else none

/-- Lines 382-387 and 407-412: the difference `Zsig.col(i) - z_pred` with its
bearing entry (index 1) passed through the normalisation loops. -/
def UKF.radarDiff (m : Numerics F) (Zsig : Matrix (Fin 3) (Fin 15) F) (z_pred : Fin 3 → F)
    (i : Fin 15) : Fin 3 → F :=
  fun r => if r = 1 then normalizeAngle m.M_PI (Zsig r i - z_pred r) else Zsig r i - z_pred r

/-- Lines 378-392: the innovation covariance `S` of `UpdateRadar`. -/
def UKF.radarS (m : Numerics F) (s : UKF F) (Zsig : Matrix (Fin 3) (Fin 15) F) :
    Matrix (Fin 3) (Fin 3) F :=
  let z_pred := UKF.z_pred s.weights_ Zsig
  (Matrix.of fun a b =>
    ∑ i : Fin 15, s.weights_ i * UKF.radarDiff m Zsig z_pred i a * UKF.radarDiff m Zsig z_pred i b)
    + s.R_RADAR_

/-- Lines 394-415: the cross-covariance `T` of `UpdateRadar`. -/
def UKF.radarT (m : Numerics F) (s : UKF F) (Zsig : Matrix (Fin 3) (Fin 15) F) :
    Matrix (Fin 5) (Fin 3) F :=
  let z_pred := UKF.z_pred s.weights_ Zsig
  Matrix.of fun a b =>
    ∑ i : Fin 15, s.weights_ i * UKF.x_diff m s.Xsig_pred_ s.x_ i a
      * UKF.radarDiff m Zsig z_pred i b

/-- The method `UKF::UpdateRadar`; `none` when a projected range is zero or `S`
is singular. The output to `cout` is not part of the state. -/
def UKF.UpdateRadar (m : Numerics F) (s : UKF F) (meas_package : MeasurementPackage F) :
    Option (UKF F) :=
  let z : Fin 3 → F := ![meas_package.raw_measurements_ 0, meas_package.raw_measurements_ 1,
    meas_package.raw_measurements_ 2]
  (UKF.radarZsig m s.Xsig_pred_).bind fun Zsig =>
    let z_pred := UKF.z_pred s.weights_ Zsig
    let S := UKF.radarS m s Zsig
    let T := UKF.radarT m s Zsig
    (inverse S).map fun Sinv =>
      let K : Matrix (Fin 5) (Fin 3) F := T * Sinv
      let z_diff : Fin 3 → F :=
        fun r => if r = 1 then normalizeAngle m.M_PI (z r - z_pred r) else z r - z_pred r
      { s with
        x_ := s.x_ + K.mulVec z_diff
        P_ := s.P_ - K * S * K.transpose
        NIS_RADAR_ := Matrix.dotProduct (Matrix.vecMul z_diff Sinv) z_diff }

/-- Lines 113-129: the branch of `ProcessMeasurement` taken when
`is_initialized_` is false. -/
def UKF.seed (m : Numerics F) (s : UKF F) (meas_package : MeasurementPackage F) : UKF F :=
  let s1 : UKF F :=
    if meas_package.sensor_type_ = SensorType.RADAR then
      let px_init := m.toFloat
        (meas_package.raw_measurements_ 0 * m.cos (meas_package.raw_measurements_ 1))
      let py_init := m.toFloat
        (meas_package.raw_measurements_ 0 * m.sin (meas_package.raw_measurements_ 1))
      { s with x_ := ![px_init, py_init, 0, 0, 0] }
    else s
  let s2 : UKF F :=
    if meas_package.sensor_type_ = SensorType.LASER then
      { s1 with x_ := ![meas_package.raw_measurements_ 0, meas_package.raw_measurements_ 1,
          0, 0, 0] }
    else s1
  { s2 with time_us_ := meas_package.timestamp_, is_initialized_ := true }

/-- Lines 137-145: the two guarded update calls that follow `Prediction`. -/
def UKF.updateBySensor (m : Numerics F) (s : UKF F) (meas_package : MeasurementPackage F) :
    Option (UKF F) :=
  (if s.use_radar_ && decide (meas_package.sensor_type_ = SensorType.RADAR) then
      UKF.UpdateRadar m s meas_package
    else some s).bind fun s1 =>
  if s1.use_laser_ && decide (meas_package.sensor_type_ = SensorType.LASER) then
    UKF.UpdateLidar s1 meas_package
  else some s1

/-- The method `UKF::ProcessMeasurement`. -/
def UKF.ProcessMeasurement (m : Numerics F) (s : UKF F) (meas_package : MeasurementPackage F) :
    Option (UKF F) :=
  if !s.is_initialized_ then
    some (UKF.seed m s meas_package)
  else
    let delta_t : F := ((meas_package.timestamp_ - s.time_us_ : Int) : F) / 1000000
    let s1 : UKF F := { s with time_us_ := meas_package.timestamp_ }
    UKF.updateBySensor m (UKF.Prediction m s1 delta_t) meas_package

/-- The fifteen columns that the outer loop of `Prediction` writes into
`Xsig_pred_`: column `i` is the propagation of column `i` of `Xsig_aug`. -/
def UKF.propagated (m : Numerics F) (delta_t : F) (Xsig_aug : Matrix (Fin 7) (Fin 15) F) :
    Matrix (Fin 5) (Fin 15) F :=
  Matrix.of fun r c => UKF.predictPoint m delta_t (fun k => Xsig_aug k c) r

/-- The tuning constants that only the constructor assigns hold the constructor's
values (the two toggles `use_laser_`, `use_radar_` are not among them). -/
def UKF.HasCtorConstants (s : UKF F) : Prop :=
  s.weights_ = (UKF.new 0 0 : UKF F).weights_ ∧ s.lambda_ = (UKF.new 0 0 : UKF F).lambda_ ∧
    s.n_aug_ = 7 ∧ s.n_x_ = 5 ∧ s.std_a_ = 1 ∧ s.std_yawdd_ = 1 ∧
    s.R_LIDAR_ = (UKF.new 0 0 : UKF F).R_LIDAR_ ∧ s.R_RADAR_ = (UKF.new 0 0 : UKF F).R_RADAR_

/-- The `<cmath>` routines of `m` are the exact real functions: `sqrt`, `sin`, `cos`,
the two-argument arctangent (the argument of `x + y i`, in `(-π, π]`), and
`M_PI = π`. -/
def Numerics.Exact (m : Numerics ℝ) : Prop :=
  (∀ x, m.sqrt x = Real.sqrt x) ∧ (∀ x, m.sin x = Real.sin x) ∧ (∀ x, m.cos x = Real.cos x) ∧
    (∀ y x, m.atan2 y x = Complex.arg ⟨x, y⟩) ∧ m.M_PI = Real.pi

/-- Modelled from the spec: what `P_aug.llt().matrixL()` returns (Eigen is not among
the sources), "the lower-triangular Cholesky factor `L` of the augmented
covariance": `L` is lower triangular with a positive diagonal and `L * Lᵀ = A`. -/
def IsCholeskyFactor {n : Nat} (L A : Matrix (Fin n) (Fin n) F) : Prop :=
  (∀ i j, i < j → L i j = 0) ∧ (∀ i, 0 < L i i) ∧ L * L.transpose = A

/-- Positive semi-definiteness of a square matrix: `vᵀ P v ≥ 0` for every `v`. -/
def IsPSD {n : Nat} (P : Matrix (Fin n) (Fin n) F) : Prop :=
  ∀ v : Fin n → F, 0 ≤ Matrix.dotProduct v (P.mulVec v)

/-- The states a filter goes through: the constructed filter, and the state after
each call of `ProcessMeasurement` whose timestamp is not before the one recorded
by the previous call. -/
inductive UKF.Reachable (m : Numerics F) : UKF F → Prop where
  | ctor (X0 : Matrix (Fin 5) (Fin 15) F) (t0 : Int) : UKF.Reachable m (UKF.new X0 t0)
  | step (s s2 : UKF F) (meas_package : MeasurementPackage F) :
      UKF.Reachable m s →
      (s.is_initialized_ = true → s.time_us_ ≤ meas_package.timestamp_) →
      UKF.ProcessMeasurement m s meas_package = some s2 →
      UKF.Reachable m s2

/-- Lines 210-211: the position `(px_p, py_p)` assigned in the branch
`fabs(yawd) > 0.001` of the per-point propagation. -/
def UKF.turnPosition (m : Numerics F) (p_x p_y v yaw yawd delta_t : F) : F × F :=
  (p_x + v / yawd * (m.sin (yaw + yawd * delta_t) - m.sin yaw),
    p_y + v / yawd * (m.cos yaw - m.cos (yaw + yawd * delta_t)))

/-- Lines 215-216: the position `(px_p, py_p)` assigned in the other branch. -/
def UKF.straightPosition (m : Numerics F) (p_x p_y v yaw delta_t : F) : F × F :=
  (p_x + v * delta_t * m.cos yaw, p_y + v * delta_t * m.sin yaw)

/-- The reference design of the prediction step, written after the words of the spec
(to be compared with `UKF.Prediction`, which is the source): "the design given here
performs recombination once after all 15 points are propagated"; "predicted state
mean = weighted sum (using the fixed weights vector) of the 15 propagated points";
"predicted covariance = weighted sum of outer products of (point − mean), with the
yaw component of each difference normalized into [−π, π] before use". -/
def UKF.PredictionReference (m : Numerics F) (s : UKF F) (delta_t : F) : UKF F :=
  let Xsig_aug := UKF.sigmaPoints m s
  let points : Matrix (Fin 5) (Fin 15) F :=
    Matrix.of fun r i => UKF.predictPoint m delta_t (fun k => Xsig_aug k i) r
  let mean : Fin 5 → F := fun r => ∑ i : Fin 15, s.weights_ i * points r i
  let difference : Fin 15 → Fin 5 → F := fun i r =>
    if r = 3 then normalizeAngle m.M_PI (points r i - mean r) else points r i - mean r
  let covariance : Matrix (Fin 5) (Fin 5) F :=
    Matrix.of fun a b => ∑ i : Fin 15, s.weights_ i * (difference i a * difference i b)
  { s with Xsig_pred_ := points, x_ := mean, P_ := covariance }

/-- Positive definiteness of a square matrix: `vᵀ P v > 0` for every `v ≠ 0`. -/
def IsPD {n : Nat} (P : Matrix (Fin n) (Fin n) F) : Prop :=
  ∀ v : Fin n → F, v ≠ 0 → 0 < Matrix.dotProduct v (P.mulVec v)

/-- The cross-covariance of the lidar update under the wrap-before-combine rule,
written after the words of the spec (to be compared with `UKF.lidarT`, which is the
source): the "weighted sum of (state sigma point − predicted state mean) outer
(measurement sigma point − predicted measurement mean)" in which "the yaw component of
each difference [is] normalized into [−π, π] before use", as `UKF.x_diff` does it in
`Prediction` and in `UpdateRadar`. -/
def UKF.lidarTWrapped (m : Numerics F) (s : UKF F) : Matrix (Fin 5) (Fin 2) F :=
  let Zsig := UKF.lidarZsig s.Xsig_pred_
  let z_pred := UKF.z_pred s.weights_ Zsig
  Matrix.of fun a b =>
    ∑ i : Fin 15, s.weights_ i * UKF.x_diff m s.Xsig_pred_ s.x_ i a * (Zsig b i - z_pred b)

/-- The integer nearest to `x`; when `x` lies half-way between two integers, the even
one (the IEEE 754 rule "round to nearest, ties to even"). -/
def roundHalfEven (x : F) : Int :=
  if Int.fract x < 1 / 2 then ⌊x⌋
  else if 1 / 2 < Int.fract x then ⌊x⌋ + 1
  else if ⌊x⌋ % 2 = 0 then ⌊x⌋
  else ⌊x⌋ + 1

/-- The value of a binary floating-point format with a significand of `p` bits that is
nearest to `x` (round to nearest, ties to even): with `2 ^ k ≤ |x| < 2 ^ (k + 1)` the
values of the format around `x` are the multiples of `2 ^ (k - (p - 1))`. The exponent
range is not bounded (no overflow to infinity, no subnormal numbers). -/
def roundBinary (p : Nat) (x : F) : F :=
  let e : Int := Int.log 2 |x| - ((p : Int) - 1)
  (roundHalfEven (x / (2 : F) ^ e) : F) * (2 : F) ^ e

/-- The loop `while (a > M_PI) a -= 2. * M_PI;` as it runs on `double`: the constant
`2. * M_PI` and each difference are the results of a rounded operation, `fl` giving the
`double` nearest to an exact value. Run for at most `fuel + 1` tests of the guard:
`none` when the guard still holds after `fuel` subtractions. -/
def whileAbovePiRounded (fl : F → F) (pi : F) : Nat → F → Option F
  | 0, a => if a > pi then none else some a
  | fuel + 1, a =>
    if a > pi then whileAbovePiRounded fl pi fuel (fl (a - fl (2 * pi))) else some a

/-- The loop `while (a < -M_PI) a += 2. * M_PI;` as it runs on `double`, bounded like
`whileAbovePiRounded`. -/
def whileBelowNegPiRounded (fl : F → F) (pi : F) : Nat → F → Option F
  | 0, a => if a < -pi then none else some a
  | fuel + 1, a =>
    if a < -pi then whileBelowNegPiRounded fl pi fuel (fl (a + fl (2 * pi))) else some a

/-- The two angle-normalisation loops in sequence as they run on `double`, each with at
most `fuel` iterations. -/
def normalizeLoopsRounded (fl : F → F) (pi : F) (fuel : Nat) (a : F) : Option F :=
  (whileAbovePiRounded fl pi fuel a).bind (whileBelowNegPiRounded fl pi fuel)

/-- The `double` that the macro `M_PI` of `<cmath>` (3.14159265358979323846) denotes:
`0x400921FB54442D18`, that is `884279719003555 / 2 ^ 48`. -/
def M_PI_double : F := 884279719003555 / 281474976710656

/-- The conversion `double → float → double` of `m` is the IEEE 754 one on the values
that `float` represents as zero or in its normal range: zero stays zero, and a value of
magnitude between `2 ^ (-126)` and `2 ^ 127` becomes the nearest number with a
significand of 24 bits. -/
def Numerics.NarrowsToFloat (m : Numerics F) : Prop :=
  m.toFloat 0 = 0 ∧
    ∀ x : F, (2 : F) ^ (-126 : Int) ≤ |x| → |x| ≤ 2 ^ 127 → m.toFloat x = roundBinary 24 x

/-- Lines 256-261 as they run on `double`: the difference `Xsig_pred_.col(i) - x_` with
its yaw entry (index 3) passed through the two normalisation loops, each update rounded
by `fl`; `none` when a loop has not stopped within `fuel` iterations. -/
def UKF.x_diffRounded (fl : F → F) (fuel : Nat) (m : Numerics F)
    (X : Matrix (Fin 5) (Fin 15) F) (x : Fin 5 → F) (i : Fin 15) : Option (Fin 5 → F) :=
  (normalizeLoopsRounded fl m.M_PI fuel (X 3 i - x 3)).map fun yaw =>
    fun r => if r = 3 then yaw else X r i - x r

/-- Lines 250-264 as they run on `double`: the weighted sum of the outer products of the
normalised differences, defined when each of the fifteen normalisations has stopped. -/
def UKF.predictedCovRounded (fl : F → F) (fuel : Nat) (m : Numerics F) (w : Fin 15 → F)
    (X : Matrix (Fin 5) (Fin 15) F) (x : Fin 5 → F) : Option (Matrix (Fin 5) (Fin 5) F) :=
  if h : ∀ i : Fin 15, (UKF.x_diffRounded fl fuel m X x i).isSome then
    some (Matrix.of fun a b =>
      ∑ i : Fin 15, ((UKF.x_diffRounded fl fuel m X x i).get (h i) a
        * (UKF.x_diffRounded fl fuel m X x i).get (h i) b) * w i)
  else none

/-- Lines 194-266 as they run on `double`: one iteration of the outer loop of
`Prediction` for the column `i`, which writes column `i` of `Xsig_pred_` and then
recomputes `x_` and `P_` from all fifteen columns of `Xsig_pred_` as they stand; `none`
when a normalisation loop has not stopped within `fuel` iterations. -/
def UKF.predictionBodyRounded (fl : F → F) (fuel : Nat) (m : Numerics F) (delta_t : F)
    (Xsig_aug : Matrix (Fin 7) (Fin 15) F) (s : UKF F) (i : Fin 15) : Option (UKF F) :=
  let col := UKF.predictPoint m delta_t (fun r => Xsig_aug r i)
  let X : Matrix (Fin 5) (Fin 15) F :=
    Matrix.of fun r c => if c = i then col r else s.Xsig_pred_ r c
  let x := UKF.predictedMean s.weights_ X
  (UKF.predictedCovRounded fl fuel m s.weights_ X x).map fun P =>
    { s with Xsig_pred_ := X, x_ := x, P_ := P }

/-- The method `UKF::Prediction(double delta_t)` with its normalisation loops as they run
on `double` (every other operation is exact, as in `UKF.Prediction`): the outer loop runs
over the fifteen columns and returns no state when a normalisation loop has not stopped
within `fuel` iterations. -/
def UKF.PredictionRounded (fl : F → F) (fuel : Nat) (m : Numerics F) (s : UKF F)
    (delta_t : F) : Option (UKF F) :=
  (List.finRange 15).foldlM
    (UKF.predictionBodyRounded fl fuel m delta_t (UKF.sigmaPoints m s)) s

/-- The reference design of the prediction step, written after the words of the spec as
`UKF.PredictionReference` is, with the normalisation loops of `UKF.PredictionRounded`:
the fifteen sigma points are propagated, then the weighted mean and the yaw-wrapped
weighted covariance are computed once. -/
def UKF.PredictionReferenceRounded (fl : F → F) (fuel : Nat) (m : Numerics F) (s : UKF F)
    (delta_t : F) : Option (UKF F) :=
  let Xsig_aug := UKF.sigmaPoints m s
  let points : Matrix (Fin 5) (Fin 15) F :=
    Matrix.of fun r i => UKF.predictPoint m delta_t (fun k => Xsig_aug k i) r
  let mean : Fin 5 → F := fun r => ∑ i : Fin 15, s.weights_ i * points r i
  (UKF.predictedCovRounded fl fuel m s.weights_ points mean).map fun covariance =>
    { s with Xsig_pred_ := points, x_ := mean, P_ := covariance }

end Defs

section Theorems

/-- A sum over the fifteen sigma-point indices, written out. -/
theorem sum_univ_fifteen {M : Type} [AddCommMonoid M] (f : Fin 15 → M) :
    ∑ i : Fin 15, f i = f 0 + f 1 + f 2 + f 3 + f 4 + f 5 + f 6 + f 7 + f 8 + f 9 + f 10
      + f 11 + f 12 + f 13 + f 14 := by
  rw [Fin.sum_univ_castSucc, Fin.sum_univ_castSucc, Fin.sum_univ_castSucc, Fin.sum_univ_castSucc,
    Fin.sum_univ_castSucc, Fin.sum_univ_castSucc, Fin.sum_univ_castSucc, Fin.sum_univ_eight]
  rfl

/-- A sum over the fifteen sigma-point indices, split into column 0, the columns
`i + 1` and the columns `i + 1 + n_aug_`. -/
theorem UKF.sum_sigma_columns {M : Type} [AddCommMonoid M] (f : Fin 15 → M) :
    ∑ i : Fin 15, f i
      = f 0 + (∑ j : Fin 7, f (UKF.colPlus j) + ∑ j : Fin 7, f (UKF.colMinus j)) := by
  rw [sum_univ_fifteen, Fin.sum_univ_seven, Fin.sum_univ_seven]
  change f 0 + f 1 + f 2 + f 3 + f 4 + f 5 + f 6 + f 7 + f 8 + f 9 + f 10
      + f 11 + f 12 + f 13 + f 14 = f 0 + ((f 1 + f 2 + f 3 + f 4 + f 5 + f 6 + f 7)
      + (f 8 + f 9 + f 10 + f 11 + f 12 + f 13 + f 14))
  abel

/-- Column 0 of the augmented sigma points is the augmented mean. -/
theorem UKF.Xsig_aug_zero {F : Type} [LinearOrderedField F] (xa : Fin 7 → F) (q : F)
    (L : Matrix (Fin 7) (Fin 7) F) (r : Fin 7) : UKF.Xsig_aug xa q L r 0 = xa r := by
  simp [UKF.Xsig_aug]

/-- Column `i + 1` of the augmented sigma points. -/
theorem UKF.Xsig_aug_colPlus {F : Type} [LinearOrderedField F] (xa : Fin 7 → F) (q : F)
    (L : Matrix (Fin 7) (Fin 7) F) (r : Fin 7) (j : Fin 7) :
    UKF.Xsig_aug xa q L r (UKF.colPlus j) = xa r + q * L r j := by
  have h : (UKF.colPlus j).val < 8 := by
    have := j.isLt
    simp only [UKF.colPlus]
    omega
  simp [UKF.Xsig_aug, h]
  simp [UKF.colPlus]

/-- Column `i + 1 + n_aug_` of the augmented sigma points. -/
theorem UKF.Xsig_aug_colMinus {F : Type} [LinearOrderedField F] (xa : Fin 7 → F) (q : F)
    (L : Matrix (Fin 7) (Fin 7) F) (r : Fin 7) (j : Fin 7) :
    UKF.Xsig_aug xa q L r (UKF.colMinus j) = xa r - q * L r j := by
  have h : ¬ (UKF.colMinus j).val < 8 := by simp [UKF.colMinus]
  have h0 : ¬ (UKF.colMinus j).val = 0 := by simp [UKF.colMinus]
  simp [UKF.Xsig_aug, h]
  simp [UKF.colMinus]

/-- The first weight of a constructed filter. -/
theorem UKF.new_weights_zero {F : Type} [LinearOrderedField F]
    (X0 : Matrix (Fin 5) (Fin 15) F) (t0 : Int) : (UKF.new X0 t0).weights_ 0 = -4 / 3 := by
  simp [UKF.new, UKF.ctorWeights]
  norm_num

/-- The other fourteen weights of a constructed filter. -/
theorem UKF.new_weights_succ {F : Type} [LinearOrderedField F]
    (X0 : Matrix (Fin 5) (Fin 15) F) (t0 : Int) (j : Fin 14) :
    (UKF.new X0 t0).weights_ j.succ = 1 / 6 := by
  simp [UKF.new, UKF.ctorWeights]
  norm_num

/-- The weight of a column `i + 1`. -/
theorem UKF.new_weights_colPlus {F : Type} [LinearOrderedField F]
    (X0 : Matrix (Fin 5) (Fin 15) F) (t0 : Int) (j : Fin 7) :
    (UKF.new X0 t0).weights_ (UKF.colPlus j) = 1 / 6 := by
  simp [UKF.new, UKF.ctorWeights, UKF.colPlus]
  norm_num

/-- The weight of a column `i + 1 + n_aug_`. -/
theorem UKF.new_weights_colMinus {F : Type} [LinearOrderedField F]
    (X0 : Matrix (Fin 5) (Fin 15) F) (t0 : Int) (j : Fin 7) :
    (UKF.new X0 t0).weights_ (UKF.colMinus j) = 1 / 6 := by
  simp [UKF.new, UKF.ctorWeights, UKF.colMinus]
  norm_num

/-- C1: the weights built by the constructor are `-4/3` at index 0 and `1/6` at
each of the indices 1..14 (15 entries in all), and they sum to exactly 1. -/
theorem UKF.ctor_weights_values_and_sum {F : Type} [LinearOrderedField F]
    (X0 : Matrix (Fin 5) (Fin 15) F) (t0 : Int) :
    (UKF.new X0 t0).weights_ 0 = -4 / 3 ∧
    (∀ j : Fin 14, (UKF.new X0 t0).weights_ j.succ = 1 / 6) ∧
    (∑ i : Fin 15, (UKF.new X0 t0).weights_ i) = 1 := by
  refine ⟨UKF.new_weights_zero X0 t0, UKF.new_weights_succ X0 t0, ?_⟩
  rw [Fin.sum_univ_succ, UKF.new_weights_zero]
  simp only [UKF.new_weights_succ, Finset.sum_const, Finset.card_univ, Fintype.card_fin]
  norm_num

/-- With the constructor's weights the weighted sum of the augmented sigma points
is the augmented mean. -/
theorem UKF.weighted_sum_Xsig_aug {F : Type} [LinearOrderedField F] (w : Fin 15 → F)
    (hw : w = (UKF.new 0 0 : UKF F).weights_) (xa : Fin 7 → F) (q : F)
    (L : Matrix (Fin 7) (Fin 7) F) (r : Fin 7) :
    ∑ i : Fin 15, w i * UKF.Xsig_aug xa q L r i = xa r := by
  subst hw
  rw [UKF.sum_sigma_columns]
  simp only [UKF.Xsig_aug_zero, UKF.Xsig_aug_colPlus, UKF.Xsig_aug_colMinus,
    UKF.new_weights_zero, UKF.new_weights_colPlus, UKF.new_weights_colMinus]
  rw [← Finset.sum_add_distrib]
  have h : ∀ j : Fin 7, 1 / 6 * (xa r + q * L r j)
      + 1 / 6 * (xa r - q * L r j) = 1 / 3 * xa r := fun j => by ring
  simp only [h, Finset.sum_const, Finset.card_univ, Fintype.card_fin]
  simp only [nsmul_eq_mul]
  push_cast
  ring

/-- C2: with the weights of the constructor, the weighted sum of the fifteen
augmented sigma points built from any mean `x`, any scale factor `q` (the source
uses `sqrt(lambda_ + n_aug_)`) and any square-root matrix `L` is the augmented
mean `(x, 0, 0)`. -/
theorem UKF.Xsig_aug_weighted_sum {F : Type} [LinearOrderedField F]
    (X0 : Matrix (Fin 5) (Fin 15) F) (t0 : Int) (x : Fin 5 → F) (q : F)
    (L : Matrix (Fin 7) (Fin 7) F) :
    (fun r => ∑ i : Fin 15, (UKF.new X0 t0).weights_ i * UKF.Xsig_aug (UKF.x_aug x) q L r i)
        = UKF.x_aug x ∧
      UKF.x_aug x = ![x 0, x 1, x 2, x 3, x 4, 0, 0] := by
  refine ⟨?_, rfl⟩
  funext r
  exact UKF.weighted_sum_Xsig_aug _ rfl (UKF.x_aug x) q L r

/-- Running `whileAbovePi` with one more iteration allowed does not change a result. -/
theorem whileAbovePi_succ {F : Type} [LinearOrderedField F] (pi : F) (fuel : Nat) (a r : F)
    (h : whileAbovePi pi fuel a = some r) : whileAbovePi pi (fuel + 1) a = some r := by
  induction fuel generalizing a with
  | zero =>
    by_cases ha : a > pi
    · simp [whileAbovePi, ha] at h
    · simp [whileAbovePi, ha] at h ⊢
      exact h
  | succ n ih =>
    by_cases ha : a > pi
    · rw [whileAbovePi, if_pos ha] at h
      rw [whileAbovePi, if_pos ha]
      exact ih _ h
    · rw [whileAbovePi, if_neg ha] at h
      rw [whileAbovePi, if_neg ha]
      exact h

/-- Running `whileBelowNegPi` with one more iteration allowed does not change a result. -/
theorem whileBelowNegPi_succ {F : Type} [LinearOrderedField F] (pi : F) (fuel : Nat) (a r : F)
    (h : whileBelowNegPi pi fuel a = some r) : whileBelowNegPi pi (fuel + 1) a = some r := by
  induction fuel generalizing a with
  | zero =>
    by_cases ha : a < -pi
    · simp [whileBelowNegPi, ha] at h
    · simp [whileBelowNegPi, ha] at h ⊢
      exact h
  | succ n ih =>
    by_cases ha : a < -pi
    · rw [whileBelowNegPi, if_pos ha] at h
      rw [whileBelowNegPi, if_pos ha]
      exact ih _ h
    · rw [whileBelowNegPi, if_neg ha] at h
      rw [whileBelowNegPi, if_neg ha]
      exact h

/-- A result of `whileAbovePi` is kept by every larger bound. -/
theorem whileAbovePi_mono {F : Type} [LinearOrderedField F] (pi : F) (fuel fuel2 : Nat) (a r : F)
    (hle : fuel ≤ fuel2) (h : whileAbovePi pi fuel a = some r) :
    whileAbovePi pi fuel2 a = some r := by
  induction hle with
  | refl => exact h
  | step _ ih => exact whileAbovePi_succ pi _ a r ih

/-- A result of `whileBelowNegPi` is kept by every larger bound. -/
theorem whileBelowNegPi_mono {F : Type} [LinearOrderedField F] (pi : F) (fuel fuel2 : Nat)
    (a r : F) (hle : fuel ≤ fuel2) (h : whileBelowNegPi pi fuel a = some r) :
    whileBelowNegPi pi fuel2 a = some r := by
  induction hle with
  | refl => exact h
  | step _ ih => exact whileBelowNegPi_succ pi _ a r ih

/-- The first loop stops within `fuel` iterations when `a - pi ≤ 2 * pi * fuel`: it has
subtracted `2 * pi` some `k` times, leaves a value at most `pi`, and a value above
`-pi` when it ran at all. -/
theorem whileAbovePi_spec {F : Type} [LinearOrderedField F] (pi : F)
    (fuel : Nat) (a : F) (hf : a - pi ≤ 2 * pi * fuel) :
    ∃ k : Nat, whileAbovePi pi fuel a = some (a - 2 * pi * k) ∧ a - 2 * pi * k ≤ pi ∧
      (k = 0 ∨ -pi < a - 2 * pi * k) := by
  induction fuel generalizing a with
  | zero =>
    have ha : ¬ a > pi := by
      simp only [Nat.cast_zero, mul_zero] at hf
      intro h
      linarith
    exact ⟨0, by simp [whileAbovePi, ha], by simpa using not_lt.mp ha, Or.inl rfl⟩
  | succ n ih =>
    by_cases ha : a > pi
    · have hf2 : a - 2 * pi - pi ≤ 2 * pi * n := by
        push_cast at hf
        linarith
      obtain ⟨k, hk, hle, hlow⟩ := ih (a - 2 * pi) hf2
      refine ⟨k + 1, ?_, ?_, Or.inr ?_⟩
      · rw [whileAbovePi, if_pos ha, hk]
        push_cast
        congr 1
        ring
      · push_cast
        linarith
      · push_cast
        rcases hlow with h0 | h1
        · subst h0
          simp only [Nat.cast_zero, mul_zero, zero_add, mul_one]
          linarith
        · linarith
    · exact ⟨0, by simp [whileAbovePi, ha], by simpa using not_lt.mp ha, Or.inl rfl⟩

/-- The second loop stops within `fuel` iterations when `-pi - a ≤ 2 * pi * fuel`: it has
added `2 * pi` some `k` times, leaves a value at least `-pi`, and a value below `pi`
when it ran at all. -/
theorem whileBelowNegPi_spec {F : Type} [LinearOrderedField F] (pi : F)
    (fuel : Nat) (a : F) (hf : -pi - a ≤ 2 * pi * fuel) :
    ∃ k : Nat, whileBelowNegPi pi fuel a = some (a + 2 * pi * k) ∧ -pi ≤ a + 2 * pi * k ∧
      (k = 0 ∨ a + 2 * pi * k < pi) := by
  induction fuel generalizing a with
  | zero =>
    have ha : ¬ a < -pi := by
      simp only [Nat.cast_zero, mul_zero] at hf
      intro h
      linarith
    exact ⟨0, by simp [whileBelowNegPi, ha], by simpa using not_lt.mp ha, Or.inl rfl⟩
  | succ n ih =>
    by_cases ha : a < -pi
    · have hf2 : -pi - (a + 2 * pi) ≤ 2 * pi * n := by
        push_cast at hf
        linarith
      obtain ⟨k, hk, hle, hlow⟩ := ih (a + 2 * pi) hf2
      refine ⟨k + 1, ?_, ?_, Or.inr ?_⟩
      · rw [whileBelowNegPi, if_pos ha, hk]
        push_cast
        congr 1
        ring
      · push_cast
        linarith
      · push_cast
        rcases hlow with h0 | h1
        · subst h0
          simp only [Nat.cast_zero, mul_zero, add_zero, zero_add, mul_one]
          linarith
        · linarith
    · exact ⟨0, by simp [whileBelowNegPi, ha], by simpa using not_lt.mp ha, Or.inl rfl⟩

/-- The bound `angleFuel` dominates `|a| / (2 * pi)`. -/
theorem angleFuel_bound {F : Type} [LinearOrderedField F] [FloorRing F] (pi : F) (hpi : 0 < pi)
    (a : F) : |a| ≤ 2 * pi * (angleFuel pi a : F) := by
  have h2 : 0 < 2 * pi := by linarith
  have h1 : |a| / (2 * pi) ≤ (⌈|a| / (2 * pi)⌉₊ : F) := Nat.le_ceil _
  have h3 : |a| ≤ 2 * pi * (⌈|a| / (2 * pi)⌉₊ : F) := by
    rw [div_le_iff₀ h2] at h1
    linarith
  simp only [angleFuel]
  push_cast
  linarith

/-- With the bound `angleFuel` the two loops have stopped: the result is in
`[-pi, pi]` and differs from `a` by an integer multiple of `2 * pi`. -/
theorem normalizeLoops_spec {F : Type} [LinearOrderedField F] [FloorRing F] (pi : F)
    (hpi : 0 < pi) (a : F) :
    ∃ r : F, normalizeLoops pi (angleFuel pi a) a = some r ∧ -pi ≤ r ∧ r ≤ pi ∧
      ∃ k : Int, r = a + 2 * pi * k := by
  have hb := angleFuel_bound pi hpi a
  have ha1 : a ≤ |a| := le_abs_self a
  have ha2 : -a ≤ |a| := neg_le_abs a
  obtain ⟨k1, h1, hle1, hlow1⟩ := whileAbovePi_spec pi (angleFuel pi a) a (by linarith)
  rcases hlow1 with h0 | hgt
  · subst h0
    simp only [Nat.cast_zero, mul_zero, sub_zero] at h1 hle1
    obtain ⟨k2, h2, hge2, hup2⟩ := whileBelowNegPi_spec pi (angleFuel pi a) a (by linarith)
    refine ⟨a + 2 * pi * k2, ?_, hge2, ?_, ⟨(k2 : Int), by push_cast; ring⟩⟩
    · simp [normalizeLoops, h1, h2]
    · rcases hup2 with h0 | hlt
      · subst h0
        simpa using hle1
      · exact le_of_lt hlt
  · have hnot : ¬ (a - 2 * pi * k1 < -pi) := not_lt.mpr (le_of_lt hgt)
    have h2 : whileBelowNegPi pi (angleFuel pi a) (a - 2 * pi * k1) = some (a - 2 * pi * k1) := by
      cases hfu : angleFuel pi a with
      | zero => simp [whileBelowNegPi, hnot]
      | succ n => simp [whileBelowNegPi, hnot]
    refine ⟨a - 2 * pi * k1, ?_, le_of_lt hgt, hle1, ⟨-(k1 : Int), by push_cast; ring⟩⟩
    simp [normalizeLoops, h1, h2]

/-- The loops run with any bound from `angleFuel` on return `normalizeAngle`. -/
theorem normalizeLoops_angleFuel {F : Type} [LinearOrderedField F] [FloorRing F] (pi : F)
    (hpi : 0 < pi) (a : F) (fuel : Nat) (hfuel : angleFuel pi a ≤ fuel) :
    normalizeLoops pi fuel a = some (normalizeAngle pi a) := by
  obtain ⟨r, hr, -⟩ := normalizeLoops_spec pi hpi a
  have hn : normalizeAngle pi a = r := by simp [normalizeAngle, hr]
  rw [hn]
  simp only [normalizeLoops] at hr ⊢
  cases h1 : whileAbovePi pi (angleFuel pi a) a with
  | none => simp [h1] at hr
  | some r1 =>
    rw [h1] at hr
    simp only [Option.some_bind] at hr
    rw [whileAbovePi_mono pi _ fuel a r1 hfuel h1]
    simp only [Option.some_bind]
    exact whileBelowNegPi_mono pi _ fuel r1 r hfuel hr

/-- The two normalisation loops in exact arithmetic (every subtraction and addition of
`2 * pi` exact, `0 < pi`): run with at least `angleFuel` iterations allowed they return a
value `r`, which is `normalizeAngle`, with `-pi ≤ r ≤ pi` and `r = a + 2 * pi * k` for an
integer `k`. The loops as they run on `double` are `normalizeLoopsRounded`. -/
theorem normalizeLoops_terminate_in_range {F : Type} [LinearOrderedField F] [FloorRing F]
    (pi : F) (hpi : 0 < pi) (a : F) :
    (∀ fuel : Nat, angleFuel pi a ≤ fuel →
        normalizeLoops pi fuel a = some (normalizeAngle pi a)) ∧
      -pi ≤ normalizeAngle pi a ∧ normalizeAngle pi a ≤ pi ∧
      ∃ k : Int, normalizeAngle pi a = a + 2 * pi * k := by
  obtain ⟨r, hr, hlo, hhi, hk⟩ := normalizeLoops_spec pi hpi a
  have hn : normalizeAngle pi a = r := by simp [normalizeAngle, hr]
  rw [hn]
  refine ⟨fun fuel hfuel => ?_, hlo, hhi, hk⟩
  rw [← hn]
  exact normalizeLoops_angleFuel pi hpi a fuel hfuel

/-- One iteration of the outer loop of `Prediction`, as an update of the record. -/
theorem UKF.predictionBody_eq {F : Type} [LinearOrderedField F] [FloorRing F] (m : Numerics F)
    (delta_t : F) (Xa : Matrix (Fin 7) (Fin 15) F) (s : UKF F) (i : Fin 15) :
    UKF.predictionBody m delta_t Xa s i =
      { s with
        Xsig_pred_ := Matrix.of fun r c =>
          if c = i then UKF.propagated m delta_t Xa r c else s.Xsig_pred_ r c
        x_ := UKF.predictedMean s.weights_ (Matrix.of fun r c =>
          if c = i then UKF.propagated m delta_t Xa r c else s.Xsig_pred_ r c)
        P_ := UKF.predictedCov m s.weights_ (Matrix.of fun r c =>
            if c = i then UKF.propagated m delta_t Xa r c else s.Xsig_pred_ r c)
          (UKF.predictedMean s.weights_ (Matrix.of fun r c =>
            if c = i then UKF.propagated m delta_t Xa r c else s.Xsig_pred_ r c)) } := by
  have hX : (Matrix.of fun r c =>
      if c = i then UKF.predictPoint m delta_t (fun k => Xa k i) r else s.Xsig_pred_ r c)
      = (Matrix.of fun r c =>
          if c = i then UKF.propagated m delta_t Xa r c else s.Xsig_pred_ r c) := by
    ext r c
    by_cases h : c = i
    · subst h
      simp [UKF.propagated]
    · simp [h]
  simp only [UKF.predictionBody, hX]

/-- The state left by the outer loop of `Prediction` after the columns in `l` have been
processed, `l` not empty: `Xsig_pred_` has the propagated columns at the indices
in `l`, and `x_`, `P_` are recombined from that matrix. -/
theorem UKF.foldl_predictionBody {F : Type} [LinearOrderedField F] [FloorRing F]
    (m : Numerics F) (delta_t : F) (Xa : Matrix (Fin 7) (Fin 15) F) (l : List (Fin 15))
    (s : UKF F) (i : Fin 15) :
    (i :: l).foldl (UKF.predictionBody m delta_t Xa) s =
      { s with
        Xsig_pred_ := Matrix.of fun r c =>
          if c ∈ i :: l then UKF.propagated m delta_t Xa r c else s.Xsig_pred_ r c
        x_ := UKF.predictedMean s.weights_ (Matrix.of fun r c =>
          if c ∈ i :: l then UKF.propagated m delta_t Xa r c else s.Xsig_pred_ r c)
        P_ := UKF.predictedCov m s.weights_ (Matrix.of fun r c =>
            if c ∈ i :: l then UKF.propagated m delta_t Xa r c else s.Xsig_pred_ r c)
          (UKF.predictedMean s.weights_ (Matrix.of fun r c =>
            if c ∈ i :: l then UKF.propagated m delta_t Xa r c else s.Xsig_pred_ r c)) } := by
  induction l generalizing s i with
  | nil =>
    simp only [List.foldl_cons, List.foldl_nil, UKF.predictionBody_eq, List.mem_singleton]
  | cons j l ih =>
    rw [List.foldl_cons, ih, UKF.predictionBody_eq]
    have hX : (Matrix.of fun r c =>
        if c ∈ j :: l then UKF.propagated m delta_t Xa r c
        else (Matrix.of fun r c =>
          if c = i then UKF.propagated m delta_t Xa r c else s.Xsig_pred_ r c) r c)
        = (Matrix.of fun r c =>
          if c ∈ i :: j :: l then UKF.propagated m delta_t Xa r c else s.Xsig_pred_ r c) := by
      ext r c
      by_cases h1 : c ∈ j :: l
      · have h2 : c ∈ i :: j :: l := List.mem_cons_of_mem _ h1
        simp only [Matrix.of_apply, if_pos h1, if_pos h2]
      · by_cases h3 : c = i
        · have h2 : c ∈ i :: j :: l := by rw [h3]; exact List.mem_cons_self _ _
          simp only [Matrix.of_apply, if_neg h1, if_pos h3, if_pos h2]
        · have h2 : ¬ c ∈ i :: j :: l := by
            intro hc
            rcases List.mem_cons.mp hc with h | h
            · exact h3 h
            · exact h1 h
          simp only [Matrix.of_apply, if_neg h1, if_neg h3, if_neg h2]
    simp only [hX]

/-- The state left by `Prediction`: the fifteen propagated sigma points, their
weighted mean and the weighted covariance of their normalised differences. -/
theorem UKF.Prediction_eq {F : Type} [LinearOrderedField F] [FloorRing F] (m : Numerics F)
    (s : UKF F) (delta_t : F) :
    UKF.Prediction m s delta_t =
      { s with
        Xsig_pred_ := UKF.propagated m delta_t (UKF.sigmaPoints m s)
        x_ := UKF.predictedMean s.weights_ (UKF.propagated m delta_t (UKF.sigmaPoints m s))
        P_ := UKF.predictedCov m s.weights_ (UKF.propagated m delta_t (UKF.sigmaPoints m s))
          (UKF.predictedMean s.weights_ (UKF.propagated m delta_t (UKF.sigmaPoints m s))) } := by
  have hl : List.finRange 15 = (0 : Fin 15) :: (List.finRange 15).tail := by
    rw [List.finRange_succ_eq_map]
    rfl
  have hmem : ∀ c : Fin 15, c ∈ (0 : Fin 15) :: (List.finRange 15).tail := by
    intro c
    rw [← hl]
    exact List.mem_finRange c
  simp only [UKF.Prediction]
  rw [hl, UKF.foldl_predictionBody]
  simp only [hmem, if_true]
  rfl

/-- With `delta_t = 0` the propagation returns the first five entries of the
augmented sigma point, in the branch `fabs(yawd) > 0.001` and in the other. -/
theorem UKF.predictPoint_zero {F : Type} [LinearOrderedField F] (m : Numerics F)
    (p : Fin 7 → F) : UKF.predictPoint m 0 p = ![p 0, p 1, p 2, p 3, p 4] := by
  simp [UKF.predictPoint]

/-- With `delta_t = 0` and the constructor's weights, `Prediction` writes the first
five rows of the augmented sigma points into `Xsig_pred_` and leaves `x_` as it
was. -/
theorem UKF.Prediction_zero_state {F : Type} [LinearOrderedField F] [FloorRing F]
    (m : Numerics F) (s : UKF F) (hs : s.HasCtorConstants) :
    (∀ (r : Fin 5) (c : Fin 15), (UKF.Prediction m s 0).Xsig_pred_ r c
        = UKF.sigmaPoints m s (Fin.castLE (by omega) r) c) ∧
    (UKF.Prediction m s 0).x_ = s.x_ := by
  have hX : ∀ (r : Fin 5) (c : Fin 15), UKF.propagated m 0 (UKF.sigmaPoints m s) r c
      = UKF.sigmaPoints m s (Fin.castLE (by omega) r) c := by
    intro r c
    simp only [UKF.propagated, Matrix.of_apply, UKF.predictPoint_zero]
    fin_cases r <;> rfl
  refine ⟨?_, ?_⟩
  · intro r c
    rw [UKF.Prediction_eq]
    exact hX r c
  · rw [UKF.Prediction_eq]
    funext r
    simp only [UKF.predictedMean, hX]
    rw [UKF.sigmaPoints, UKF.weighted_sum_Xsig_aug s.weights_ hs.1]
    fin_cases r <;> rfl

/-- C4: for every state with the constructor's weights (any `x_`, any `P_`, any
numeric routines, hence any factor `L`), `Prediction` with `delta_t = 0` writes into
`Xsig_pred_` the first five rows of the augmented sigma points (the propagation
is the identity in both yaw-rate branches) and leaves `x_` unchanged. -/
theorem UKF.Prediction_zero_delta_t {F : Type} [LinearOrderedField F] [FloorRing F]
    (m : Numerics F) (s : UKF F) (hs : s.HasCtorConstants) :
    (∀ p : Fin 7 → F, UKF.predictPoint m 0 p = ![p 0, p 1, p 2, p 3, p 4]) ∧
    (∀ (r : Fin 5) (c : Fin 15), (UKF.Prediction m s 0).Xsig_pred_ r c
        = UKF.sigmaPoints m s (Fin.castLE (by omega) r) c) ∧
    (UKF.Prediction m s 0).x_ = s.x_ :=
  ⟨UKF.predictPoint_zero m, (UKF.Prediction_zero_state m s hs).1,
    (UKF.Prediction_zero_state m s hs).2⟩

/-- C4 at a concrete input: the constructed filter over the reals. -/
theorem UKF.Prediction_zero_delta_t_witness :
    (UKF.new 0 0 : UKF ℝ).HasCtorConstants ∧
    ((∀ p : Fin 7 → ℝ, UKF.predictPoint
        ⟨Real.sqrt, Real.sin, Real.cos, fun y x => Complex.arg ⟨x, y⟩, Real.pi, id, fun _ => 1⟩
        0 p = ![p 0, p 1, p 2, p 3, p 4]) ∧
    (∀ (r : Fin 5) (c : Fin 15), (UKF.Prediction
        ⟨Real.sqrt, Real.sin, Real.cos, fun y x => Complex.arg ⟨x, y⟩, Real.pi, id, fun _ => 1⟩
        (UKF.new 0 0) 0).Xsig_pred_ r c
        = UKF.sigmaPoints
          ⟨Real.sqrt, Real.sin, Real.cos, fun y x => Complex.arg ⟨x, y⟩, Real.pi, id, fun _ => 1⟩
          (UKF.new 0 0) (Fin.castLE (by omega) r) c) ∧
    (UKF.Prediction
        ⟨Real.sqrt, Real.sin, Real.cos, fun y x => Complex.arg ⟨x, y⟩, Real.pi, id, fun _ => 1⟩
        (UKF.new 0 0) 0).x_ = (UKF.new 0 0 : UKF ℝ).x_) :=
  ⟨⟨rfl, rfl, rfl, rfl, rfl, rfl, rfl, rfl⟩,
    UKF.Prediction_zero_delta_t _ (UKF.new 0 0) ⟨rfl, rfl, rfl, rfl, rfl, rfl, rfl, rfl⟩⟩

/-- C5: on a freshly constructed filter `ProcessMeasurement` of a LASER package
with readings `(x, y)` and timestamp `t` returns the state with
`x_ = [x, y, 0, 0, 0]`, the covariance still the 5×5 identity, `time_us_ = t` and
`is_initialized_` set; for the readings `(5, 3)` at `t = 0` the state is
`[5, 3, 0, 0, 0]`. -/
theorem UKF.ProcessMeasurement_first_laser {F : Type} [LinearOrderedField F] [FloorRing F]
    (m : Numerics F) (X0 : Matrix (Fin 5) (Fin 15) F) (t0 t : Int) (x y u : F) :
    (∃ s : UKF F, UKF.ProcessMeasurement m (UKF.new X0 t0) ⟨t, SensorType.LASER, ![x, y, u]⟩
        = some s ∧ s.x_ = ![x, y, 0, 0, 0] ∧ s.P_ = 1 ∧ s.time_us_ = t ∧
        s.is_initialized_ = true) ∧
    (∃ s : UKF F, UKF.ProcessMeasurement m (UKF.new X0 t0) ⟨0, SensorType.LASER, ![5, 3, u]⟩
        = some s ∧ s.x_ = ![5, 3, 0, 0, 0]) := by
  have hP : (UKF.new X0 t0).P_ = 1 := by
    ext i j
    fin_cases i <;> fin_cases j <;> rfl
  refine ⟨⟨_, rfl, ?_, ?_, rfl, rfl⟩, ⟨_, rfl, ?_⟩⟩
  · simp [UKF.seed]
  · simpa [UKF.seed] using hP
  · simp [UKF.seed]

/-- The covariance set by the constructor is the identity matrix. -/
theorem UKF.new_P {F : Type} [LinearOrderedField F] (X0 : Matrix (Fin 5) (Fin 15) F)
    (t0 : Int) : (UKF.new X0 t0).P_ = 1 := by
  ext i j
  fin_cases i <;> fin_cases j <;> rfl

/-- The state vector seeded from a RADAR package, for any numeric routines: the
two products are narrowed to `float` before they are stored. -/
theorem UKF.seed_radar {F : Type} [LinearOrderedField F] (m : Numerics F) (s : UKF F)
    (t : Int) (rho phi rho_dot : F) :
    (UKF.seed m s ⟨t, SensorType.RADAR, ![rho, phi, rho_dot]⟩).x_
      = ![m.toFloat (rho * m.cos phi), m.toFloat (rho * m.sin phi), 0, 0, 0] := by
  simp [UKF.seed]

/-- The covariance recombined from the sigma points is symmetric, whatever the
points, the mean, the weights and the angle normalisation. -/
theorem UKF.predictedCov_isSymm {F : Type} [LinearOrderedField F] [FloorRing F] (m : Numerics F)
    (w : Fin 15 → F) (X : Matrix (Fin 5) (Fin 15) F) (x : Fin 5 → F) :
    (UKF.predictedCov m w X x).IsSymm := by
  apply Matrix.IsSymm.ext
  intro i j
  simp only [UKF.predictedCov, Matrix.of_apply]
  exact Finset.sum_congr rfl fun k _ => by ring

/-- The update `P - K * S * Kᵀ` keeps `P` symmetric when `S` is symmetric. -/
theorem sub_mul_mul_transpose_isSymm {F : Type} [LinearOrderedField F] {n k : Nat}
    (P : Matrix (Fin n) (Fin n) F) (S : Matrix (Fin k) (Fin k) F) (K : Matrix (Fin n) (Fin k) F)
    (hP : P.IsSymm) (hS : S.IsSymm) : (P - K * S * K.transpose).IsSymm := by
  unfold Matrix.IsSymm at hP hS ⊢
  rw [Matrix.transpose_sub, Matrix.transpose_mul, Matrix.transpose_mul, Matrix.transpose_transpose,
    hP, hS, Matrix.mul_assoc]

/-- The lidar noise matrix of the constructor is symmetric. -/
theorem UKF.new_R_LIDAR_isSymm {F : Type} [LinearOrderedField F] :
    (UKF.new 0 0 : UKF F).R_LIDAR_.IsSymm := by
  apply Matrix.IsSymm.ext
  intro i j
  fin_cases i <;> fin_cases j <;> rfl

/-- The radar noise matrix of the constructor is symmetric. -/
theorem UKF.new_R_RADAR_isSymm {F : Type} [LinearOrderedField F] :
    (UKF.new 0 0 : UKF F).R_RADAR_.IsSymm := by
  apply Matrix.IsSymm.ext
  intro i j
  fin_cases i <;> fin_cases j <;> rfl

/-- The innovation covariance of the lidar update is symmetric. -/
theorem UKF.lidarS_isSymm {F : Type} [LinearOrderedField F] (s : UKF F)
    (hR : s.R_LIDAR_.IsSymm) : (UKF.lidarS s).IsSymm := by
  apply Matrix.IsSymm.ext
  intro i j
  have h := Matrix.IsSymm.apply hR i j
  simp only [UKF.lidarS, Matrix.add_apply, Matrix.of_apply, h]
  congr 1
  exact Finset.sum_congr rfl fun k _ => by ring

/-- The innovation covariance of the radar update is symmetric. -/
theorem UKF.radarS_isSymm {F : Type} [LinearOrderedField F] [FloorRing F] (m : Numerics F)
    (s : UKF F) (Zsig : Matrix (Fin 3) (Fin 15) F) (hR : s.R_RADAR_.IsSymm) :
    (UKF.radarS m s Zsig).IsSymm := by
  apply Matrix.IsSymm.ext
  intro i j
  have h := Matrix.IsSymm.apply hR i j
  simp only [UKF.radarS, Matrix.add_apply, Matrix.of_apply, h]
  congr 1
  exact Finset.sum_congr rfl fun k _ => by ring

/-- The inverse is defined exactly for a non-zero determinant. -/
theorem inverse_eq_some {F : Type} [LinearOrderedField F] {n : Nat}
    (A : Matrix (Fin n) (Fin n) F) (h : A.det ≠ 0) :
    inverse A = some (A.det⁻¹ • A.adjugate) := by
  simp [inverse, h]

/-- A defined inverse is the adjugate over the determinant, which is not zero. -/
theorem inverse_some_iff {F : Type} [LinearOrderedField F] {n : Nat}
    (A B : Matrix (Fin n) (Fin n) F) :
    inverse A = some B ↔ A.det ≠ 0 ∧ B = A.det⁻¹ • A.adjugate := by
  by_cases h : A.det = 0
  · simp [inverse, h]
  · simp [inverse, h, eq_comm]

/-- The radar projection of a point is defined exactly when its range is not zero. -/
theorem UKF.radarPoint_isSome {F : Type} [LinearOrderedField F] (m : Numerics F)
    (p : Fin 5 → F) :
    (UKF.radarPoint m p).isSome ↔ m.sqrt (p 0 * p 0 + p 1 * p 1) ≠ 0 := by
  by_cases h : m.sqrt (p 0 * p 0 + p 1 * p 1) = 0
  · simp [UKF.radarPoint, checkedDiv, h]
  · simp [UKF.radarPoint, checkedDiv, h]

/-- The radar sigma points are defined when every predicted point has a non-zero
range. -/
theorem UKF.radarZsig_isSome {F : Type} [LinearOrderedField F] (m : Numerics F)
    (X : Matrix (Fin 5) (Fin 15) F)
    (h : ∀ i : Fin 15, m.sqrt (X 0 i * X 0 i + X 1 i * X 1 i) ≠ 0) :
    ∃ Zsig, UKF.radarZsig m X = some Zsig := by
  have h2 : ∀ i : Fin 15, (UKF.radarPoint m (fun r => X r i)).isSome :=
    fun i => (UKF.radarPoint_isSome m _).mpr (h i)
  exact ⟨_, dif_pos h2⟩

/-- C8: the covariance is symmetric after every operation that writes it. For every
state the `P_` left by `Prediction` is symmetric. For every state with the
constructor's constants and a symmetric `P_`, `UpdateLidar` and `UpdateRadar`
return a state whenever no divisor is zero (`S` invertible, and for radar every
projected range non-zero), and the `P_` of every state they return is symmetric. -/
theorem UKF.P_symmetric_after_write {F : Type} [LinearOrderedField F] [FloorRing F]
    (m : Numerics F) :
    (∀ (s : UKF F) (delta_t : F), (UKF.Prediction m s delta_t).P_.IsSymm) ∧
    (∀ (s : UKF F) (meas_package : MeasurementPackage F), s.HasCtorConstants → s.P_.IsSymm →
      ((UKF.lidarS s).det ≠ 0 → ∃ s2, UKF.UpdateLidar s meas_package = some s2) ∧
      (∀ s2, UKF.UpdateLidar s meas_package = some s2 → s2.P_.IsSymm)) ∧
    (∀ (s : UKF F) (meas_package : MeasurementPackage F), s.HasCtorConstants → s.P_.IsSymm →
      ((∀ i : Fin 15, m.sqrt (s.Xsig_pred_ 0 i * s.Xsig_pred_ 0 i
            + s.Xsig_pred_ 1 i * s.Xsig_pred_ 1 i) ≠ 0) →
          ∃ Zsig, UKF.radarZsig m s.Xsig_pred_ = some Zsig) ∧
      (∀ Zsig, UKF.radarZsig m s.Xsig_pred_ = some Zsig → (UKF.radarS m s Zsig).det ≠ 0 →
          ∃ s2, UKF.UpdateRadar m s meas_package = some s2) ∧
      (∀ s2, UKF.UpdateRadar m s meas_package = some s2 → s2.P_.IsSymm)) := by
  refine ⟨?_, ?_, ?_⟩
  · intro s delta_t
    rw [UKF.Prediction_eq]
    exact UKF.predictedCov_isSymm m _ _ _
  · intro s meas_package hs hP
    have hR : s.R_LIDAR_.IsSymm := by
      rw [hs.2.2.2.2.2.2.1]
      exact UKF.new_R_LIDAR_isSymm
    refine ⟨fun hdet => ?_, fun s2 h2 => ?_⟩
    · simp [UKF.UpdateLidar, inverse_eq_some _ hdet]
    · simp only [UKF.UpdateLidar, Option.map_eq_some'] at h2
      obtain ⟨Sinv, -, rfl⟩ := h2
      exact sub_mul_mul_transpose_isSymm _ _ _ hP (UKF.lidarS_isSymm s hR)
  · intro s meas_package hs hP
    have hR : s.R_RADAR_.IsSymm := by
      rw [hs.2.2.2.2.2.2.2]
      exact UKF.new_R_RADAR_isSymm
    refine ⟨UKF.radarZsig_isSome m s.Xsig_pred_, fun Zsig hZ hdet => ?_, fun s2 h2 => ?_⟩
    · simp [UKF.UpdateRadar, hZ, inverse_eq_some _ hdet]
    · simp only [UKF.UpdateRadar, Option.bind_eq_some, Option.map_eq_some'] at h2
      obtain ⟨Zsig, -, Sinv, -, rfl⟩ := h2
      exact sub_mul_mul_transpose_isSymm _ _ _ hP (UKF.radarS_isSymm m s Zsig hR)

/-- The members `UpdateLidar` leaves alone. -/
theorem UKF.UpdateLidar_frame {F : Type} [LinearOrderedField F] (s s2 : UKF F)
    (meas_package : MeasurementPackage F) (h : UKF.UpdateLidar s meas_package = some s2) :
    s2.is_initialized_ = s.is_initialized_ ∧ s2.time_us_ = s.time_us_ ∧
      s2.Xsig_pred_ = s.Xsig_pred_ ∧ s2.use_laser_ = s.use_laser_ ∧
      s2.use_radar_ = s.use_radar_ ∧ s2.NIS_RADAR_ = s.NIS_RADAR_ := by
  simp only [UKF.UpdateLidar, Option.map_eq_some'] at h
  obtain ⟨Sinv, -, rfl⟩ := h
  exact ⟨rfl, rfl, rfl, rfl, rfl, rfl⟩

/-- The members `UpdateRadar` leaves alone. -/
theorem UKF.UpdateRadar_frame {F : Type} [LinearOrderedField F] [FloorRing F] (m : Numerics F)
    (s s2 : UKF F) (meas_package : MeasurementPackage F)
    (h : UKF.UpdateRadar m s meas_package = some s2) :
    s2.is_initialized_ = s.is_initialized_ ∧ s2.time_us_ = s.time_us_ ∧
      s2.Xsig_pred_ = s.Xsig_pred_ ∧ s2.use_laser_ = s.use_laser_ ∧
      s2.use_radar_ = s.use_radar_ ∧ s2.NIS_LIDAR_ = s.NIS_LIDAR_ := by
  simp only [UKF.UpdateRadar, Option.bind_eq_some, Option.map_eq_some'] at h
  obtain ⟨Zsig, -, Sinv, -, rfl⟩ := h
  exact ⟨rfl, rfl, rfl, rfl, rfl, rfl⟩

/-- The members the two guarded update calls leave alone. -/
theorem UKF.updateBySensor_frame {F : Type} [LinearOrderedField F] [FloorRing F]
    (m : Numerics F) (s s2 : UKF F) (meas_package : MeasurementPackage F)
    (h : UKF.updateBySensor m s meas_package = some s2) :
    s2.is_initialized_ = s.is_initialized_ ∧ s2.time_us_ = s.time_us_ ∧
      s2.Xsig_pred_ = s.Xsig_pred_ := by
  simp only [UKF.updateBySensor, Option.bind_eq_some] at h
  obtain ⟨s1, h1, h2⟩ := h
  have f1 : s1.is_initialized_ = s.is_initialized_ ∧ s1.time_us_ = s.time_us_ ∧
      s1.Xsig_pred_ = s.Xsig_pred_ := by
    split at h1
    · obtain ⟨a, b, c, -⟩ := UKF.UpdateRadar_frame m s s1 meas_package h1
      exact ⟨a, b, c⟩
    · cases h1
      exact ⟨rfl, rfl, rfl⟩
  have f2 : s2.is_initialized_ = s1.is_initialized_ ∧ s2.time_us_ = s1.time_us_ ∧
      s2.Xsig_pred_ = s1.Xsig_pred_ := by
    split at h2
    · obtain ⟨a, b, c, -⟩ := UKF.UpdateLidar_frame s1 s2 meas_package h2
      exact ⟨a, b, c⟩
    · cases h2
      exact ⟨rfl, rfl, rfl⟩
  exact ⟨f2.1.trans f1.1, f2.2.1.trans f1.2.1, f2.2.2.trans f1.2.2⟩

/-- C10: the seeding branch runs on the first call only. On an uninitialised filter
`ProcessMeasurement` returns the seeded state: `is_initialized_` is true and `P_`,
`Xsig_pred_`, `NIS_LIDAR_`, `NIS_RADAR_` are as before (no prediction, no update).
On an initialised filter it is the two guarded updates applied to the state left by
`Prediction` with `delta_t = (timestamp_ - time_us_) / 1000000`, and every state it
returns has `is_initialized_` true, the new timestamp, and the `Xsig_pred_` written
by that `Prediction`. -/
theorem UKF.ProcessMeasurement_seeds_once {F : Type} [LinearOrderedField F] [FloorRing F]
    (m : Numerics F) :
    (∀ (s : UKF F) (meas_package : MeasurementPackage F), s.is_initialized_ = false →
      UKF.ProcessMeasurement m s meas_package = some (UKF.seed m s meas_package) ∧
      (UKF.seed m s meas_package).is_initialized_ = true ∧
      (UKF.seed m s meas_package).P_ = s.P_ ∧
      (UKF.seed m s meas_package).Xsig_pred_ = s.Xsig_pred_ ∧
      (UKF.seed m s meas_package).NIS_LIDAR_ = s.NIS_LIDAR_ ∧
      (UKF.seed m s meas_package).NIS_RADAR_ = s.NIS_RADAR_) ∧
    (∀ (s : UKF F) (meas_package : MeasurementPackage F), s.is_initialized_ = true →
      UKF.ProcessMeasurement m s meas_package
        = UKF.updateBySensor m
            (UKF.Prediction m { s with time_us_ := meas_package.timestamp_ }
              (((meas_package.timestamp_ - s.time_us_ : Int) : F) / 1000000))
            meas_package ∧
      ∀ s2, UKF.ProcessMeasurement m s meas_package = some s2 →
        s2.is_initialized_ = true ∧ s2.time_us_ = meas_package.timestamp_ ∧
        s2.Xsig_pred_ = (UKF.Prediction m { s with time_us_ := meas_package.timestamp_ }
          (((meas_package.timestamp_ - s.time_us_ : Int) : F) / 1000000)).Xsig_pred_) := by
  refine ⟨fun s meas_package hs => ?_, fun s meas_package hs => ?_⟩
  · refine ⟨by simp [UKF.ProcessMeasurement, hs], rfl, ?_, ?_, ?_, ?_⟩
    all_goals
      simp only [UKF.seed]
      split <;> split <;> rfl
  · have hpm : UKF.ProcessMeasurement m s meas_package
        = UKF.updateBySensor m
            (UKF.Prediction m { s with time_us_ := meas_package.timestamp_ }
              (((meas_package.timestamp_ - s.time_us_ : Int) : F) / 1000000))
            meas_package := by
      simp [UKF.ProcessMeasurement, hs]
    refine ⟨hpm, fun s2 h2 => ?_⟩
    rw [hpm] at h2
    obtain ⟨a, b, c⟩ := UKF.updateBySensor_frame m _ s2 meas_package h2
    refine ⟨?_, ?_, c⟩
    · rw [a, UKF.Prediction_eq]
      exact hs
    · rw [b, UKF.Prediction_eq]

/-- The entries of the augmented mean. -/
theorem UKF.x_aug_apply {F : Type} [LinearOrderedField F] (x : Fin 5 → F) :
    UKF.x_aug x 0 = x 0 ∧ UKF.x_aug x 1 = x 1 ∧ UKF.x_aug x 2 = x 2 ∧ UKF.x_aug x 3 = x 3 ∧
      UKF.x_aug x 4 = x 4 ∧ UKF.x_aug x 5 = 0 ∧ UKF.x_aug x 6 = 0 :=
  ⟨rfl, rfl, rfl, rfl, rfl, rfl, rfl⟩

/-- The augmented covariance of the identity covariance with unit process noise is
the identity. -/
theorem UKF.P_aug_one {F : Type} [LinearOrderedField F] :
    UKF.P_aug (1 : Matrix (Fin 5) (Fin 5) F) 1 1 = 1 := by
  ext i j
  fin_cases i <;> fin_cases j <;> simp +decide [UKF.P_aug, Matrix.one_apply]

/-- The Cholesky factor of the identity matrix is the identity matrix. -/
theorem IsCholeskyFactor.eq_one {F : Type} [LinearOrderedField F] {n : Nat}
    (L : Matrix (Fin n) (Fin n) F) (h : IsCholeskyFactor L 1) : L = 1 := by
  obtain ⟨hup, hpos, hmul⟩ := h
  have key : ∀ (k : Nat) (j : Fin n), j.val = k → ∀ i : Fin n, L i j = if i = j then 1 else 0 := by
    intro k
    induction k using Nat.strong_induction_on with
    | _ k ih =>
      intro j hj i
      have hprev : ∀ c : Fin n, c < j → ∀ i : Fin n, L i c = if i = c then 1 else 0 :=
        fun c hc i => ih c.val (by rw [← hj]; exact hc) c rfl i
      have hrow : ∀ i : Fin n, (L * L.transpose) i j = L i j * L j j := by
        intro i
        rw [Matrix.mul_apply]
        simp only [Matrix.transpose_apply]
        rw [Finset.sum_eq_single j]
        · intro c _ hcj
          rcases lt_or_gt_of_ne hcj with hlt | hgt
          · rw [hprev c hlt j, if_neg (ne_of_gt hlt), mul_zero]
          · rw [hup j c hgt, mul_zero]
        · intro hj2
          exact absurd (Finset.mem_univ j) hj2
      have hjj : L j j = 1 := by
        have h1 := hrow j
        rw [hmul, Matrix.one_apply_eq] at h1
        rcases mul_self_eq_one_iff.mp h1.symm with h2 | h2
        · exact h2
        · have := hpos j
          rw [h2] at this
          linarith
      by_cases hij : i = j
      · rw [if_pos hij, hij, hjj]
      · rw [if_neg hij]
        rcases lt_or_gt_of_ne hij with hlt | hgt
        · exact hup i j hlt
        · have h1 := hrow i
          rw [hmul, Matrix.one_apply_ne hij, hjj, mul_one] at h1
          exact h1.symm
  ext i j
  rw [key j.val j rfl i, Matrix.one_apply]

/-- The augmented sigma points of a state with the constructor's constants and the
identity covariance, when `llt` returns a Cholesky factor of the identity. -/
theorem UKF.sigmaPoints_of_P_one {F : Type} [LinearOrderedField F] (m : Numerics F)
    (s : UKF F) (hs : s.HasCtorConstants) (hP : s.P_ = 1)
    (hL : IsCholeskyFactor (m.llt 1) 1) :
    UKF.sigmaPoints m s = UKF.Xsig_aug (UKF.x_aug s.x_) (m.sqrt 3) 1 := by
  obtain ⟨-, hlam, hn, -, ha, hy, -⟩ := hs
  have h3 : s.lambda_ + (s.n_aug_ : F) = 3 := by
    rw [hlam, hn]
    simp [UKF.new]
    norm_num
  simp only [UKF.sigmaPoints, hP, ha, hy, UKF.P_aug_one, h3, IsCholeskyFactor.eq_one _ hL]

/-- The CTRV propagation over `delta_t` of the sigma points around a state
`(px, py, 0, 0, 0)` with `L = 1`: the mean column, and the column that adds `e` to
entry `j` of the augmented mean, for `j = 0 .. 6`. -/
theorem UKF.predictPoint_first {F : Type} [LinearOrderedField F] (m : Numerics F)
    (hsin : m.sin 0 = 0) (hcos : m.cos 0 = 1) (px py delta_t e : F) :
    UKF.predictPoint m delta_t (UKF.x_aug ![px, py, 0, 0, 0]) = ![px, py, 0, 0, 0] ∧
    UKF.predictPoint m delta_t (fun k => UKF.x_aug ![px, py, 0, 0, 0] k
        + e * (1 : Matrix (Fin 7) (Fin 7) F) k 0) = ![px + e, py, 0, 0, 0] ∧
    UKF.predictPoint m delta_t (fun k => UKF.x_aug ![px, py, 0, 0, 0] k
        + e * (1 : Matrix (Fin 7) (Fin 7) F) k 1) = ![px, py + e, 0, 0, 0] ∧
    UKF.predictPoint m delta_t (fun k => UKF.x_aug ![px, py, 0, 0, 0] k
        + e * (1 : Matrix (Fin 7) (Fin 7) F) k 2) = ![px + e * delta_t, py, e, 0, 0] ∧
    UKF.predictPoint m delta_t (fun k => UKF.x_aug ![px, py, 0, 0, 0] k
        + e * (1 : Matrix (Fin 7) (Fin 7) F) k 3) = ![px, py, 0, e, 0] ∧
    UKF.predictPoint m delta_t (fun k => UKF.x_aug ![px, py, 0, 0, 0] k
        + e * (1 : Matrix (Fin 7) (Fin 7) F) k 4) = ![px, py, 0, e * delta_t, e] ∧
    UKF.predictPoint m delta_t (fun k => UKF.x_aug ![px, py, 0, 0, 0] k
        + e * (1 : Matrix (Fin 7) (Fin 7) F) k 5)
      = ![px + 1 / 2 * e * delta_t * delta_t, py, e * delta_t, 0, 0] ∧
    UKF.predictPoint m delta_t (fun k => UKF.x_aug ![px, py, 0, 0, 0] k
        + e * (1 : Matrix (Fin 7) (Fin 7) F) k 6)
      = ![px, py, 0, 1 / 2 * e * delta_t * delta_t, e * delta_t] := by
  obtain ⟨a0, a1, a2, a3, a4, a5, a6⟩ := UKF.x_aug_apply ![px, py, 0, 0, 0]
  have h0 : ¬ (1 / 1000 < |(0 : F)|) := by simp
  have h1 : ¬ ((1000 : F) < 0) := by norm_num
  refine ⟨?_, ?_, ?_, ?_, ?_, ?_, ?_, ?_⟩
  all_goals
    simp +decide [UKF.predictPoint, a0, a1, a2, a3, a4, a5, a6, Matrix.one_apply, hsin, hcos,
      h0, h1]

/-- A column `i + 1` of the propagated sigma points, from the augmented mean `xa`, the
scale `q` and the factor `L`. -/
theorem UKF.propagated_colPlus {F : Type} [LinearOrderedField F] (m : Numerics F)
    (delta_t : F) (xa : Fin 7 → F) (q : F) (L : Matrix (Fin 7) (Fin 7) F) (j : Fin 7) (r : Fin 5) :
    UKF.propagated m delta_t (UKF.Xsig_aug xa q L) r (UKF.colPlus j)
      = UKF.predictPoint m delta_t (fun k => xa k + q * L k j) r := by
  simp only [UKF.propagated, Matrix.of_apply, UKF.Xsig_aug_colPlus]

/-- A column `i + 1 + n_aug_` of the propagated sigma points. -/
theorem UKF.propagated_colMinus {F : Type} [LinearOrderedField F] (m : Numerics F)
    (delta_t : F) (xa : Fin 7 → F) (q : F) (L : Matrix (Fin 7) (Fin 7) F) (j : Fin 7) (r : Fin 5) :
    UKF.propagated m delta_t (UKF.Xsig_aug xa q L) r (UKF.colMinus j)
      = UKF.predictPoint m delta_t (fun k => xa k + -q * L k j) r := by
  simp only [UKF.propagated, Matrix.of_apply, UKF.Xsig_aug_colMinus, sub_eq_add_neg, neg_mul]

/-- Column 0 of the propagated sigma points. -/
theorem UKF.propagated_zero {F : Type} [LinearOrderedField F] (m : Numerics F)
    (delta_t : F) (xa : Fin 7 → F) (q : F) (L : Matrix (Fin 7) (Fin 7) F) (r : Fin 5) :
    UKF.propagated m delta_t (UKF.Xsig_aug xa q L) r 0 = UKF.predictPoint m delta_t xa r := by
  simp only [UKF.propagated, Matrix.of_apply, UKF.Xsig_aug_zero]

/-- The fifteen columns of `Xsig_pred_` after the first `Prediction` from a state
`(px, py, 0, 0, 0)` with the identity covariance; `q` is `sqrt(3)`. -/
theorem UKF.Prediction_first_Xsig {F : Type} [LinearOrderedField F] [FloorRing F]
    (m : Numerics F) (s : UKF F) (hs : s.HasCtorConstants) (hP : s.P_ = 1)
    (hL : IsCholeskyFactor (m.llt 1) 1) (hsin : m.sin 0 = 0) (hcos : m.cos 0 = 1)
    (px py : F) (hx : s.x_ = ![px, py, 0, 0, 0]) (dt : F) :
    (∀ r, (UKF.Prediction m s dt).Xsig_pred_ r 0 = ![px, py, 0, 0, 0] r) ∧
    (∀ r, (UKF.Prediction m s dt).Xsig_pred_ r 1 = ![px + m.sqrt 3, py, 0, 0, 0] r) ∧
    (∀ r, (UKF.Prediction m s dt).Xsig_pred_ r 2 = ![px, py + m.sqrt 3, 0, 0, 0] r) ∧
    (∀ r, (UKF.Prediction m s dt).Xsig_pred_ r 3
      = ![px + m.sqrt 3 * dt, py, m.sqrt 3, 0, 0] r) ∧
    (∀ r, (UKF.Prediction m s dt).Xsig_pred_ r 4 = ![px, py, 0, m.sqrt 3, 0] r) ∧
    (∀ r, (UKF.Prediction m s dt).Xsig_pred_ r 5
      = ![px, py, 0, m.sqrt 3 * dt, m.sqrt 3] r) ∧
    (∀ r, (UKF.Prediction m s dt).Xsig_pred_ r 6
      = ![px + 1 / 2 * m.sqrt 3 * dt * dt, py, m.sqrt 3 * dt, 0, 0] r) ∧
    (∀ r, (UKF.Prediction m s dt).Xsig_pred_ r 7
      = ![px, py, 0, 1 / 2 * m.sqrt 3 * dt * dt, m.sqrt 3 * dt] r) ∧
    (∀ r, (UKF.Prediction m s dt).Xsig_pred_ r 8 = ![px + -m.sqrt 3, py, 0, 0, 0] r) ∧
    (∀ r, (UKF.Prediction m s dt).Xsig_pred_ r 9 = ![px, py + -m.sqrt 3, 0, 0, 0] r) ∧
    (∀ r, (UKF.Prediction m s dt).Xsig_pred_ r 10
      = ![px + -m.sqrt 3 * dt, py, -m.sqrt 3, 0, 0] r) ∧
    (∀ r, (UKF.Prediction m s dt).Xsig_pred_ r 11 = ![px, py, 0, -m.sqrt 3, 0] r) ∧
    (∀ r, (UKF.Prediction m s dt).Xsig_pred_ r 12
      = ![px, py, 0, -m.sqrt 3 * dt, -m.sqrt 3] r) ∧
    (∀ r, (UKF.Prediction m s dt).Xsig_pred_ r 13
      = ![px + 1 / 2 * -m.sqrt 3 * dt * dt, py, -m.sqrt 3 * dt, 0, 0] r) ∧
    (∀ r, (UKF.Prediction m s dt).Xsig_pred_ r 14
      = ![px, py, 0, 1 / 2 * -m.sqrt 3 * dt * dt, -m.sqrt 3 * dt] r) := by
  have hX : (UKF.Prediction m s dt).Xsig_pred_
      = UKF.propagated m dt (UKF.Xsig_aug (UKF.x_aug ![px, py, 0, 0, 0]) (m.sqrt 3) 1) := by
    rw [UKF.Prediction_eq, UKF.sigmaPoints_of_P_one m s hs hP hL, hx]
  obtain ⟨c0, p0, p1, p2, p3, p4, p5, p6⟩ := UKF.predictPoint_first m hsin hcos px py dt (m.sqrt 3)
  obtain ⟨-, n0, n1, n2, n3, n4, n5, n6⟩ := UKF.predictPoint_first m hsin hcos px py dt (-m.sqrt 3)
  rw [hX]
  refine ⟨fun r => ?_, fun r => ?_, fun r => ?_, fun r => ?_, fun r => ?_, fun r => ?_,
    fun r => ?_, fun r => ?_, fun r => ?_, fun r => ?_, fun r => ?_, fun r => ?_, fun r => ?_,
    fun r => ?_, fun r => ?_⟩
  · rw [UKF.propagated_zero, c0]
  · rw [← p0]; exact UKF.propagated_colPlus m dt _ _ _ 0 r
  · rw [← p1]; exact UKF.propagated_colPlus m dt _ _ _ 1 r
  · rw [← p2]; exact UKF.propagated_colPlus m dt _ _ _ 2 r
  · rw [← p3]; exact UKF.propagated_colPlus m dt _ _ _ 3 r
  · rw [← p4]; exact UKF.propagated_colPlus m dt _ _ _ 4 r
  · rw [← p5]; exact UKF.propagated_colPlus m dt _ _ _ 5 r
  · rw [← p6]; exact UKF.propagated_colPlus m dt _ _ _ 6 r
  · rw [← n0]; exact UKF.propagated_colMinus m dt _ _ _ 0 r
  · rw [← n1]; exact UKF.propagated_colMinus m dt _ _ _ 1 r
  · rw [← n2]; exact UKF.propagated_colMinus m dt _ _ _ 2 r
  · rw [← n3]; exact UKF.propagated_colMinus m dt _ _ _ 3 r
  · rw [← n4]; exact UKF.propagated_colMinus m dt _ _ _ 4 r
  · rw [← n5]; exact UKF.propagated_colMinus m dt _ _ _ 5 r
  · rw [← n6]; exact UKF.propagated_colMinus m dt _ _ _ 6 r

/-- The fifteen weights of a state with the constructor's constants. -/
theorem UKF.HasCtorConstants.weights {F : Type} [LinearOrderedField F] (s : UKF F)
    (hs : s.HasCtorConstants) :
    s.weights_ 0 = -4 / 3 ∧ s.weights_ 1 = 1 / 6 ∧ s.weights_ 2 = 1 / 6 ∧ s.weights_ 3 = 1 / 6 ∧
    s.weights_ 4 = 1 / 6 ∧ s.weights_ 5 = 1 / 6 ∧ s.weights_ 6 = 1 / 6 ∧ s.weights_ 7 = 1 / 6 ∧
    s.weights_ 8 = 1 / 6 ∧ s.weights_ 9 = 1 / 6 ∧ s.weights_ 10 = 1 / 6 ∧ s.weights_ 11 = 1 / 6 ∧
    s.weights_ 12 = 1 / 6 ∧ s.weights_ 13 = 1 / 6 ∧ s.weights_ 14 = 1 / 6 := by
  rw [hs.1]
  exact ⟨UKF.new_weights_zero 0 0, UKF.new_weights_succ 0 0 0, UKF.new_weights_succ 0 0 1,
    UKF.new_weights_succ 0 0 2, UKF.new_weights_succ 0 0 3, UKF.new_weights_succ 0 0 4,
    UKF.new_weights_succ 0 0 5, UKF.new_weights_succ 0 0 6, UKF.new_weights_succ 0 0 7,
    UKF.new_weights_succ 0 0 8, UKF.new_weights_succ 0 0 9, UKF.new_weights_succ 0 0 10,
    UKF.new_weights_succ 0 0 11, UKF.new_weights_succ 0 0 12, UKF.new_weights_succ 0 0 13⟩

/-- `Prediction` keeps the constructor's constants. -/
theorem UKF.Prediction_hasCtorConstants {F : Type} [LinearOrderedField F] [FloorRing F]
    (m : Numerics F) (s : UKF F) (dt : F) (hs : s.HasCtorConstants) :
    (UKF.Prediction m s dt).HasCtorConstants := by
  rw [UKF.Prediction_eq]
  exact hs

/-- The state mean after the first `Prediction` from `(px, py, 0, 0, 0)` with the
identity covariance is `(px, py, 0, 0, 0)` again. -/
theorem UKF.Prediction_first_mean {F : Type} [LinearOrderedField F] [FloorRing F]
    (m : Numerics F) (s : UKF F) (hs : s.HasCtorConstants) (hP : s.P_ = 1)
    (hL : IsCholeskyFactor (m.llt 1) 1) (hsin : m.sin 0 = 0) (hcos : m.cos 0 = 1)
    (px py : F) (hx : s.x_ = ![px, py, 0, 0, 0]) (dt : F) :
    (UKF.Prediction m s dt).x_ = ![px, py, 0, 0, 0] := by
  obtain ⟨x0, x1, x2, x3, x4, x5, x6, x7, x8, x9, x10, x11, x12, x13, x14⟩ :=
    UKF.Prediction_first_Xsig m s hs hP hL hsin hcos px py hx dt
  obtain ⟨w0, w1, w2, w3, w4, w5, w6, w7, w8, w9, w10, w11, w12, w13, w14⟩ :=
    UKF.HasCtorConstants.weights s hs
  have hmean : (UKF.Prediction m s dt).x_
      = UKF.predictedMean s.weights_ (UKF.Prediction m s dt).Xsig_pred_ := by
    rw [UKF.Prediction_eq]
  rw [hmean]
  funext r
  simp only [UKF.predictedMean, sum_univ_fifteen, x0, x1, x2, x3, x4, x5, x6, x7, x8, x9, x10,
    x11, x12, x13, x14, w0, w1, w2, w3, w4, w5, w6, w7, w8, w9, w10, w11, w12, w13, w14]
  fin_cases r <;> simp <;> ring

/-- The lidar quantities at the state left by the first `Prediction` from
`(px, py, 0, 0, 0)` with the identity covariance: the predicted measurement, the
innovation covariance `S` and the cross-covariance `T`. -/
theorem UKF.Prediction_first_lidar {F : Type} [LinearOrderedField F] [FloorRing F]
    (m : Numerics F) (s : UKF F) (hs : s.HasCtorConstants) (hP : s.P_ = 1)
    (hL : IsCholeskyFactor (m.llt 1) 1) (hsin : m.sin 0 = 0) (hcos : m.cos 0 = 1)
    (hq : m.sqrt 3 * m.sqrt 3 = 3)
    (px py : F) (hx : s.x_ = ![px, py, 0, 0, 0]) (dt : F) :
    UKF.z_pred (UKF.Prediction m s dt).weights_
        (UKF.lidarZsig (UKF.Prediction m s dt).Xsig_pred_) = ![px, py] ∧
    UKF.lidarS (UKF.Prediction m s dt)
      = !![1 + dt ^ 2 + dt ^ 4 / 4 + 9 / 400, 0; 0, 1 + 9 / 400] ∧
    UKF.lidarT (UKF.Prediction m s dt)
      = !![1 + dt ^ 2 + dt ^ 4 / 4, 0; 0, 1; dt + dt ^ 3 / 2, 0; 0, 0; 0, 0] := by
  obtain ⟨x0, x1, x2, x3, x4, x5, x6, x7, x8, x9, x10, x11, x12, x13, x14⟩ :=
    UKF.Prediction_first_Xsig m s hs hP hL hsin hcos px py hx dt
  have hs2 := UKF.Prediction_hasCtorConstants m s dt hs
  obtain ⟨w0, w1, w2, w3, w4, w5, w6, w7, w8, w9, w10, w11, w12, w13, w14⟩ :=
    UKF.HasCtorConstants.weights _ hs2
  have hmean := UKF.Prediction_first_mean m s hs hP hL hsin hcos px py hx dt
  have hR : (UKF.Prediction m s dt).R_LIDAR_ = !![9 / 400, 0; 0, 9 / 400] := by
    rw [hs2.2.2.2.2.2.2.1]
    ext i j
    fin_cases i <;> fin_cases j <;> simp [UKF.new] <;> norm_num
  have hq2 : m.sqrt 3 ^ 2 = 3 := by rw [pow_two, hq]
  have hz : UKF.z_pred (UKF.Prediction m s dt).weights_
      (UKF.lidarZsig (UKF.Prediction m s dt).Xsig_pred_) = ![px, py] := by
    funext r
    simp only [UKF.z_pred, UKF.lidarZsig, Matrix.of_apply, sum_univ_fifteen, x0, x1, x2, x3, x4,
      x5, x6, x7, x8, x9, x10, x11, x12, x13, x14, w0, w1, w2, w3, w4, w5, w6, w7, w8, w9, w10,
      w11, w12, w13, w14]
    fin_cases r <;> simp <;> ring
  refine ⟨hz, ?_, ?_⟩
  · ext a b
    simp only [UKF.lidarS, hz, hR, Matrix.add_apply]
    simp only [UKF.lidarZsig, Matrix.of_apply, sum_univ_fifteen, x0, x1, x2, x3, x4,
      x5, x6, x7, x8, x9, x10, x11, x12, x13, x14, w0, w1, w2, w3, w4, w5, w6, w7, w8, w9, w10,
      w11, w12, w13, w14]
    fin_cases a <;> fin_cases b <;> simp <;>
      first
        | rfl
        | ring1
        | (ring_nf; simp only [hq2]; ring1)
  · ext a b
    simp only [UKF.lidarT, hz, hmean]
    simp only [UKF.lidarZsig, Matrix.of_apply, sum_univ_fifteen, x0, x1, x2, x3, x4,
      x5, x6, x7, x8, x9, x10, x11, x12, x13, x14, w0, w1, w2, w3, w4, w5, w6, w7, w8, w9, w10,
      w11, w12, w13, w14]
    fin_cases a <;> fin_cases b <;> simp <;>
      first
        | rfl
        | ring1
        | (ring_nf; simp only [hq2]; ring1)

/-- The seeding branch keeps the constructor's constants. -/
theorem UKF.seed_hasCtorConstants {F : Type} [LinearOrderedField F] (m : Numerics F)
    (s : UKF F) (meas_package : MeasurementPackage F) (hs : s.HasCtorConstants) :
    (UKF.seed m s meas_package).HasCtorConstants := by
  simp only [UKF.seed]
  split <;> split <;> exact hs

/-- A constructed filter has the constructor's constants. -/
theorem UKF.new_hasCtorConstants {F : Type} [LinearOrderedField F]
    (X0 : Matrix (Fin 5) (Fin 15) F) (t0 : Int) : (UKF.new X0 t0).HasCtorConstants :=
  ⟨rfl, rfl, rfl, rfl, rfl, rfl, rfl, rfl⟩

/-- On a LASER package the two guarded updates are `UpdateLidar` when `use_laser_`
is set. -/
theorem UKF.updateBySensor_laser {F : Type} [LinearOrderedField F] [FloorRing F]
    (m : Numerics F) (s : UKF F) (meas_package : MeasurementPackage F)
    (hk : meas_package.sensor_type_ = SensorType.LASER) (hu : s.use_laser_ = true) :
    UKF.updateBySensor m s meas_package = UKF.UpdateLidar s meas_package := by
  simp [UKF.updateBySensor, hk, hu]

/-- On a RADAR package the two guarded updates are `UpdateRadar` when `use_radar_`
is set. -/
theorem UKF.updateBySensor_radar {F : Type} [LinearOrderedField F] [FloorRing F]
    (m : Numerics F) (s : UKF F) (meas_package : MeasurementPackage F)
    (hk : meas_package.sensor_type_ = SensorType.RADAR) (hu : s.use_radar_ = true) :
    UKF.updateBySensor m s meas_package = UKF.UpdateRadar m s meas_package := by
  simp only [UKF.updateBySensor, hk, hu]
  cases h : UKF.UpdateRadar m s meas_package with
  | none => simp
  | some s1 => simp

/-- The identity matrix is a Cholesky factor of the identity matrix. -/
theorem IsCholeskyFactor.one {F : Type} [LinearOrderedField F] {n : Nat} :
    IsCholeskyFactor (1 : Matrix (Fin n) (Fin n) F) 1 :=
  ⟨fun _ _ h => Matrix.one_apply_ne (ne_of_lt h), fun i => by simp, by simp⟩

/-- The state returned by `UpdateLidar` when `S` is invertible. -/
theorem UKF.UpdateLidar_eq_some {F : Type} [LinearOrderedField F] (s : UKF F)
    (meas_package : MeasurementPackage F) (hdet : (UKF.lidarS s).det ≠ 0) :
    UKF.UpdateLidar s meas_package = some
      { s with
        x_ := s.x_ + (UKF.lidarT s * ((UKF.lidarS s).det⁻¹ • (UKF.lidarS s).adjugate)).mulVec
          (![meas_package.raw_measurements_ 0, meas_package.raw_measurements_ 1]
            - UKF.z_pred s.weights_ (UKF.lidarZsig s.Xsig_pred_))
        P_ := s.P_ - (UKF.lidarT s * ((UKF.lidarS s).det⁻¹ • (UKF.lidarS s).adjugate))
          * UKF.lidarS s
          * (UKF.lidarT s * ((UKF.lidarS s).det⁻¹ • (UKF.lidarS s).adjugate)).transpose
        NIS_LIDAR_ := Matrix.dotProduct
          (Matrix.vecMul (![meas_package.raw_measurements_ 0, meas_package.raw_measurements_ 1]
              - UKF.z_pred s.weights_ (UKF.lidarZsig s.Xsig_pred_))
            ((UKF.lidarS s).det⁻¹ • (UKF.lidarS s).adjugate))
          (![meas_package.raw_measurements_ 0, meas_package.raw_measurements_ 1]
            - UKF.z_pred s.weights_ (UKF.lidarZsig s.Xsig_pred_)) } := by
  simp only [UKF.UpdateLidar, inverse_eq_some _ hdet, Option.map_some']

/-- C7: scenario 3 in exact real arithmetic, with `llt` returning a Cholesky factor
of the identity. After `ProcessMeasurement` of LASER `(0, 0)` at `t = 0` on a
constructed filter the state is `[0,0,0,0,0]` with the identity covariance; in the
next call, LASER `(1, 1)` at `t = 1000000`, the position predicted by `Prediction`
(with `delta_t = 1`) is `(0, 0)` and the call returns a state whose position is
`(100/101, 400/409)`: each entry is above `1/2` and below `1`. -/
theorem UKF.scenario_laser_laser (m : Numerics ℝ) (hm : m.Exact)
    (hL : IsCholeskyFactor (m.llt 1) 1) (X0 : Matrix (Fin 5) (Fin 15) ℝ) (t0 : Int)
    (u1 u2 : ℝ) :
    ∃ s1 s2 : UKF ℝ,
      UKF.ProcessMeasurement m (UKF.new X0 t0) ⟨0, SensorType.LASER, ![0, 0, u1]⟩ = some s1 ∧
      s1.x_ = ![0, 0, 0, 0, 0] ∧ s1.P_ = 1 ∧
      (UKF.Prediction m { s1 with time_us_ := 1000000 } 1).x_ 0 = 0 ∧
      (UKF.Prediction m { s1 with time_us_ := 1000000 } 1).x_ 1 = 0 ∧
      UKF.ProcessMeasurement m s1 ⟨1000000, SensorType.LASER, ![1, 1, u2]⟩ = some s2 ∧
      s2.x_ 0 = 100 / 101 ∧ s2.x_ 1 = 400 / 409 ∧
      (1 / 2 < s2.x_ 0 ∧ s2.x_ 0 < 1) ∧ (1 / 2 < s2.x_ 1 ∧ s2.x_ 1 < 1) := by
  obtain ⟨hsqrt, hsin, hcos, -, -⟩ := hm
  have hsin0 : m.sin 0 = 0 := by rw [hsin, Real.sin_zero]
  have hcos0 : m.cos 0 = 1 := by rw [hcos, Real.cos_zero]
  have hq : m.sqrt 3 * m.sqrt 3 = 3 := by
    rw [hsqrt]
    exact Real.mul_self_sqrt (by norm_num)
  have hc1 : (UKF.seed m (UKF.new X0 t0) ⟨0, SensorType.LASER, ![0, 0, u1]⟩).HasCtorConstants :=
    UKF.seed_hasCtorConstants m _ _ (UKF.new_hasCtorConstants X0 t0)
  have hx1 : (UKF.seed m (UKF.new X0 t0) ⟨0, SensorType.LASER, ![0, 0, u1]⟩).x_
      = ![0, 0, 0, 0, 0] := by
    simp [UKF.seed]
  have hP1 : (UKF.seed m (UKF.new X0 t0) ⟨0, SensorType.LASER, ![0, 0, u1]⟩).P_ = 1 := by
    simpa [UKF.seed] using UKF.new_P X0 t0
  have hpm1 : UKF.ProcessMeasurement m (UKF.new X0 t0) ⟨0, SensorType.LASER, ![0, 0, u1]⟩
      = some (UKF.seed m (UKF.new X0 t0) ⟨0, SensorType.LASER, ![0, 0, u1]⟩) := rfl
  have hi1 : (UKF.seed m (UKF.new X0 t0) ⟨0, SensorType.LASER, ![0, 0, u1]⟩).is_initialized_
      = true := rfl
  have ht1 : (UKF.seed m (UKF.new X0 t0) ⟨0, SensorType.LASER, ![0, 0, u1]⟩).time_us_ = 0 := rfl
  have hu1 : (UKF.seed m (UKF.new X0 t0) ⟨0, SensorType.LASER, ![0, 0, u1]⟩).use_laser_
      = true := rfl
  generalize UKF.seed m (UKF.new X0 t0) ⟨0, SensorType.LASER, ![0, 0, u1]⟩ = s1 at *
  have hc2 : ({ s1 with time_us_ := 1000000 } : UKF ℝ).HasCtorConstants := hc1
  obtain ⟨hz, hS, hT⟩ := UKF.Prediction_first_lidar m { s1 with time_us_ := 1000000 } hc2 hP1 hL
    hsin0 hcos0 hq 0 0 hx1 1
  have hmean := UKF.Prediction_first_mean m { s1 with time_us_ := 1000000 } hc2 hP1 hL
    hsin0 hcos0 0 0 hx1 1
  have hdt : (((1000000 : Int) - s1.time_us_ : Int) : ℝ) / 1000000 = 1 := by
    rw [ht1]
    norm_num
  have hpm2 : UKF.ProcessMeasurement m s1 ⟨1000000, SensorType.LASER, ![1, 1, u2]⟩
      = UKF.UpdateLidar (UKF.Prediction m { s1 with time_us_ := 1000000 } 1)
          ⟨1000000, SensorType.LASER, ![1, 1, u2]⟩ := by
    have hu : (UKF.Prediction m { s1 with time_us_ := 1000000 } 1).use_laser_ = true := by
      rw [UKF.Prediction_eq]
      exact hu1
    simp only [UKF.ProcessMeasurement, hi1, Bool.not_true, Bool.false_eq_true, if_false, hdt]
    exact UKF.updateBySensor_laser m _ _ rfl hu
  have hS2 : UKF.lidarS (UKF.Prediction m { s1 with time_us_ := 1000000 } 1)
      = !![909 / 400, 0; 0, 409 / 400] := by
    rw [hS]
    norm_num
  have hT2 : UKF.lidarT (UKF.Prediction m { s1 with time_us_ := 1000000 } 1)
      = !![9 / 4, 0; 0, 1; 3 / 2, 0; 0, 0; 0, 0] := by
    rw [hT]
    norm_num
  have hdet : (UKF.lidarS (UKF.Prediction m { s1 with time_us_ := 1000000 } 1)).det ≠ 0 := by
    rw [hS2, Matrix.det_fin_two_of]
    norm_num
  have hx20 : (UKF.Prediction m { s1 with time_us_ := 1000000 } 1).x_ 0 = 0 := by
    rw [hmean]
    rfl
  have hx21 : (UKF.Prediction m { s1 with time_us_ := 1000000 } 1).x_ 1 = 0 := by
    rw [hmean]
    rfl
  have h2 := UKF.UpdateLidar_eq_some (UKF.Prediction m { s1 with time_us_ := 1000000 } 1)
    ⟨1000000, SensorType.LASER, ![1, 1, u2]⟩ hdet
  have key : ∀ s2 : UKF ℝ, UKF.UpdateLidar (UKF.Prediction m { s1 with time_us_ := 1000000 } 1)
      ⟨1000000, SensorType.LASER, ![1, 1, u2]⟩ = some s2 →
      s2.x_ 0 = 100 / 101 ∧ s2.x_ 1 = 400 / 409 := by
    intro s2 h
    rw [h2] at h
    have hx2 : s2.x_ = (UKF.Prediction m { s1 with time_us_ := 1000000 } 1).x_
        + (UKF.lidarT (UKF.Prediction m { s1 with time_us_ := 1000000 } 1)
            * ((UKF.lidarS (UKF.Prediction m { s1 with time_us_ := 1000000 } 1)).det⁻¹
              • (UKF.lidarS (UKF.Prediction m { s1 with time_us_ := 1000000 } 1)).adjugate)).mulVec
          (![1, 1] - UKF.z_pred (UKF.Prediction m { s1 with time_us_ := 1000000 } 1).weights_
            (UKF.lidarZsig (UKF.Prediction m { s1 with time_us_ := 1000000 } 1).Xsig_pred_)) := by
      rw [← Option.some.inj h]
      rfl
    rw [hz, hT2, hS2, hmean] at hx2
    constructor
    · rw [hx2]
      simp [Matrix.mulVec, Matrix.dotProduct, Matrix.mul_apply, Fin.sum_univ_two,
        Matrix.det_fin_two_of, Matrix.adjugate_fin_two_of]
      norm_num
    · rw [hx2]
      simp [Matrix.mulVec, Matrix.dotProduct, Matrix.mul_apply, Fin.sum_univ_two,
        Matrix.det_fin_two_of, Matrix.adjugate_fin_two_of]
      norm_num
  obtain ⟨e0, e1⟩ := key _ h2
  refine ⟨s1, _, hpm1, hx1, hP1, hx20, hx21, hpm2.trans h2, e0, e1, ?_, ?_⟩
  · rw [e0]
    norm_num
  · rw [e1]
    norm_num

/-- C7 at a concrete input: the real functions (`llt` is applied to the identity
matrix only on this run, and returns the identity), a filter constructed with a zero
`Xsig_pred_`, and third readings `0`. -/
theorem UKF.scenario_laser_laser_witness :
    Numerics.Exact
      ⟨Real.sqrt, Real.sin, Real.cos, fun y x => Complex.arg ⟨x, y⟩, Real.pi, id, fun _ => 1⟩ ∧
    IsCholeskyFactor ((1 : Matrix (Fin 7) (Fin 7) ℝ)) 1 ∧
    ∃ s1 s2 : UKF ℝ,
      UKF.ProcessMeasurement
        ⟨Real.sqrt, Real.sin, Real.cos, fun y x => Complex.arg ⟨x, y⟩, Real.pi, id, fun _ => 1⟩
        (UKF.new 0 0) ⟨0, SensorType.LASER, ![0, 0, 0]⟩ = some s1 ∧
      s1.x_ = ![0, 0, 0, 0, 0] ∧ s1.P_ = 1 ∧
      (UKF.Prediction
        ⟨Real.sqrt, Real.sin, Real.cos, fun y x => Complex.arg ⟨x, y⟩, Real.pi, id, fun _ => 1⟩
        { s1 with time_us_ := 1000000 } 1).x_ 0 = 0 ∧
      (UKF.Prediction
        ⟨Real.sqrt, Real.sin, Real.cos, fun y x => Complex.arg ⟨x, y⟩, Real.pi, id, fun _ => 1⟩
        { s1 with time_us_ := 1000000 } 1).x_ 1 = 0 ∧
      UKF.ProcessMeasurement
        ⟨Real.sqrt, Real.sin, Real.cos, fun y x => Complex.arg ⟨x, y⟩, Real.pi, id, fun _ => 1⟩
        s1 ⟨1000000, SensorType.LASER, ![1, 1, 0]⟩ = some s2 ∧
      s2.x_ 0 = 100 / 101 ∧ s2.x_ 1 = 400 / 409 ∧
      (1 / 2 < s2.x_ 0 ∧ s2.x_ 0 < 1) ∧ (1 / 2 < s2.x_ 1 ∧ s2.x_ 1 < 1) :=
  ⟨⟨fun _ => rfl, fun _ => rfl, fun _ => rfl, fun _ _ => rfl, rfl⟩,
    IsCholeskyFactor.one,
    UKF.scenario_laser_laser _
      ⟨fun _ => rfl, fun _ => rfl, fun _ => rfl, fun _ _ => rfl, rfl⟩
      IsCholeskyFactor.one 0 0 0 0⟩

/-- An angle in `[-pi, pi]` is left as it is by the normalisation loops. -/
theorem normalizeAngle_eq_self {F : Type} [LinearOrderedField F] [FloorRing F] (pi a : F)
    (h1 : -pi ≤ a) (h2 : a ≤ pi) : normalizeAngle pi a = a := by
  have ha : ¬ a > pi := not_lt.mpr h2
  have hb : ¬ a < -pi := not_lt.mpr h1
  have e1 : ∀ fuel, whileAbovePi pi fuel a = some a := by
    intro fuel
    cases fuel <;> simp [whileAbovePi, ha]
  have e2 : ∀ fuel, whileBelowNegPi pi fuel a = some a := by
    intro fuel
    cases fuel <;> simp [whileBelowNegPi, hb]
  simp [normalizeAngle, normalizeLoops, e1, e2]

/-- The radar projection of a point on the positive x-axis. -/
theorem UKF.radarPoint_axis_pos (m : Numerics ℝ) (hm : m.Exact) (a v yaw yd : ℝ) (ha : 0 < a) :
    UKF.radarPoint m ![a, 0, v, yaw, yd] = some ![a, 0, Real.cos yaw * v] := by
  obtain ⟨hsqrt, hsin, hcos, hatan, -⟩ := hm
  have hrho : Real.sqrt (a * a + 0 * 0) = a := by
    rw [mul_zero, add_zero]
    exact Real.sqrt_mul_self (le_of_lt ha)
  have hphi : Complex.arg ⟨a, 0⟩ = 0 := Complex.arg_ofReal_of_nonneg (le_of_lt ha)
  have hne : a ≠ 0 := ne_of_gt ha
  simp only [UKF.radarPoint, hsqrt, hsin, hcos, hatan, checkedDiv, Matrix.cons_val_zero,
    Matrix.cons_val_one, Matrix.head_cons, Matrix.cons_val_two, Matrix.tail_cons,
    Matrix.cons_val_three, hrho, hphi, if_neg hne, Option.map_some']
  rw [show (a * Real.cos yaw * v + 0 * Real.sin yaw * v) / a = Real.cos yaw * v by
    rw [zero_mul, zero_mul, add_zero, mul_assoc, mul_div_cancel_left₀ _ hne]]

/-- The radar projection of a point on the negative x-axis. -/
theorem UKF.radarPoint_axis_neg (m : Numerics ℝ) (hm : m.Exact) (a v yaw yd : ℝ) (ha : a < 0) :
    UKF.radarPoint m ![a, 0, v, yaw, yd] = some ![-a, Real.pi, -(Real.cos yaw * v)] := by
  obtain ⟨hsqrt, hsin, hcos, hatan, -⟩ := hm
  have hrho : Real.sqrt (a * a + 0 * 0) = -a := by
    rw [mul_zero, add_zero, Real.sqrt_mul_self_eq_abs, abs_of_neg ha]
  have hphi : Complex.arg ⟨a, 0⟩ = Real.pi := Complex.arg_ofReal_of_neg ha
  have hne : -a ≠ 0 := by linarith
  have hne2 : a ≠ 0 := ne_of_lt ha
  simp only [UKF.radarPoint, hsqrt, hsin, hcos, hatan, checkedDiv, Matrix.cons_val_zero,
    Matrix.cons_val_one, Matrix.head_cons, Matrix.cons_val_two, Matrix.tail_cons,
    Matrix.cons_val_three, hrho, hphi, if_neg hne, Option.map_some']
  rw [show (a * Real.cos yaw * v + 0 * Real.sin yaw * v) / -a = -(Real.cos yaw * v) by
    rw [zero_mul, zero_mul, add_zero, mul_assoc, div_neg, mul_div_cancel_left₀ _ hne2]]

/-- The radar projection of the points `(1, ±√3)` with zero speed: range 2 and
bearing `±π/3`. -/
theorem UKF.radarPoint_sixty (m : Numerics ℝ) (hm : m.Exact) (yaw yd : ℝ) :
    UKF.radarPoint m ![1, Real.sqrt 3, 0, yaw, yd] = some ![2, Real.pi / 3, 0] ∧
    UKF.radarPoint m ![1, -Real.sqrt 3, 0, yaw, yd] = some ![2, -(Real.pi / 3), 0] := by
  obtain ⟨hsqrt, hsin, hcos, hatan, -⟩ := hm
  have h3 : Real.sqrt 3 * Real.sqrt 3 = 3 := Real.mul_self_sqrt (by norm_num)
  have hrho : Real.sqrt (1 * 1 + Real.sqrt 3 * Real.sqrt 3) = 2 := by
    rw [h3]
    have : (1 : ℝ) * 1 + 3 = 2 * 2 := by norm_num
    rw [this]
    exact Real.sqrt_mul_self (by norm_num)
  have hrho2 : Real.sqrt (1 * 1 + -Real.sqrt 3 * -Real.sqrt 3) = 2 := by
    rw [neg_mul_neg]
    exact hrho
  have hphi : Complex.arg ⟨1, Real.sqrt 3⟩ = Real.pi / 3 := by
    have e : (⟨1, Real.sqrt 3⟩ : ℂ)
        = ((2 : ℝ) : ℂ) * (Complex.cos ((Real.pi / 3 : ℝ) : ℂ)
          + Complex.sin ((Real.pi / 3 : ℝ) : ℂ) * Complex.I) := by
      rw [← Complex.ofReal_cos, ← Complex.ofReal_sin, Real.cos_pi_div_three,
        Real.sin_pi_div_three]
      apply Complex.ext
      · simp
      · simp
        ring
    rw [e]
    apply Complex.arg_mul_cos_add_sin_mul_I (by norm_num)
    constructor <;> linarith [Real.pi_pos]
  have hphi2 : Complex.arg ⟨1, -Real.sqrt 3⟩ = -(Real.pi / 3) := by
    have e : (⟨1, -Real.sqrt 3⟩ : ℂ)
        = ((2 : ℝ) : ℂ) * (Complex.cos ((-(Real.pi / 3) : ℝ) : ℂ)
          + Complex.sin ((-(Real.pi / 3) : ℝ) : ℂ) * Complex.I) := by
      rw [← Complex.ofReal_cos, ← Complex.ofReal_sin, Real.cos_neg, Real.sin_neg,
        Real.cos_pi_div_three, Real.sin_pi_div_three]
      apply Complex.ext
      · simp
      · simp
        ring
    rw [e]
    apply Complex.arg_mul_cos_add_sin_mul_I (by norm_num)
    constructor <;> linarith [Real.pi_pos]
  have h2 : (2 : ℝ) ≠ 0 := by norm_num
  constructor
  · simp only [UKF.radarPoint, hsqrt, hsin, hcos, hatan, checkedDiv, Matrix.cons_val_zero,
      Matrix.cons_val_one, Matrix.head_cons, Matrix.cons_val_two, Matrix.tail_cons,
      Matrix.cons_val_three, hrho, hphi, if_neg h2, Option.map_some']
    simp
  · simp only [UKF.radarPoint, hsqrt, hsin, hcos, hatan, checkedDiv, Matrix.cons_val_zero,
      Matrix.cons_val_one, Matrix.head_cons, Matrix.cons_val_two, Matrix.tail_cons,
      Matrix.cons_val_three, hrho2, hphi2, if_neg h2, Option.map_some']
    simp

/-- The radar sigma points are the projections of the columns, when each is
defined. -/
theorem UKF.radarZsig_some_of_points {F : Type} [LinearOrderedField F] (m : Numerics F)
    (X : Matrix (Fin 5) (Fin 15) F) (h : ∀ i : Fin 15, (UKF.radarPoint m (fun r => X r i)).isSome) :
    ∃ Zsig, UKF.radarZsig m X = some Zsig ∧
      ∀ (i : Fin 15) (v : Fin 3 → F), UKF.radarPoint m (fun r => X r i) = some v →
        ∀ r, Zsig r i = v r := by
  refine ⟨_, dif_pos h, fun i v hv r => ?_⟩
  show (UKF.radarPoint m fun r => X r i).get (h i) r = v r
  rw [Option.some.inj ((Option.some_get (h i)).trans hv)]

/-- The radar sigma points at the state left by the first `Prediction` over
`t` seconds from `(1, 0, 0, 0, 0)` with the identity covariance, for `t` with
`1 < √3 t` and `2 < √3 t²`. -/
theorem UKF.first_radarZsig (m : Numerics ℝ) (hm : m.Exact) (hL : IsCholeskyFactor (m.llt 1) 1)
    (s : UKF ℝ) (hs : s.HasCtorConstants) (hP : s.P_ = 1) (hx : s.x_ = ![1, 0, 0, 0, 0])
    (t : ℝ) (ht1 : 1 < Real.sqrt 3 * t) (ht2 : 2 < Real.sqrt 3 * t * t) :
    ∃ Zsig, UKF.radarZsig m (UKF.Prediction m s t).Xsig_pred_ = some Zsig ∧
      (∀ r, Zsig r 0 = ![1, 0, 0] r) ∧
      (∀ r, Zsig r 1 = ![1 + Real.sqrt 3, 0, 0] r) ∧
      (∀ r, Zsig r 2 = ![2, Real.pi / 3, 0] r) ∧
      (∀ r, Zsig r 3 = ![1 + Real.sqrt 3 * t, 0, Real.sqrt 3] r) ∧
      (∀ r, Zsig r 4 = ![1, 0, 0] r) ∧
      (∀ r, Zsig r 5 = ![1, 0, 0] r) ∧
      (∀ r, Zsig r 6 = ![1 + 1 / 2 * Real.sqrt 3 * t * t, 0, Real.sqrt 3 * t] r) ∧
      (∀ r, Zsig r 7 = ![1, 0, 0] r) ∧
      (∀ r, Zsig r 8 = ![Real.sqrt 3 - 1, Real.pi, 0] r) ∧
      (∀ r, Zsig r 9 = ![2, -(Real.pi / 3), 0] r) ∧
      (∀ r, Zsig r 10 = ![Real.sqrt 3 * t - 1, Real.pi, Real.sqrt 3] r) ∧
      (∀ r, Zsig r 11 = ![1, 0, 0] r) ∧
      (∀ r, Zsig r 12 = ![1, 0, 0] r) ∧
      (∀ r, Zsig r 13 = ![1 / 2 * Real.sqrt 3 * t * t - 1, Real.pi, Real.sqrt 3 * t] r) ∧
      (∀ r, Zsig r 14 = ![1, 0, 0] r) := by
  have hm2 := hm
  obtain ⟨hsqrt, hsin, hcos, -, -⟩ := hm2
  have hsin0 : m.sin 0 = 0 := by rw [hsin, Real.sin_zero]
  have hcos0 : m.cos 0 = 1 := by rw [hcos, Real.cos_zero]
  have hq0 : 0 < Real.sqrt 3 := Real.sqrt_pos.mpr (by norm_num)
  have hq1 : 1 < Real.sqrt 3 := by
    rw [show (1 : ℝ) = Real.sqrt 1 from Real.sqrt_one.symm]
    exact Real.sqrt_lt_sqrt (by norm_num) (by norm_num)
  obtain ⟨x0, x1, x2, x3, x4, x5, x6, x7, x8, x9, x10, x11, x12, x13, x14⟩ :=
    UKF.Prediction_first_Xsig m s hs hP hL hsin0 hcos0 1 0 hx t
  simp only [hsqrt, zero_add] at x0 x1 x2 x3 x4 x5 x6 x7 x8 x9 x10 x11 x12 x13 x14
  have k0 : UKF.radarPoint m (fun r => (UKF.Prediction m s t).Xsig_pred_ r 0)
      = some ![1, 0, 0] := by
    rw [funext x0, UKF.radarPoint_axis_pos m hm _ _ _ _ (by norm_num)]
    simp
  have k1 : UKF.radarPoint m (fun r => (UKF.Prediction m s t).Xsig_pred_ r 1)
      = some ![1 + Real.sqrt 3, 0, 0] := by
    rw [funext x1, UKF.radarPoint_axis_pos m hm _ _ _ _ (by linarith)]
    simp
  have k2 : UKF.radarPoint m (fun r => (UKF.Prediction m s t).Xsig_pred_ r 2)
      = some ![2, Real.pi / 3, 0] := by
    rw [funext x2, (UKF.radarPoint_sixty m hm _ _).1]
  have k3 : UKF.radarPoint m (fun r => (UKF.Prediction m s t).Xsig_pred_ r 3)
      = some ![1 + Real.sqrt 3 * t, 0, Real.sqrt 3] := by
    rw [funext x3, UKF.radarPoint_axis_pos m hm _ _ _ _ (by linarith)]
    simp
  have k4 : UKF.radarPoint m (fun r => (UKF.Prediction m s t).Xsig_pred_ r 4)
      = some ![1, 0, 0] := by
    rw [funext x4, UKF.radarPoint_axis_pos m hm _ _ _ _ (by norm_num)]
    simp
  have k5 : UKF.radarPoint m (fun r => (UKF.Prediction m s t).Xsig_pred_ r 5)
      = some ![1, 0, 0] := by
    rw [funext x5, UKF.radarPoint_axis_pos m hm _ _ _ _ (by norm_num)]
    simp
  have k6 : UKF.radarPoint m (fun r => (UKF.Prediction m s t).Xsig_pred_ r 6)
      = some ![1 + 1 / 2 * Real.sqrt 3 * t * t, 0, Real.sqrt 3 * t] := by
    rw [funext x6, UKF.radarPoint_axis_pos m hm _ _ _ _ (by linarith)]
    simp
  have k7 : UKF.radarPoint m (fun r => (UKF.Prediction m s t).Xsig_pred_ r 7)
      = some ![1, 0, 0] := by
    rw [funext x7, UKF.radarPoint_axis_pos m hm _ _ _ _ (by norm_num)]
    simp
  have k8 : UKF.radarPoint m (fun r => (UKF.Prediction m s t).Xsig_pred_ r 8)
      = some ![Real.sqrt 3 - 1, Real.pi, 0] := by
    rw [funext x8, UKF.radarPoint_axis_neg m hm _ _ _ _ (by linarith)]
    simp [sub_eq_add_neg]
  have k9 : UKF.radarPoint m (fun r => (UKF.Prediction m s t).Xsig_pred_ r 9)
      = some ![2, -(Real.pi / 3), 0] := by
    rw [funext x9, (UKF.radarPoint_sixty m hm _ _).2]
  have k10 : UKF.radarPoint m (fun r => (UKF.Prediction m s t).Xsig_pred_ r 10)
      = some ![Real.sqrt 3 * t - 1, Real.pi, Real.sqrt 3] := by
    rw [funext x10, UKF.radarPoint_axis_neg m hm _ _ _ _ (by linarith)]
    simp [sub_eq_add_neg]
  have k11 : UKF.radarPoint m (fun r => (UKF.Prediction m s t).Xsig_pred_ r 11)
      = some ![1, 0, 0] := by
    rw [funext x11, UKF.radarPoint_axis_pos m hm _ _ _ _ (by norm_num)]
    simp
  have k12 : UKF.radarPoint m (fun r => (UKF.Prediction m s t).Xsig_pred_ r 12)
      = some ![1, 0, 0] := by
    rw [funext x12, UKF.radarPoint_axis_pos m hm _ _ _ _ (by norm_num)]
    simp
  have k13 : UKF.radarPoint m (fun r => (UKF.Prediction m s t).Xsig_pred_ r 13)
      = some ![1 / 2 * Real.sqrt 3 * t * t - 1, Real.pi, Real.sqrt 3 * t] := by
    rw [funext x13, UKF.radarPoint_axis_neg m hm _ _ _ _ (by linarith)]
    simp [sub_eq_add_neg]
  have k14 : UKF.radarPoint m (fun r => (UKF.Prediction m s t).Xsig_pred_ r 14)
      = some ![1, 0, 0] := by
    rw [funext x14, UKF.radarPoint_axis_pos m hm _ _ _ _ (by norm_num)]
    simp
  have hall : ∀ i : Fin 15,
      (UKF.radarPoint m (fun r => (UKF.Prediction m s t).Xsig_pred_ r i)).isSome := by
    intro i
    fin_cases i
    · exact Option.isSome_iff_exists.mpr ⟨_, k0⟩
    · exact Option.isSome_iff_exists.mpr ⟨_, k1⟩
    · exact Option.isSome_iff_exists.mpr ⟨_, k2⟩
    · exact Option.isSome_iff_exists.mpr ⟨_, k3⟩
    · exact Option.isSome_iff_exists.mpr ⟨_, k4⟩
    · exact Option.isSome_iff_exists.mpr ⟨_, k5⟩
    · exact Option.isSome_iff_exists.mpr ⟨_, k6⟩
    · exact Option.isSome_iff_exists.mpr ⟨_, k7⟩
    · exact Option.isSome_iff_exists.mpr ⟨_, k8⟩
    · exact Option.isSome_iff_exists.mpr ⟨_, k9⟩
    · exact Option.isSome_iff_exists.mpr ⟨_, k10⟩
    · exact Option.isSome_iff_exists.mpr ⟨_, k11⟩
    · exact Option.isSome_iff_exists.mpr ⟨_, k12⟩
    · exact Option.isSome_iff_exists.mpr ⟨_, k13⟩
    · exact Option.isSome_iff_exists.mpr ⟨_, k14⟩
  obtain ⟨Zsig, hZ, hcol⟩ := UKF.radarZsig_some_of_points m _ hall
  exact ⟨Zsig, hZ, hcol 0 _ k0, hcol 1 _ k1, hcol 2 _ k2, hcol 3 _ k3, hcol 4 _ k4, hcol 5 _ k5,
    hcol 6 _ k6, hcol 7 _ k7, hcol 8 _ k8, hcol 9 _ k9, hcol 10 _ k10, hcol 11 _ k11,
    hcol 12 _ k12, hcol 13 _ k13, hcol 14 _ k14⟩

set_option maxHeartbeats 4000000 in
/-- The radar quantities for the sigma points of `UKF.first_radarZsig`: the predicted
measurement, the innovation covariance `S` (no bearing difference leaves
`[-π, π]`), and row 1 of the cross-covariance `T`. -/
theorem UKF.first_radar_quantities (m : Numerics ℝ) (hm : m.Exact) (s : UKF ℝ)
    (hs : s.HasCtorConstants) (t : ℝ) (Zsig : Matrix (Fin 3) (Fin 15) ℝ)
    (hX2 : ∀ r, s.Xsig_pred_ r 2 = ![1, Real.sqrt 3, 0, 0, 0] r)
    (hX9 : ∀ r, s.Xsig_pred_ r 9 = ![1, -Real.sqrt 3, 0, 0, 0] r)
    (hX1 : ∀ i : Fin 15, i ≠ 2 → i ≠ 9 → s.Xsig_pred_ 1 i = 0) (hx1 : s.x_ 1 = 0)
    (z0 : ∀ r, Zsig r 0 = ![1, 0, 0] r)
    (z1 : ∀ r, Zsig r 1 = ![1 + Real.sqrt 3, 0, 0] r)
    (z2 : ∀ r, Zsig r 2 = ![2, Real.pi / 3, 0] r)
    (z3 : ∀ r, Zsig r 3 = ![1 + Real.sqrt 3 * t, 0, Real.sqrt 3] r)
    (z4 : ∀ r, Zsig r 4 = ![1, 0, 0] r)
    (z5 : ∀ r, Zsig r 5 = ![1, 0, 0] r)
    (z6 : ∀ r, Zsig r 6 = ![1 + 1 / 2 * Real.sqrt 3 * t * t, 0, Real.sqrt 3 * t] r)
    (z7 : ∀ r, Zsig r 7 = ![1, 0, 0] r)
    (z8 : ∀ r, Zsig r 8 = ![Real.sqrt 3 - 1, Real.pi, 0] r)
    (z9 : ∀ r, Zsig r 9 = ![2, -(Real.pi / 3), 0] r)
    (z10 : ∀ r, Zsig r 10 = ![Real.sqrt 3 * t - 1, Real.pi, Real.sqrt 3] r)
    (z11 : ∀ r, Zsig r 11 = ![1, 0, 0] r)
    (z12 : ∀ r, Zsig r 12 = ![1, 0, 0] r)
    (z13 : ∀ r, Zsig r 13 = ![1 / 2 * Real.sqrt 3 * t * t - 1, Real.pi, Real.sqrt 3 * t] r)
    (z14 : ∀ r, Zsig r 14 = ![1, 0, 0] r) :
    UKF.z_pred s.weights_ Zsig
      = ![1 / 3 + Real.sqrt 3 / 6 * (t ^ 2 + 2 * t + 2), Real.pi / 2,
          Real.sqrt 3 / 3 * (1 + t)] ∧
    UKF.radarS m s Zsig
      = !![3 + t ^ 2 + t ^ 4 / 4 - 1 / 9 - (t ^ 2 + 2 * t + 2) ^ 2 / 12 + 9 / 100
              - Real.sqrt 3 / 9 * (t ^ 2 + 2 * t + 2),
            -(2 * Real.pi / 3),
            t + t ^ 3 / 2 - (t ^ 2 + 2 * t + 2) / 6 * (1 + t) - Real.sqrt 3 / 9 * (1 + t);
          -(2 * Real.pi / 3), 31 * Real.pi ^ 2 / 108 + 9 / 10000, 0;
          t + t ^ 3 / 2 - (t ^ 2 + 2 * t + 2) / 6 * (1 + t) - Real.sqrt 3 / 9 * (1 + t), 0,
            1 + t ^ 2 - (1 + t) ^ 2 / 3 + 9 / 100] ∧
    (fun b => UKF.radarT m s Zsig 1 b) = ![0, Real.sqrt 3 * Real.pi / 9, 0] := by
  obtain ⟨-, -, -, -, hpi⟩ := hm
  obtain ⟨w0, w1, w2, w3, w4, w5, w6, w7, w8, w9, w10, w11, w12, w13, w14⟩ :=
    UKF.HasCtorConstants.weights s hs
  have hq2 : Real.sqrt 3 ^ 2 = 3 := Real.sq_sqrt (by norm_num)
  have hR : s.R_RADAR_ = !![9 / 100, 0, 0; 0, 9 / 10000, 0; 0, 0, 9 / 100] := by
    rw [hs.2.2.2.2.2.2.2]
    ext i j
    fin_cases i <;> fin_cases j <;> simp [UKF.new] <;> norm_num
  have hz : UKF.z_pred s.weights_ Zsig
      = ![1 / 3 + Real.sqrt 3 / 6 * (t ^ 2 + 2 * t + 2), Real.pi / 2,
          Real.sqrt 3 / 3 * (1 + t)] := by
    funext r
    simp only [UKF.z_pred, sum_univ_fifteen, z0, z1, z2, z3, z4, z5, z6, z7, z8, z9, z10,
      z11, z12, z13, z14, w0, w1, w2, w3, w4, w5, w6, w7, w8, w9, w10, w11, w12, w13, w14]
    fin_cases r <;> simp <;> ring
  have hD : ∀ (i : Fin 15) (r : Fin 3),
      UKF.radarDiff m Zsig (UKF.z_pred s.weights_ Zsig) i r
        = Zsig r i - UKF.z_pred s.weights_ Zsig r := by
    intro i r
    by_cases hr : r = 1
    · subst hr
      simp only [UKF.radarDiff, if_true, hpi]
      have hb : -Real.pi ≤ Zsig 1 i - UKF.z_pred s.weights_ Zsig 1 ∧
          Zsig 1 i - UKF.z_pred s.weights_ Zsig 1 ≤ Real.pi := by
        rw [hz]
        fin_cases i <;>
          simp [z0, z1, z2, z3, z4, z5, z6, z7, z8, z9, z10, z11, z12, z13, z14] <;>
          first
            | linarith only [Real.pi_pos]
            | (constructor <;> linarith only [Real.pi_pos])
      exact normalizeAngle_eq_self _ _ hb.1 hb.2
    · simp [UKF.radarDiff, hr]
  refine ⟨hz, ?_, ?_⟩
  · ext a b
    simp only [UKF.radarS, hD, hR, Matrix.add_apply, Matrix.of_apply]
    simp only [hz, sum_univ_fifteen, z0, z1, z2, z3, z4, z5, z6, z7, z8, z9, z10,
      z11, z12, z13, z14, w0, w1, w2, w3, w4, w5, w6, w7, w8, w9, w10, w11, w12, w13, w14]
    fin_cases a <;> fin_cases b <;>
      simp only [Matrix.of_apply, Matrix.cons_val', Matrix.transpose_apply,
        Matrix.cons_val_zero, Matrix.cons_val_one, Matrix.cons_val_two, Matrix.cons_val_three,
        Matrix.cons_val_four, Matrix.head_cons, Matrix.empty_val', Matrix.cons_val_fin_one,
        Matrix.cons_val_succ, Matrix.vecHead, Matrix.vecTail, Function.comp,
        Fin.succ_zero_eq_one, Fin.succ_one_eq_two, Fin.zero_eta, Fin.mk_one, Fin.reduceFinMk] <;>
      first
        | ring1
        | (ring_nf; simp only [hq2]; ring1)
  · funext b
    have hxd : ∀ i : Fin 15, UKF.x_diff m s.Xsig_pred_ s.x_ i 1 = s.Xsig_pred_ 1 i := by
      intro i
      simp [UKF.x_diff, hx1]
    simp only [UKF.radarT, hD, hxd, Matrix.of_apply]
    simp only [hz, sum_univ_fifteen, z0, z1, z2, z3, z4, z5, z6, z7, z8, z9, z10,
      z11, z12, z13, z14, w0, w1, w2, w3, w4, w5, w6, w7, w8, w9, w10, w11, w12, w13, w14]
    rw [hX1 0 (by decide) (by decide), hX1 1 (by decide) (by decide),
      hX1 3 (by decide) (by decide), hX1 4 (by decide) (by decide),
      hX1 5 (by decide) (by decide), hX1 6 (by decide) (by decide),
      hX1 7 (by decide) (by decide), hX1 8 (by decide) (by decide),
      hX1 10 (by decide) (by decide), hX1 11 (by decide) (by decide),
      hX1 12 (by decide) (by decide), hX1 13 (by decide) (by decide),
      hX1 14 (by decide) (by decide), hX2 1, hX9 1]
    fin_cases b <;> simp
    ring

/-- The covariance returned by `UpdateRadar` when the radar sigma points are defined
and `S` is invertible. -/
theorem UKF.UpdateRadar_P {F : Type} [LinearOrderedField F] [FloorRing F] (m : Numerics F)
    (s : UKF F) (meas_package : MeasurementPackage F) (Zsig : Matrix (Fin 3) (Fin 15) F)
    (hZ : UKF.radarZsig m s.Xsig_pred_ = some Zsig) (hdet : (UKF.radarS m s Zsig).det ≠ 0) :
    ∃ s2, UKF.UpdateRadar m s meas_package = some s2 ∧
      s2.P_ = s.P_ - (UKF.radarT m s Zsig
          * ((UKF.radarS m s Zsig).det⁻¹ • (UKF.radarS m s Zsig).adjugate))
        * UKF.radarS m s Zsig
        * (UKF.radarT m s Zsig
          * ((UKF.radarS m s Zsig).det⁻¹ • (UKF.radarS m s Zsig).adjugate)).transpose := by
  have h : ∃ s2, UKF.UpdateRadar m s meas_package = some s2 := by
    simp [UKF.UpdateRadar, hZ, inverse_eq_some _ hdet]
  obtain ⟨s2, h2⟩ := h
  refine ⟨s2, h2, ?_⟩
  simp only [UKF.UpdateRadar, hZ, Option.some_bind, inverse_eq_some _ hdet, Option.map_some',
    Option.some.injEq] at h2
  rw [← h2]

/-- The gain times `S` is the cross-covariance: `(T * S⁻¹) * S = T`. -/
theorem mul_inverse_mul_cancel {F : Type} [LinearOrderedField F] {n k : Nat}
    (T : Matrix (Fin n) (Fin k) F) (S : Matrix (Fin k) (Fin k) F) (hdet : S.det ≠ 0) :
    T * (S.det⁻¹ • S.adjugate) * S = T := by
  rw [Matrix.mul_assoc, Matrix.smul_mul, Matrix.adjugate_mul, smul_smul, inv_mul_cancel₀ hdet,
    one_smul, Matrix.mul_one]

/-- A diagonal entry of `K * S * Kᵀ` for `K = T * S⁻¹`, when row `r` of `T` is zero
outside column 1. -/
theorem gain_diag_entry {F : Type} [LinearOrderedField F] {n : Nat}
    (T : Matrix (Fin n) (Fin 3) F) (S : Matrix (Fin 3) (Fin 3) F) (hdet : S.det ≠ 0)
    (r : Fin n) (h0 : T r 0 = 0) (h2 : T r 2 = 0) :
    (T * (S.det⁻¹ • S.adjugate) * S * (T * (S.det⁻¹ • S.adjugate)).transpose) r r
      = T r 1 * T r 1 * (S.det⁻¹ * S.adjugate 1 1) := by
  rw [mul_inverse_mul_cancel T S hdet]
  simp only [Matrix.mul_apply, Matrix.transpose_apply, Fin.sum_univ_three, h0, h2,
    Matrix.smul_apply, smul_eq_mul]
  ring

/-- A matrix with a negative diagonal entry is not positive semi-definite. -/
theorem not_isPSD_of_diag_neg {F : Type} [LinearOrderedField F] {n : Nat}
    (P : Matrix (Fin n) (Fin n) F) (r : Fin n) (h : P r r < 0) : ¬ IsPSD P := by
  intro hP
  have h1 := hP (Pi.single r 1)
  simp [Matrix.dotProduct, Matrix.mulVec, Pi.single_apply] at h1
  linarith

/-- The covariance left by `Prediction`, in terms of the sigma points and the mean
it leaves. -/
theorem UKF.Prediction_P_eq {F : Type} [LinearOrderedField F] [FloorRing F] (m : Numerics F)
    (s : UKF F) (dt : F) :
    (UKF.Prediction m s dt).P_ = UKF.predictedCov m s.weights_ (UKF.Prediction m s dt).Xsig_pred_
      (UKF.Prediction m s dt).x_ := by
  rw [UKF.Prediction_eq]

/-- The numeric core of the run of `UKF.laser_radar_not_psd`: with the entries of `S`
for `t = 47/10`, the determinant of `S` is positive and smaller than
`(√3 π / 9)² (S₀₀ S₂₂ - S₀₂²)`. -/
theorem UKF.first_radar_numbers (q p a c e : ℝ) (hq2 : q ^ 2 = 3) (hq0 : 0 < q)
    (hp : 9 < p)
    (ha : a = 3 + (47 / 10) ^ 2 + (47 / 10) ^ 4 / 4 - 1 / 9
      - ((47 / 10) ^ 2 + 2 * (47 / 10) + 2) ^ 2 / 12 + 9 / 100
      - q / 9 * ((47 / 10) ^ 2 + 2 * (47 / 10) + 2))
    (hc : c = 47 / 10 + (47 / 10) ^ 3 / 2 - ((47 / 10) ^ 2 + 2 * (47 / 10) + 2) / 6 * (1 + 47 / 10)
      - q / 9 * (1 + 47 / 10))
    (he : e = 1 + (47 / 10) ^ 2 - (1 + 47 / 10) ^ 2 / 3 + 9 / 100) :
    0 < (31 * p / 108 + 9 / 10000) * (a * e - c * c) - 4 * p / 9 * e ∧
    (31 * p / 108 + 9 / 10000) * (a * e - c * c) - 4 * p / 9 * e
      < p / 27 * (a * e - c * c) := by
  have hqlo : 1732 / 1000 < q := by nlinarith
  have hqhi : q < 17321 / 10000 := by nlinarith
  have he2 : e = 247 / 20 := by rw [he]; norm_num
  have hC1 : 20 < a * e - c * c := by
    rw [ha, hc, he2]
    nlinarith
  have hC2 : a * e - c * c < 21 := by
    rw [ha, hc, he2]
    nlinarith
  generalize a * e - c * c = C at hC1 hC2
  rw [he2]
  have h1 : 0 < (p - 9) * (C - 20) := mul_pos (by linarith) (by linarith)
  have h2 : 0 < (p - 9) * (21 - C) := mul_pos (by linarith) (by linarith)
  constructor
  · nlinarith
  · nlinarith

set_option maxHeartbeats 4000000 in
/-- In exact real arithmetic, with `llt` returning a Cholesky factor of the identity:
a constructed filter seeded by LASER `(1, 0)` at `t = 0` and then given any RADAR
package at `t = 4700000` reaches a state whose covariance has a negative diagonal
entry `P_(1,1)`, so is not positive semi-definite. No divisor is zero on this
run. -/
theorem UKF.laser_radar_not_psd (m : Numerics ℝ) (hm : m.Exact)
    (hL : IsCholeskyFactor (m.llt 1) 1) (X0 : Matrix (Fin 5) (Fin 15) ℝ) (t0 : Int) (u : ℝ)
    (z : Fin 3 → ℝ) :
    ∃ s1 s2 : UKF ℝ,
      UKF.ProcessMeasurement m (UKF.new X0 t0) ⟨0, SensorType.LASER, ![1, 0, u]⟩ = some s1 ∧
      UKF.ProcessMeasurement m s1 ⟨4700000, SensorType.RADAR, z⟩ = some s2 ∧
      UKF.Reachable m s2 ∧ s2.P_ 1 1 < 0 ∧ ¬ IsPSD s2.P_ := by
  have hm2 := hm
  obtain ⟨hsqrt, hsin, hcos, -, hpi⟩ := hm2
  have hsin0 : m.sin 0 = 0 := by rw [hsin, Real.sin_zero]
  have hcos0 : m.cos 0 = 1 := by rw [hcos, Real.cos_zero]
  have hq2 : Real.sqrt 3 ^ 2 = 3 := Real.sq_sqrt (by norm_num)
  have hq0 : 0 < Real.sqrt 3 := Real.sqrt_pos.mpr (by norm_num)
  have hq1 : 1 < Real.sqrt 3 := by nlinarith
  have hc1 : (UKF.seed m (UKF.new X0 t0) ⟨0, SensorType.LASER, ![1, 0, u]⟩).HasCtorConstants :=
    UKF.seed_hasCtorConstants m _ _ (UKF.new_hasCtorConstants X0 t0)
  have hx1 : (UKF.seed m (UKF.new X0 t0) ⟨0, SensorType.LASER, ![1, 0, u]⟩).x_
      = ![1, 0, 0, 0, 0] := by
    simp [UKF.seed]
  have hP1 : (UKF.seed m (UKF.new X0 t0) ⟨0, SensorType.LASER, ![1, 0, u]⟩).P_ = 1 := by
    simpa [UKF.seed] using UKF.new_P X0 t0
  have hpm1 : UKF.ProcessMeasurement m (UKF.new X0 t0) ⟨0, SensorType.LASER, ![1, 0, u]⟩
      = some (UKF.seed m (UKF.new X0 t0) ⟨0, SensorType.LASER, ![1, 0, u]⟩) := rfl
  have hi1 : (UKF.seed m (UKF.new X0 t0) ⟨0, SensorType.LASER, ![1, 0, u]⟩).is_initialized_
      = true := rfl
  have ht1 : (UKF.seed m (UKF.new X0 t0) ⟨0, SensorType.LASER, ![1, 0, u]⟩).time_us_ = 0 := rfl
  have hu1 : (UKF.seed m (UKF.new X0 t0) ⟨0, SensorType.LASER, ![1, 0, u]⟩).use_radar_
      = true := rfl
  generalize UKF.seed m (UKF.new X0 t0) ⟨0, SensorType.LASER, ![1, 0, u]⟩ = s1 at *
  have hc2 : ({ s1 with time_us_ := 4700000 } : UKF ℝ).HasCtorConstants := hc1
  have hdt : (((4700000 : Int) - s1.time_us_ : Int) : ℝ) / 1000000 = 47 / 10 := by
    rw [ht1]
    norm_num
  have hcP := UKF.Prediction_hasCtorConstants m { s1 with time_us_ := 4700000 } (47 / 10) hc2
  have hpm2 : UKF.ProcessMeasurement m s1 ⟨4700000, SensorType.RADAR, z⟩
      = UKF.UpdateRadar m (UKF.Prediction m { s1 with time_us_ := 4700000 } (47 / 10))
          ⟨4700000, SensorType.RADAR, z⟩ := by
    have hu : (UKF.Prediction m { s1 with time_us_ := 4700000 } (47 / 10)).use_radar_
        = true := by
      rw [UKF.Prediction_eq]
      exact hu1
    simp only [UKF.ProcessMeasurement, hi1, Bool.not_true, Bool.false_eq_true, if_false, hdt]
    exact UKF.updateBySensor_radar m _ _ rfl hu
  obtain ⟨x0, x1, x2, x3, x4, x5, x6, x7, x8, x9, x10, x11, x12, x13, x14⟩ :=
    UKF.Prediction_first_Xsig m { s1 with time_us_ := 4700000 } hc2 hP1 hL hsin0 hcos0 1 0 hx1
      (47 / 10)
  have hmean := UKF.Prediction_first_mean m { s1 with time_us_ := 4700000 } hc2 hP1 hL
    hsin0 hcos0 1 0 hx1 (47 / 10)
  obtain ⟨Zsig, hZ, z0, z1, z2, z3, z4, z5, z6, z7, z8, z9, z10, z11, z12, z13, z14⟩ :=
    UKF.first_radarZsig m hm hL { s1 with time_us_ := 4700000 } hc2 hP1 hx1 (47 / 10)
      (by linarith) (by linarith)
  generalize hsP : UKF.Prediction m { s1 with time_us_ := 4700000 } (47 / 10) = sP at *
  simp only [hsqrt, zero_add] at x0 x1 x2 x3 x4 x5 x6 x7 x8 x9 x10 x11 x12 x13 x14
  have hX1 : ∀ i : Fin 15, i ≠ 2 → i ≠ 9 → sP.Xsig_pred_ 1 i = 0 := by
    intro i h2 h9
    fin_cases i
    · exact (x0 1).trans rfl
    · exact (x1 1).trans rfl
    · exact absurd rfl h2
    · exact (x3 1).trans rfl
    · exact (x4 1).trans rfl
    · exact (x5 1).trans rfl
    · exact (x6 1).trans rfl
    · exact (x7 1).trans rfl
    · exact (x8 1).trans rfl
    · exact absurd rfl h9
    · exact (x10 1).trans rfl
    · exact (x11 1).trans rfl
    · exact (x12 1).trans rfl
    · exact (x13 1).trans rfl
    · exact (x14 1).trans rfl
  have hxP1 : sP.x_ 1 = 0 := by
    rw [hmean]
    rfl
  obtain ⟨-, hS, hT⟩ := UKF.first_radar_quantities m hm sP hcP (47 / 10) Zsig x2 x9 hX1 hxP1
    z0 z1 z2 z3 z4 z5 z6 z7 z8 z9 z10 z11 z12 z13 z14
  have hT0 : UKF.radarT m sP Zsig 1 0 = 0 := by
    have := congrFun hT 0
    simpa using this
  have hT1 : UKF.radarT m sP Zsig 1 1 = Real.sqrt 3 * Real.pi / 9 := by
    have := congrFun hT 1
    simpa using this
  have hT2 : UKF.radarT m sP Zsig 1 2 = 0 := by
    have := congrFun hT 2
    simpa using this
  obtain ⟨w0, w1, w2, w3, w4, w5, w6, w7, w8, w9, w10, w11, w12, w13, w14⟩ :=
    UKF.HasCtorConstants.weights sP hcP
  have hP11 : sP.P_ 1 1 = 1 := by
    have hw : ({ s1 with time_us_ := 4700000 } : UKF ℝ).weights_ = sP.weights_ := by
      rw [← hsP, UKF.Prediction_eq]
    have hPeq : sP.P_ = UKF.predictedCov m sP.weights_ sP.Xsig_pred_ sP.x_ := by
      rw [← hw, ← hsP]
      exact UKF.Prediction_P_eq m _ _
    have hxd : ∀ i : Fin 15, UKF.x_diff m sP.Xsig_pred_ sP.x_ i 1 = sP.Xsig_pred_ 1 i := by
      intro i
      simp [UKF.x_diff, hxP1]
    rw [hPeq]
    simp only [UKF.predictedCov, Matrix.of_apply, hxd, sum_univ_fifteen, w0, w1, w2, w3, w4, w5,
      w6, w7, w8, w9, w10, w11, w12, w13, w14]
    rw [hX1 0 (by decide) (by decide), hX1 1 (by decide) (by decide),
      hX1 3 (by decide) (by decide), hX1 4 (by decide) (by decide),
      hX1 5 (by decide) (by decide), hX1 6 (by decide) (by decide),
      hX1 7 (by decide) (by decide), hX1 8 (by decide) (by decide),
      hX1 10 (by decide) (by decide), hX1 11 (by decide) (by decide),
      hX1 12 (by decide) (by decide), hX1 13 (by decide) (by decide),
      hX1 14 (by decide) (by decide), x2 1, x9 1]
    simp
    nlinarith
  have hp9 : 9 < Real.pi ^ 2 := by nlinarith [Real.pi_gt_three]
  obtain ⟨hd1, hd2⟩ := UKF.first_radar_numbers (Real.sqrt 3) (Real.pi ^ 2) _ _ _ hq2 hq0 hp9
    rfl rfl rfl
  have hdet_eq : (UKF.radarS m sP Zsig).det
      = (31 * Real.pi ^ 2 / 108 + 9 / 10000)
          * ((3 + (47 / 10) ^ 2 + (47 / 10) ^ 4 / 4 - 1 / 9
              - ((47 / 10) ^ 2 + 2 * (47 / 10) + 2) ^ 2 / 12 + 9 / 100
              - Real.sqrt 3 / 9 * ((47 / 10) ^ 2 + 2 * (47 / 10) + 2))
            * (1 + (47 / 10) ^ 2 - (1 + 47 / 10) ^ 2 / 3 + 9 / 100)
            - (47 / 10 + (47 / 10) ^ 3 / 2
                - ((47 / 10) ^ 2 + 2 * (47 / 10) + 2) / 6 * (1 + 47 / 10)
                - Real.sqrt 3 / 9 * (1 + 47 / 10))
              * (47 / 10 + (47 / 10) ^ 3 / 2
                - ((47 / 10) ^ 2 + 2 * (47 / 10) + 2) / 6 * (1 + 47 / 10)
                - Real.sqrt 3 / 9 * (1 + 47 / 10)))
        - 4 * Real.pi ^ 2 / 9 * (1 + (47 / 10) ^ 2 - (1 + 47 / 10) ^ 2 / 3 + 9 / 100) := by
    rw [hS, Matrix.det_fin_three]
    simp
    ring
  have hadj : (UKF.radarS m sP Zsig).adjugate 1 1
      = (3 + (47 / 10) ^ 2 + (47 / 10) ^ 4 / 4 - 1 / 9
              - ((47 / 10) ^ 2 + 2 * (47 / 10) + 2) ^ 2 / 12 + 9 / 100
              - Real.sqrt 3 / 9 * ((47 / 10) ^ 2 + 2 * (47 / 10) + 2))
            * (1 + (47 / 10) ^ 2 - (1 + 47 / 10) ^ 2 / 3 + 9 / 100)
            - (47 / 10 + (47 / 10) ^ 3 / 2
                - ((47 / 10) ^ 2 + 2 * (47 / 10) + 2) / 6 * (1 + 47 / 10)
                - Real.sqrt 3 / 9 * (1 + 47 / 10))
              * (47 / 10 + (47 / 10) ^ 3 / 2
                - ((47 / 10) ^ 2 + 2 * (47 / 10) + 2) / 6 * (1 + 47 / 10)
                - Real.sqrt 3 / 9 * (1 + 47 / 10)) := by
    rw [hS, Matrix.adjugate_fin_three_of]
    simp
  rw [← hdet_eq] at hd1 hd2
  rw [← hadj] at hd2
  have hdet : (UKF.radarS m sP Zsig).det ≠ 0 := ne_of_gt hd1
  obtain ⟨s2, h2, hP2⟩ := UKF.UpdateRadar_P m sP ⟨4700000, SensorType.RADAR, z⟩ Zsig hZ hdet
  have hneg : s2.P_ 1 1 < 0 := by
    rw [hP2, Matrix.sub_apply, gain_diag_entry _ _ hdet 1 hT0 hT2, hT1, hP11]
    have h3 : Real.sqrt 3 * Real.pi / 9 * (Real.sqrt 3 * Real.pi / 9)
        = Real.pi ^ 2 / 27 := by
      have : Real.sqrt 3 * Real.pi / 9 * (Real.sqrt 3 * Real.pi / 9)
          = Real.sqrt 3 ^ 2 * Real.pi ^ 2 / 81 := by ring
      rw [this, hq2]
      ring
    rw [h3]
    have h4 : 1 < Real.pi ^ 2 / 27 * ((UKF.radarS m sP Zsig).det⁻¹
        * (UKF.radarS m sP Zsig).adjugate 1 1) := by
      have h5 : Real.pi ^ 2 / 27 * ((UKF.radarS m sP Zsig).det⁻¹
          * (UKF.radarS m sP Zsig).adjugate 1 1)
          = Real.pi ^ 2 / 27 * (UKF.radarS m sP Zsig).adjugate 1 1
            / (UKF.radarS m sP Zsig).det := by
        rw [div_eq_mul_inv]
        ring
      rw [h5]
      exact (one_lt_div hd1).mpr hd2
    linarith
  refine ⟨s1, s2, hpm1, hpm2.trans h2, ?_, hneg, not_isPSD_of_diag_neg _ 1 hneg⟩
  refine UKF.Reachable.step s1 s2 ⟨4700000, SensorType.RADAR, z⟩ ?_ ?_ (hpm2.trans h2)
  · exact UKF.Reachable.step _ s1 ⟨0, SensorType.LASER, ![1, 0, u]⟩ (UKF.Reachable.ctor X0 t0)
      (fun h => by simp [UKF.new] at h) hpm1
  · intro _
    rw [ht1]
    norm_num

/-- The quadratic form of the recombined covariance: the weighted sum of the squares
of `v · d_i` over the normalised differences `d_i`. -/
theorem UKF.predictedCov_quadratic {F : Type} [LinearOrderedField F] [FloorRing F]
    (m : Numerics F) (w : Fin 15 → F) (X : Matrix (Fin 5) (Fin 15) F) (x v : Fin 5 → F) :
    Matrix.dotProduct v ((UKF.predictedCov m w X x).mulVec v)
      = ∑ i : Fin 15, w i * (Matrix.dotProduct v (UKF.x_diff m X x i)) ^ 2 := by
  simp only [Matrix.dotProduct, Matrix.mulVec, UKF.predictedCov, Matrix.of_apply, Finset.sum_mul,
    Finset.mul_sum, sq]
  rw [Finset.sum_congr rfl (fun a _ => Finset.sum_comm), Finset.sum_comm]
  refine Finset.sum_congr rfl fun i _ => ?_
  rw [Finset.sum_comm]
  refine Finset.sum_congr rfl fun a _ => ?_
  refine Finset.sum_congr rfl fun b _ => ?_
  ring

/-- C9 as amended: for every state with the constructor's weights, the covariance left
by `Prediction` is positive semi-definite up to the term of column 0, the only one
with a negative weight: `vᵀ P_ v ≥ -(4/3) (v · d₀)²` for the normalised difference
`d₀` of column 0 from the mean; so it is positive semi-definite when `d₀ = 0`, as it
is for `delta_t = 0` (with `0 < M_PI`). -/
theorem UKF.Prediction_P_psd_up_to_column_zero {F : Type} [LinearOrderedField F] [FloorRing F]
    (m : Numerics F) (s : UKF F) (hs : s.HasCtorConstants) (hpi : 0 < m.M_PI) (delta_t : F) :
    (∀ v : Fin 5 → F,
      -(4 / 3) * (Matrix.dotProduct v (UKF.x_diff m (UKF.Prediction m s delta_t).Xsig_pred_
          (UKF.Prediction m s delta_t).x_ 0)) ^ 2
        ≤ Matrix.dotProduct v ((UKF.Prediction m s delta_t).P_.mulVec v)) ∧
    ((∀ r, UKF.x_diff m (UKF.Prediction m s delta_t).Xsig_pred_
        (UKF.Prediction m s delta_t).x_ 0 r = 0) → IsPSD (UKF.Prediction m s delta_t).P_) ∧
    IsPSD (UKF.Prediction m s 0).P_ := by
  have hw0 : s.weights_ 0 = -4 / 3 := by rw [hs.1]; exact UKF.new_weights_zero 0 0
  have hws : ∀ j : Fin 14, s.weights_ j.succ = 1 / 6 := by
    intro j
    rw [hs.1]
    exact UKF.new_weights_succ 0 0 j
  have bound : ∀ (dt : F) (v : Fin 5 → F),
      -(4 / 3) * (Matrix.dotProduct v (UKF.x_diff m (UKF.Prediction m s dt).Xsig_pred_
          (UKF.Prediction m s dt).x_ 0)) ^ 2
        ≤ Matrix.dotProduct v ((UKF.Prediction m s dt).P_.mulVec v) := by
    intro dt v
    rw [UKF.Prediction_P_eq, UKF.predictedCov_quadratic, Fin.sum_univ_succ, hw0]
    have hrest : 0 ≤ ∑ j : Fin 14, s.weights_ j.succ
        * (Matrix.dotProduct v (UKF.x_diff m (UKF.Prediction m s dt).Xsig_pred_
            (UKF.Prediction m s dt).x_ j.succ)) ^ 2 := by
      apply Finset.sum_nonneg
      intro j _
      rw [hws]
      positivity
    linarith
  have psd : ∀ dt : F, (∀ r, UKF.x_diff m (UKF.Prediction m s dt).Xsig_pred_
      (UKF.Prediction m s dt).x_ 0 r = 0) → IsPSD (UKF.Prediction m s dt).P_ := by
    intro dt h0 v
    have h1 := bound dt v
    have h2 : Matrix.dotProduct v (UKF.x_diff m (UKF.Prediction m s dt).Xsig_pred_
        (UKF.Prediction m s dt).x_ 0) = 0 := by
      simp [Matrix.dotProduct, h0]
    rw [h2] at h1
    simpa using h1
  refine ⟨bound delta_t, psd delta_t, psd 0 ?_⟩
  intro r
  obtain ⟨hX, hx⟩ := UKF.Prediction_zero_state m s hs
  have hcol : (UKF.Prediction m s 0).Xsig_pred_ r 0 = s.x_ r := by
    rw [hX, UKF.sigmaPoints, UKF.Xsig_aug_zero]
    fin_cases r <;> rfl
  have hzero : normalizeAngle m.M_PI (0 : F) = 0 :=
    normalizeAngle_eq_self _ _ (by linarith) (by linarith)
  simp only [UKF.x_diff, hcol, hx, sub_self, hzero, ite_self]

/-- C9 as amended, at a concrete input: the constructed filter over the reals and
`delta_t = 1`. -/
theorem UKF.Prediction_P_psd_up_to_column_zero_witness :
    (UKF.new 0 0 : UKF ℝ).HasCtorConstants ∧ (0 : ℝ) < Real.pi ∧
    ((∀ v : Fin 5 → ℝ,
      -(4 / 3) * (Matrix.dotProduct v (UKF.x_diff
          ⟨Real.sqrt, Real.sin, Real.cos, fun y x => Complex.arg ⟨x, y⟩, Real.pi, id, fun _ => 1⟩
          (UKF.Prediction
            ⟨Real.sqrt, Real.sin, Real.cos, fun y x => Complex.arg ⟨x, y⟩, Real.pi, id, fun _ => 1⟩
            (UKF.new 0 0) 1).Xsig_pred_
          (UKF.Prediction
            ⟨Real.sqrt, Real.sin, Real.cos, fun y x => Complex.arg ⟨x, y⟩, Real.pi, id, fun _ => 1⟩
            (UKF.new 0 0) 1).x_ 0)) ^ 2
        ≤ Matrix.dotProduct v ((UKF.Prediction
            ⟨Real.sqrt, Real.sin, Real.cos, fun y x => Complex.arg ⟨x, y⟩, Real.pi, id, fun _ => 1⟩
            (UKF.new 0 0) 1).P_.mulVec v)) ∧
    ((∀ r, UKF.x_diff
        ⟨Real.sqrt, Real.sin, Real.cos, fun y x => Complex.arg ⟨x, y⟩, Real.pi, id, fun _ => 1⟩
        (UKF.Prediction
          ⟨Real.sqrt, Real.sin, Real.cos, fun y x => Complex.arg ⟨x, y⟩, Real.pi, id, fun _ => 1⟩
          (UKF.new 0 0) 1).Xsig_pred_
        (UKF.Prediction
          ⟨Real.sqrt, Real.sin, Real.cos, fun y x => Complex.arg ⟨x, y⟩, Real.pi, id, fun _ => 1⟩
          (UKF.new 0 0) 1).x_ 0 r = 0) →
      IsPSD (UKF.Prediction
        ⟨Real.sqrt, Real.sin, Real.cos, fun y x => Complex.arg ⟨x, y⟩, Real.pi, id, fun _ => 1⟩
        (UKF.new 0 0) 1).P_) ∧
    IsPSD (UKF.Prediction
      ⟨Real.sqrt, Real.sin, Real.cos, fun y x => Complex.arg ⟨x, y⟩, Real.pi, id, fun _ => 1⟩
      (UKF.new 0 0) 0).P_) :=
  ⟨UKF.new_hasCtorConstants 0 0, Real.pi_pos,
    UKF.Prediction_P_psd_up_to_column_zero _ (UKF.new 0 0) (UKF.new_hasCtorConstants 0 0)
      Real.pi_pos 1⟩

/-- C9 as stated fails: with the real functions (`llt` is applied to the identity
matrix only on this run, and returns the identity), the filter constructed with a
zero `Xsig_pred_`, seeded by LASER `(1, 0)` at `t = 0` and given RADAR `(1, 0, 0)` at
`t = 4700000` is in a reachable state whose covariance has `P_(1,1) < 0` and is not
positive semi-definite. -/
theorem UKF.psd_counterexample :
    ∃ s1 s2 : UKF ℝ,
      UKF.ProcessMeasurement
        ⟨Real.sqrt, Real.sin, Real.cos, fun y x => Complex.arg ⟨x, y⟩, Real.pi, id, fun _ => 1⟩
        (UKF.new 0 0) ⟨0, SensorType.LASER, ![1, 0, 0]⟩ = some s1 ∧
      UKF.ProcessMeasurement
        ⟨Real.sqrt, Real.sin, Real.cos, fun y x => Complex.arg ⟨x, y⟩, Real.pi, id, fun _ => 1⟩
        s1 ⟨4700000, SensorType.RADAR, ![1, 0, 0]⟩ = some s2 ∧
      UKF.Reachable
        ⟨Real.sqrt, Real.sin, Real.cos, fun y x => Complex.arg ⟨x, y⟩, Real.pi, id, fun _ => 1⟩
        s2 ∧
      s2.P_ 1 1 < 0 ∧ ¬ IsPSD s2.P_ :=
  UKF.laser_radar_not_psd _
    ⟨fun _ => rfl, fun _ => rfl, fun _ => rfl, fun _ _ => rfl, rfl⟩
    IsCholeskyFactor.one 0 0 0 ![1, 0, 0]

/-- `Prediction` neither reads nor writes `time_us_`: the state, covariance and the
two NIS values it leaves do not depend on it, and the NIS values and toggles are
those on entry. -/
theorem UKF.Prediction_frame {F : Type} [LinearOrderedField F] [FloorRing F] (m : Numerics F)
    (s : UKF F) (t : Int) (dt : F) :
    (UKF.Prediction m { s with time_us_ := t } dt).x_ = (UKF.Prediction m s dt).x_ ∧
    (UKF.Prediction m { s with time_us_ := t } dt).P_ = (UKF.Prediction m s dt).P_ ∧
    (UKF.Prediction m { s with time_us_ := t } dt).NIS_LIDAR_ = s.NIS_LIDAR_ ∧
    (UKF.Prediction m { s with time_us_ := t } dt).NIS_RADAR_ = s.NIS_RADAR_ ∧
    (UKF.Prediction m { s with time_us_ := t } dt).use_laser_ = s.use_laser_ ∧
    (UKF.Prediction m { s with time_us_ := t } dt).use_radar_ = s.use_radar_ := by
  rw [UKF.Prediction_eq, UKF.Prediction_eq]
  exact ⟨rfl, rfl, rfl, rfl, rfl, rfl⟩

/-- The two guarded updates do nothing on a package whose sensor kind is switched
off. -/
theorem UKF.updateBySensor_disabled {F : Type} [LinearOrderedField F] [FloorRing F]
    (m : Numerics F) (s : UKF F) (meas_package : MeasurementPackage F)
    (hd : (meas_package.sensor_type_ = SensorType.RADAR ∧ s.use_radar_ = false) ∨
      (meas_package.sensor_type_ = SensorType.LASER ∧ s.use_laser_ = false)) :
    UKF.updateBySensor m s meas_package = some s := by
  rcases hd with ⟨hk, hu⟩ | ⟨hk, hu⟩ <;> simp [UKF.updateBySensor, hk, hu]

/-- C11: for a package whose sensor kind is switched off (RADAR with `use_radar_`
false, or LASER with `use_laser_` false): on an initialised filter
`ProcessMeasurement` returns a state whose `x_` and `P_` are those left by
`Prediction(delta_t)` alone, with `delta_t = (timestamp_ - time_us_) / 1000000`, and
whose `NIS_LIDAR_` and `NIS_RADAR_` are those on entry; on a filter that is not
initialised it returns the seeded state: `is_initialized_` set, `time_us_` the
timestamp, and `x_` the position computed from the readings with zero velocity, yaw
and yaw rate. -/
theorem UKF.ProcessMeasurement_disabled_sensor {F : Type} [LinearOrderedField F] [FloorRing F]
    (m : Numerics F) (s : UKF F) (meas_package : MeasurementPackage F)
    (hd : (meas_package.sensor_type_ = SensorType.RADAR ∧ s.use_radar_ = false) ∨
      (meas_package.sensor_type_ = SensorType.LASER ∧ s.use_laser_ = false)) :
    (s.is_initialized_ = true →
      ∃ s2 : UKF F, UKF.ProcessMeasurement m s meas_package = some s2 ∧
        s2.x_ = (UKF.Prediction m s
          (((meas_package.timestamp_ - s.time_us_ : Int) : F) / 1000000)).x_ ∧
        s2.P_ = (UKF.Prediction m s
          (((meas_package.timestamp_ - s.time_us_ : Int) : F) / 1000000)).P_ ∧
        s2.NIS_LIDAR_ = s.NIS_LIDAR_ ∧ s2.NIS_RADAR_ = s.NIS_RADAR_) ∧
    (s.is_initialized_ = false →
      ∃ s2 : UKF F, UKF.ProcessMeasurement m s meas_package = some s2 ∧
        s2.is_initialized_ = true ∧ s2.time_us_ = meas_package.timestamp_ ∧
        s2.P_ = s.P_ ∧
        s2.x_ = (if meas_package.sensor_type_ = SensorType.RADAR then
            ![m.toFloat (meas_package.raw_measurements_ 0 * m.cos (meas_package.raw_measurements_ 1)),
              m.toFloat (meas_package.raw_measurements_ 0 * m.sin (meas_package.raw_measurements_ 1)),
              0, 0, 0]
          else ![meas_package.raw_measurements_ 0, meas_package.raw_measurements_ 1, 0, 0, 0])) := by
  constructor
  · intro hi
    obtain ⟨hx, hP, hl, hr, hul, hur⟩ := UKF.Prediction_frame m s meas_package.timestamp_
      (((meas_package.timestamp_ - s.time_us_ : Int) : F) / 1000000)
    refine ⟨_, ?_, hx, hP, hl, hr⟩
    simp only [UKF.ProcessMeasurement, hi, Bool.not_true, Bool.false_eq_true, if_false]
    apply UKF.updateBySensor_disabled
    rcases hd with ⟨hk, hu⟩ | ⟨hk, hu⟩
    · exact Or.inl ⟨hk, hur.trans hu⟩
    · exact Or.inr ⟨hk, hul.trans hu⟩
  · intro hi
    refine ⟨UKF.seed m s meas_package, ?_, rfl, rfl, ?_, ?_⟩
    · simp [UKF.ProcessMeasurement, hi]
    · simp only [UKF.seed]
      split <;> split <;> rfl
    · rcases hd with ⟨hk, -⟩ | ⟨hk, -⟩ <;> simp [UKF.seed, hk]

/-- C11 at concrete inputs: a constructed filter over the reals with `use_radar_`
switched off, initialised and not, and a RADAR package. -/
theorem UKF.ProcessMeasurement_disabled_sensor_witness :
    (∃ s2 : UKF ℝ, UKF.ProcessMeasurement
        ⟨Real.sqrt, Real.sin, Real.cos, fun y x => Complex.arg ⟨x, y⟩, Real.pi, id, fun _ => 1⟩
        { (UKF.new 0 0 : UKF ℝ) with use_radar_ := false, is_initialized_ := true }
        ⟨1000000, SensorType.RADAR, ![1, 0, 0]⟩ = some s2 ∧
      s2.x_ = (UKF.Prediction
        ⟨Real.sqrt, Real.sin, Real.cos, fun y x => Complex.arg ⟨x, y⟩, Real.pi, id, fun _ => 1⟩
        { (UKF.new 0 0 : UKF ℝ) with use_radar_ := false, is_initialized_ := true }
        (((1000000 - 0 : Int) : ℝ) / 1000000)).x_ ∧
      s2.NIS_RADAR_ = 0) ∧
    (∃ s2 : UKF ℝ, UKF.ProcessMeasurement
        ⟨Real.sqrt, Real.sin, Real.cos, fun y x => Complex.arg ⟨x, y⟩, Real.pi, id, fun _ => 1⟩
        { (UKF.new 0 0 : UKF ℝ) with use_radar_ := false }
        ⟨1000000, SensorType.RADAR, ![1, 0, 0]⟩ = some s2 ∧
      s2.is_initialized_ = true ∧ s2.x_ 0 = 1) := by
  constructor
  · obtain ⟨s2, h, hx, -, -, hr⟩ := (UKF.ProcessMeasurement_disabled_sensor
      ⟨Real.sqrt, Real.sin, Real.cos, fun y x => Complex.arg ⟨x, y⟩, Real.pi, id, fun _ => 1⟩
      { (UKF.new 0 0 : UKF ℝ) with use_radar_ := false, is_initialized_ := true }
      ⟨1000000, SensorType.RADAR, ![1, 0, 0]⟩ (Or.inl ⟨rfl, rfl⟩)).1 rfl
    exact ⟨s2, h, hx, hr⟩
  · obtain ⟨s2, h, hi, -, -, hx⟩ := (UKF.ProcessMeasurement_disabled_sensor
      ⟨Real.sqrt, Real.sin, Real.cos, fun y x => Complex.arg ⟨x, y⟩, Real.pi, id, fun _ => 1⟩
      { (UKF.new 0 0 : UKF ℝ) with use_radar_ := false }
      ⟨1000000, SensorType.RADAR, ![1, 0, 0]⟩ (Or.inl ⟨rfl, rfl⟩)).2 rfl
    refine ⟨s2, h, hi, ?_⟩
    rw [hx]
    simp

/-- The radar projection of a point with `px = py = 0` divides by `sqrt(0)`: it has
no value when `sqrt(0) = 0`. -/
theorem UKF.radarPoint_origin {F : Type} [LinearOrderedField F] (m : Numerics F)
    (hs0 : m.sqrt 0 = 0) (p : Fin 5 → F) (h0 : p 0 = 0) (h1 : p 1 = 0) :
    UKF.radarPoint m p = none := by
  simp [UKF.radarPoint, checkedDiv, h0, h1, hs0]

/-- `UpdateRadar` has no result when one of the fifteen predicted sigma points has
`px = py = 0`. -/
theorem UKF.UpdateRadar_origin {F : Type} [LinearOrderedField F] [FloorRing F] (m : Numerics F)
    (hs0 : m.sqrt 0 = 0) (s : UKF F) (meas_package : MeasurementPackage F) (i : Fin 15)
    (h0 : s.Xsig_pred_ 0 i = 0) (h1 : s.Xsig_pred_ 1 i = 0) :
    UKF.UpdateRadar m s meas_package = none := by
  have hz : UKF.radarZsig m s.Xsig_pred_ = none := by
    rw [UKF.radarZsig, dif_neg]
    intro h
    have := h i
    rw [UKF.radarPoint_origin m hs0 _ h0 h1] at this
    exact absurd this (by simp)
  simp [UKF.UpdateRadar, hz]

/-- Column 0 of `Xsig_pred_` after `Prediction` from a state at rest at the origin
is the origin again, for every `delta_t` and every factor `L`. -/
theorem UKF.Prediction_origin_column {F : Type} [LinearOrderedField F] [FloorRing F]
    (m : Numerics F) (s : UKF F) (hx : s.x_ = ![0, 0, 0, 0, 0]) (dt : F) (r : Fin 5) :
    (UKF.Prediction m s dt).Xsig_pred_ r 0 = 0 := by
  have h0 : ¬ (1 / 1000 < |(0 : F)|) := by simp
  have hX : (UKF.Prediction m s dt).Xsig_pred_
      = UKF.propagated m dt (UKF.sigmaPoints m s) := by
    rw [UKF.Prediction_eq]
  rw [hX, UKF.sigmaPoints, UKF.propagated_zero, hx]
  obtain ⟨a0, a1, a2, a3, a4, a5, a6⟩ := UKF.x_aug_apply (![0, 0, 0, 0, 0] : Fin 5 → F)
  fin_cases r <;> simp +decide [UKF.predictPoint, a0, a1, a2, a3, a4, a5, a6]

/-- C12 (what the code does): the radar projection of lines 359-361 divides by
`rho = sqrt(px*px + py*py)` without a test. With `sqrt(0) = 0` the projection of every
point with `px = py = 0` has no value, and `UpdateRadar` has no result as soon as one
predicted sigma point is such a point. This happens on the run: LASER `(0, 0)` at
`t1` on a constructed filter seeds the state `[0,0,0,0,0]`; at the next package, RADAR
at `t2`, column 0 of `Xsig_pred_` is the origin and `ProcessMeasurement` has no
result. -/
theorem UKF.ProcessMeasurement_radar_zero_range {F : Type} [LinearOrderedField F] [FloorRing F]
    (m : Numerics F) (hs0 : m.sqrt 0 = 0) (X0 : Matrix (Fin 5) (Fin 15) F) (t0 t1 t2 : Int)
    (u : F) (z : Fin 3 → F) :
    (∀ v yaw yawd : F, UKF.radarPoint m ![0, 0, v, yaw, yawd] = none) ∧
    (∀ (s : UKF F) (meas_package : MeasurementPackage F) (i : Fin 15),
      s.Xsig_pred_ 0 i = 0 → s.Xsig_pred_ 1 i = 0 → UKF.UpdateRadar m s meas_package = none) ∧
    ∃ s1 : UKF F,
      UKF.ProcessMeasurement m (UKF.new X0 t0) ⟨t1, SensorType.LASER, ![0, 0, u]⟩ = some s1 ∧
      s1.x_ = ![0, 0, 0, 0, 0] ∧
      (∀ r, (UKF.Prediction m { s1 with time_us_ := t2 }
        (((t2 - t1 : Int) : F) / 1000000)).Xsig_pred_ r 0 = 0) ∧
      UKF.ProcessMeasurement m s1 ⟨t2, SensorType.RADAR, z⟩ = none := by
  refine ⟨fun v yaw yawd => UKF.radarPoint_origin m hs0 _ rfl rfl,
    fun s meas_package i h0 h1 => UKF.UpdateRadar_origin m hs0 s meas_package i h0 h1,
    UKF.seed m (UKF.new X0 t0) ⟨t1, SensorType.LASER, ![0, 0, u]⟩, rfl, ?_, ?_, ?_⟩
  · simp [UKF.seed]
  · intro r
    exact UKF.Prediction_origin_column m _ (by simp [UKF.seed]) _ r
  · have hx : ({ UKF.seed m (UKF.new X0 t0) ⟨t1, SensorType.LASER, ![0, 0, u]⟩ with
        time_us_ := t2 } : UKF F).x_ = ![0, 0, 0, 0, 0] := by
      simp [UKF.seed]
    have hu : (UKF.Prediction m { UKF.seed m (UKF.new X0 t0) ⟨t1, SensorType.LASER, ![0, 0, u]⟩
        with time_us_ := t2 } (((t2 - t1 : Int) : F) / 1000000)).use_radar_ = true := by
      rw [UKF.Prediction_eq]
      rfl
    have hpm : UKF.ProcessMeasurement m
        (UKF.seed m (UKF.new X0 t0) ⟨t1, SensorType.LASER, ![0, 0, u]⟩)
        ⟨t2, SensorType.RADAR, z⟩
        = UKF.updateBySensor m (UKF.Prediction m
            { UKF.seed m (UKF.new X0 t0) ⟨t1, SensorType.LASER, ![0, 0, u]⟩ with time_us_ := t2 }
            (((t2 - t1 : Int) : F) / 1000000)) ⟨t2, SensorType.RADAR, z⟩ := rfl
    rw [hpm, UKF.updateBySensor_radar m _ _ rfl hu]
    exact UKF.UpdateRadar_origin m hs0 _ _ 0 (UKF.Prediction_origin_column m _ hx _ 0)
      (UKF.Prediction_origin_column m _ hx _ 1)

/-- C12 at a concrete input: the real square root, LASER `(0, 0)` at `t = 0` and RADAR
`(1, 0, 0)` at `t = 1000000`. -/
theorem UKF.ProcessMeasurement_radar_zero_range_witness :
    Real.sqrt 0 = 0 ∧
    ∃ s1 : UKF ℝ,
      UKF.ProcessMeasurement
        ⟨Real.sqrt, Real.sin, Real.cos, fun y x => Complex.arg ⟨x, y⟩, Real.pi, id, fun _ => 1⟩
        (UKF.new 0 0) ⟨0, SensorType.LASER, ![0, 0, 0]⟩ = some s1 ∧
      UKF.ProcessMeasurement
        ⟨Real.sqrt, Real.sin, Real.cos, fun y x => Complex.arg ⟨x, y⟩, Real.pi, id, fun _ => 1⟩
        s1 ⟨1000000, SensorType.RADAR, ![1, 0, 0]⟩ = none := by
  obtain ⟨-, -, s1, h1, -, -, h2⟩ := UKF.ProcessMeasurement_radar_zero_range
    ⟨Real.sqrt, Real.sin, Real.cos, fun y x => Complex.arg ⟨x, y⟩, Real.pi, id, fun _ => 1⟩
    Real.sqrt_zero 0 0 0 1000000 0 ![1, 0, 0]
  exact ⟨Real.sqrt_zero, s1, h1, h2⟩

/-- The position entries of `predictPoint` are the branch positions of lines 208-217
followed by the noise terms of lines 224-225. -/
theorem UKF.predictPoint_position {F : Type} [LinearOrderedField F] (m : Numerics F)
    (delta_t : F) (p : Fin 7 → F) :
    UKF.predictPoint m delta_t p 0
      = (if |p 4| > 1 / 1000 then (UKF.turnPosition m (p 0) (p 1) (p 2) (p 3) (p 4) delta_t).1
          else (UKF.straightPosition m (p 0) (p 1) (p 2) (p 3) delta_t).1)
        + 1 / 2 * p 5 * delta_t * delta_t * m.cos (p 3) ∧
    UKF.predictPoint m delta_t p 1
      = (if |p 4| > 1 / 1000 then (UKF.turnPosition m (p 0) (p 1) (p 2) (p 3) (p 4) delta_t).2
          else (UKF.straightPosition m (p 0) (p 1) (p 2) (p 3) delta_t).2)
        + 1 / 2 * p 5 * delta_t * delta_t * m.sin (p 3) := by
  constructor <;> by_cases h : |p 4| > 1 / 1000 <;>
    simp [UKF.predictPoint, UKF.turnPosition, UKF.straightPosition, h]

/-- The difference quotient of `sin` along `yaw + yawd * delta_t` at `yawd = 0`. -/
theorem tendsto_sin_quotient (yaw dt : ℝ) :
    Filter.Tendsto (fun y : ℝ => y⁻¹ * (Real.sin (yaw + y * dt) - Real.sin yaw))
      (nhdsWithin 0 {0}ᶜ) (nhds (Real.cos yaw * dt)) := by
  have hd : HasDerivAt (fun y : ℝ => Real.sin (yaw + y * dt)) (Real.cos (yaw + 0 * dt) * dt) 0 := by
    have h1 : HasDerivAt (fun y : ℝ => yaw + y * dt) dt 0 := by
      simpa using ((hasDerivAt_id (0 : ℝ)).mul_const dt).const_add yaw
    exact (Real.hasDerivAt_sin (yaw + 0 * dt)).comp 0 h1
  have h2 := hasDerivAt_iff_tendsto_slope.mp hd
  simp only [zero_mul, add_zero] at h2
  refine h2.congr (fun y => ?_)
  simp [slope_def_field, div_eq_inv_mul]

/-- The difference quotient of `cos` along `yaw + yawd * delta_t` at `yawd = 0`. -/
theorem tendsto_cos_quotient (yaw dt : ℝ) :
    Filter.Tendsto (fun y : ℝ => y⁻¹ * (Real.cos yaw - Real.cos (yaw + y * dt)))
      (nhdsWithin 0 {0}ᶜ) (nhds (Real.sin yaw * dt)) := by
  have hd : HasDerivAt (fun y : ℝ => Real.cos (yaw + y * dt))
      (-Real.sin (yaw + 0 * dt) * dt) 0 := by
    have h1 : HasDerivAt (fun y : ℝ => yaw + y * dt) dt 0 := by
      simpa using ((hasDerivAt_id (0 : ℝ)).mul_const dt).const_add yaw
    exact (Real.hasDerivAt_cos (yaw + 0 * dt)).comp 0 h1
  have h2 := (hasDerivAt_iff_tendsto_slope.mp hd).neg
  simp only [zero_mul, add_zero, neg_mul, neg_neg] at h2
  refine h2.congr (fun y => ?_)
  simp [slope_def_field, div_eq_inv_mul]
  ring

/-- C13: with the exact `sin` and `cos`, for every `px, py, v, yaw, delta_t` the position
computed by the branch `fabs(yawd) > 0.001` of the per-point propagation (lines 210-211)
tends, as `yawd` tends to `0` through non-zero values, to the position computed by the
straight-line branch (lines 215-216). -/
theorem UKF.turnPosition_tendsto_straightPosition (m : Numerics ℝ) (hm : m.Exact)
    (px py v yaw delta_t : ℝ) :
    Filter.Tendsto (fun yawd : ℝ => UKF.turnPosition m px py v yaw yawd delta_t)
      (nhdsWithin 0 {0}ᶜ) (nhds (UKF.straightPosition m px py v yaw delta_t)) := by
  obtain ⟨-, hsin, hcos, -, -⟩ := hm
  simp only [UKF.turnPosition, UKF.straightPosition, hsin, hcos]
  refine Filter.Tendsto.prod_mk_nhds ?_ ?_
  · have h := ((tendsto_sin_quotient yaw delta_t).const_mul v).const_add px
    have e : px + v * (Real.cos yaw * delta_t) = px + v * delta_t * Real.cos yaw := by ring
    rw [e] at h
    refine h.congr (fun y => ?_)
    rw [div_eq_mul_inv, mul_assoc]
  · have h := ((tendsto_cos_quotient yaw delta_t).const_mul v).const_add py
    have e : py + v * (Real.sin yaw * delta_t) = py + v * delta_t * Real.sin yaw := by ring
    rw [e] at h
    refine h.congr (fun y => ?_)
    rw [div_eq_mul_inv, mul_assoc]

/-- C13 at a concrete input: the real functions, the point `(0, 0)` with speed `1`
and yaw `0` over one second: the limit position is `(1, 0)`. -/
theorem UKF.turnPosition_tendsto_straightPosition_witness :
    Numerics.Exact
      ⟨Real.sqrt, Real.sin, Real.cos, fun y x => Complex.arg ⟨x, y⟩, Real.pi, id, fun _ => 1⟩ ∧
    Filter.Tendsto (fun yawd : ℝ => UKF.turnPosition
        ⟨Real.sqrt, Real.sin, Real.cos, fun y x => Complex.arg ⟨x, y⟩, Real.pi, id, fun _ => 1⟩
        0 0 1 0 yawd 1)
      (nhdsWithin 0 {0}ᶜ) (nhds ((1 : ℝ), (0 : ℝ))) := by
  refine ⟨⟨fun _ => rfl, fun _ => rfl, fun _ => rfl, fun _ _ => rfl, rfl⟩, ?_⟩
  have h := UKF.turnPosition_tendsto_straightPosition
    ⟨Real.sqrt, Real.sin, Real.cos, fun y x => Complex.arg ⟨x, y⟩, Real.pi, id, fun _ => 1⟩
    ⟨fun _ => rfl, fun _ => rfl, fun _ => rfl, fun _ _ => rfl, rfl⟩ 0 0 1 0 1
  simpa [UKF.straightPosition] using h

/-- In exact arithmetic, where every normalisation loop stops: for every state, every
`delta_t` and every prior content `X0` of `Xsig_pred_`, the state left by `Prediction`
(which recombines `x_` and `P_` inside the loop over the sigma points, from columns that
are partly stale) equals the state of the reference design, which propagates the fifteen
sigma points first and recombines once. With the loops as they run on `double` see
`UKF.PredictionRounded`. -/
theorem UKF.Prediction_eq_reference {F : Type} [LinearOrderedField F] [FloorRing F]
    (m : Numerics F) (s : UKF F) (delta_t : F) (X0 : Matrix (Fin 5) (Fin 15) F) :
    UKF.Prediction m { s with Xsig_pred_ := X0 } delta_t = UKF.PredictionReference m s delta_t ∧
    (UKF.Prediction m s delta_t).x_ = (UKF.PredictionReference m s delta_t).x_ ∧
    (UKF.Prediction m s delta_t).P_ = (UKF.PredictionReference m s delta_t).P_ ∧
    (UKF.Prediction m s delta_t).Xsig_pred_ = (UKF.PredictionReference m s delta_t).Xsig_pred_ := by
  have hP : UKF.predictedCov m s.weights_ (UKF.propagated m delta_t (UKF.sigmaPoints m s))
      (UKF.predictedMean s.weights_ (UKF.propagated m delta_t (UKF.sigmaPoints m s)))
      = (UKF.PredictionReference m s delta_t).P_ := by
    ext a b
    simp only [UKF.predictedCov, UKF.PredictionReference, UKF.x_diff, UKF.predictedMean,
      UKF.propagated, Matrix.of_apply]
    refine Finset.sum_congr rfl (fun i _ => ?_)
    rw [mul_comm]
  refine ⟨?_, ?_, ?_, ?_⟩
  · rw [UKF.Prediction_eq]
    have h1 : UKF.sigmaPoints m { s with Xsig_pred_ := X0 } = UKF.sigmaPoints m s := rfl
    simp only [h1, hP]
    rfl
  · rw [UKF.Prediction_eq]
    rfl
  · rw [UKF.Prediction_eq]
    exact hP
  · rw [UKF.Prediction_eq]
    rfl

/-- The top-left 5×5 block of the augmented covariance is the state covariance. -/
theorem UKF.P_aug_block {F : Type} [LinearOrderedField F] (P : Matrix (Fin 5) (Fin 5) F)
    (a y : F) (i j : Fin 5) :
    UKF.P_aug P a y (Fin.castLE (by omega) i) (Fin.castLE (by omega) j) = P i j := by
  have hi := i.isLt
  have hj := j.isLt
  simp [UKF.P_aug, hi, hj]

/-- With `delta_t = 0`, the constructor's weights, a factor `L = llt(P_aug)` with
`L * Lᵀ = P_aug`, `sqrt(3)² = 3` and no yaw difference `sqrt(3) * L(3, i)` outside
`[-M_PI, M_PI]`, the covariance left by `Prediction` is the one on entry. -/
theorem UKF.Prediction_zero_P {F : Type} [LinearOrderedField F] [FloorRing F]
    (m : Numerics F) (s : UKF F) (hs : s.HasCtorConstants)
    (hq : m.sqrt 3 * m.sqrt 3 = 3)
    (hL : m.llt (UKF.P_aug s.P_ s.std_a_ s.std_yawdd_)
        * (m.llt (UKF.P_aug s.P_ s.std_a_ s.std_yawdd_)).transpose
      = UKF.P_aug s.P_ s.std_a_ s.std_yawdd_)
    (hw : ∀ i : Fin 7, |m.sqrt 3 * m.llt (UKF.P_aug s.P_ s.std_a_ s.std_yawdd_) 3 i| ≤ m.M_PI) :
    (UKF.Prediction m s 0).P_ = s.P_ := by
  obtain ⟨hX, hx⟩ := UKF.Prediction_zero_state m s hs
  have h3 : s.lambda_ + (s.n_aug_ : F) = 3 := by
    rw [hs.2.1, hs.2.2.1]
    simp [UKF.new]
    norm_num
  have hpi : 0 ≤ m.M_PI := le_trans (abs_nonneg _) (hw 0)
  generalize hLdef : m.llt (UKF.P_aug s.P_ s.std_a_ s.std_yawdd_) = L at hL hw
  have hsig : UKF.sigmaPoints m s = UKF.Xsig_aug (UKF.x_aug s.x_) (m.sqrt 3) L := by
    simp only [UKF.sigmaPoints, h3, hLdef]
  have hxa : ∀ r : Fin 5, UKF.x_aug s.x_ (Fin.castLE (by omega) r) = s.x_ r := by
    intro r
    fin_cases r <;> rfl
  -- the normalised differences, column by column
  have d0 : ∀ r, UKF.x_diff m (UKF.Prediction m s 0).Xsig_pred_ (UKF.Prediction m s 0).x_ 0 r
      = 0 := by
    intro r
    have e : (UKF.Prediction m s 0).Xsig_pred_ r 0 - (UKF.Prediction m s 0).x_ r = 0 := by
      rw [hX, hx, hsig, UKF.Xsig_aug_zero, hxa, sub_self]
    simp only [UKF.x_diff, e]
    split
    · exact normalizeAngle_eq_self _ _ (by linarith) hpi
    · rfl
  have dp : ∀ (j : Fin 7) (r : Fin 5),
      UKF.x_diff m (UKF.Prediction m s 0).Xsig_pred_ (UKF.Prediction m s 0).x_ (UKF.colPlus j) r
        = m.sqrt 3 * L (Fin.castLE (by omega) r) j := by
    intro j r
    have e : (UKF.Prediction m s 0).Xsig_pred_ r (UKF.colPlus j) - (UKF.Prediction m s 0).x_ r
        = m.sqrt 3 * L (Fin.castLE (by omega) r) j := by
      rw [hX, hx, hsig, UKF.Xsig_aug_colPlus, hxa]
      ring
    simp only [UKF.x_diff, e]
    split
    · next h =>
      subst h
      have := abs_le.mp (hw j)
      exact normalizeAngle_eq_self _ _ this.1 this.2
    · rfl
  have dm : ∀ (j : Fin 7) (r : Fin 5),
      UKF.x_diff m (UKF.Prediction m s 0).Xsig_pred_ (UKF.Prediction m s 0).x_ (UKF.colMinus j) r
        = -(m.sqrt 3 * L (Fin.castLE (by omega) r) j) := by
    intro j r
    have e : (UKF.Prediction m s 0).Xsig_pred_ r (UKF.colMinus j) - (UKF.Prediction m s 0).x_ r
        = -(m.sqrt 3 * L (Fin.castLE (by omega) r) j) := by
      rw [hX, hx, hsig, UKF.Xsig_aug_colMinus, hxa]
      ring
    simp only [UKF.x_diff, e]
    split
    · next h =>
      subst h
      have := abs_le.mp (hw j)
      exact normalizeAngle_eq_self _ _ (neg_le_neg this.2) (neg_le.mp this.1)
    · rfl
  have hwt : (UKF.Prediction m s 0).weights_ = (UKF.new 0 0 : UKF F).weights_ :=
    (UKF.Prediction_hasCtorConstants m s 0 hs).1
  have hws : s.weights_ = (UKF.new 0 0 : UKF F).weights_ := hs.1
  ext a b
  rw [UKF.Prediction_P_eq]
  simp only [UKF.predictedCov, Matrix.of_apply]
  rw [UKF.sum_sigma_columns]
  simp only [d0, dp, dm, hws, UKF.new_weights_zero, UKF.new_weights_colPlus,
    UKF.new_weights_colMinus]
  rw [← Finset.sum_add_distrib]
  have hterm : ∀ j : Fin 7,
      m.sqrt 3 * L (Fin.castLE (by omega) a) j * (m.sqrt 3 * L (Fin.castLE (by omega) b) j) * (1 / 6)
        + -(m.sqrt 3 * L (Fin.castLE (by omega) a) j)
          * -(m.sqrt 3 * L (Fin.castLE (by omega) b) j) * (1 / 6)
      = L (Fin.castLE (by omega) a) j * L.transpose j (Fin.castLE (by omega) b) := by
    intro j
    rw [Matrix.transpose_apply]
    have : m.sqrt 3 * L (Fin.castLE (by omega) a) j * (m.sqrt 3 * L (Fin.castLE (by omega) b) j)
        = (m.sqrt 3 * m.sqrt 3) * (L (Fin.castLE (by omega) a) j * L (Fin.castLE (by omega) b) j) := by
      ring
    rw [neg_mul_neg, this, hq]
    ring
  simp only [hterm]
  rw [mul_zero, zero_mul, zero_add, ← Matrix.mul_apply, hL, UKF.P_aug_block]

/-- C16: for every state with the constructor's weights and spreading parameter, if the
factor `L` returned by `llt` for the augmented covariance satisfies `L * Lᵀ = P_aug` and
`sqrt(3) * |L(3, i)| ≤ π` for every column `i` (with `sqrt(3) ≥ 0`, `sqrt(3)² = 3`), then
the covariance `P_` left by `Prediction` with `delta_t = 0` equals the covariance on
entry. -/
theorem UKF.Prediction_zero_covariance {F : Type} [LinearOrderedField F] [FloorRing F]
    (m : Numerics F) (s : UKF F) (hs : s.HasCtorConstants)
    (hq0 : 0 ≤ m.sqrt 3) (hq : m.sqrt 3 * m.sqrt 3 = 3)
    (hL : m.llt (UKF.P_aug s.P_ s.std_a_ s.std_yawdd_)
        * (m.llt (UKF.P_aug s.P_ s.std_a_ s.std_yawdd_)).transpose
      = UKF.P_aug s.P_ s.std_a_ s.std_yawdd_)
    (hw : ∀ i : Fin 7,
      m.sqrt 3 * |m.llt (UKF.P_aug s.P_ s.std_a_ s.std_yawdd_) 3 i| ≤ m.M_PI) :
    (UKF.Prediction m s 0).P_ = s.P_ := by
  apply UKF.Prediction_zero_P m s hs hq hL
  intro i
  rw [abs_mul, abs_of_nonneg hq0]
  exact hw i

/-- C16 at a concrete input: the constructed filter over the reals (identity
covariance, factor `L` the identity, `sqrt(3) ≤ π`). -/
theorem UKF.Prediction_zero_covariance_witness :
    (UKF.Prediction
      ⟨Real.sqrt, Real.sin, Real.cos, fun y x => Complex.arg ⟨x, y⟩, Real.pi, id, fun _ => 1⟩
      (UKF.new 0 0 : UKF ℝ) 0).P_ = (UKF.new 0 0 : UKF ℝ).P_ := by
  have h3 : Real.sqrt 3 ≤ Real.pi := by
    have h1 : Real.sqrt 3 ≤ 3 := by
      rw [Real.sqrt_le_left (by norm_num)]
      norm_num
    linarith [Real.pi_gt_three]
  apply UKF.Prediction_zero_covariance _ _ (UKF.new_hasCtorConstants 0 0) (Real.sqrt_nonneg 3)
    (Real.mul_self_sqrt (by norm_num))
  · have e : UKF.P_aug (UKF.new 0 0 : UKF ℝ).P_ (UKF.new 0 0 : UKF ℝ).std_a_
        (UKF.new 0 0 : UKF ℝ).std_yawdd_ = 1 := by
      rw [UKF.new_P]
      exact UKF.P_aug_one
    simp [e]
  · intro i
    show Real.sqrt 3 * |(1 : Matrix (Fin 7) (Fin 7) ℝ) 3 i| ≤ Real.pi
    by_cases h : (3 : Fin 7) = i
    · rw [← h, Matrix.one_apply_eq, abs_one, mul_one]
      exact h3
    · rw [Matrix.one_apply_ne h, abs_zero, mul_zero]
      exact Real.pi_pos.le

/-- The lidar quantities at a state left by `Prediction`: the predicted measurement is
the position part of `x_`, and `S` is the position block of `P_` plus `R_LIDAR_`. -/
theorem UKF.lidar_after_Prediction {F : Type} [LinearOrderedField F] [FloorRing F]
    (m : Numerics F) (s : UKF F) (dt : F) :
    UKF.z_pred (UKF.Prediction m s dt).weights_
        (UKF.lidarZsig (UKF.Prediction m s dt).Xsig_pred_)
      = ![(UKF.Prediction m s dt).x_ 0, (UKF.Prediction m s dt).x_ 1] ∧
    UKF.lidarS (UKF.Prediction m s dt)
      = (Matrix.of fun a b : Fin 2 =>
          (UKF.Prediction m s dt).P_ (Fin.castLE (by omega) a) (Fin.castLE (by omega) b))
        + (UKF.Prediction m s dt).R_LIDAR_ := by
  have hz : UKF.z_pred (UKF.Prediction m s dt).weights_
      (UKF.lidarZsig (UKF.Prediction m s dt).Xsig_pred_)
      = ![(UKF.Prediction m s dt).x_ 0, (UKF.Prediction m s dt).x_ 1] := by
    rw [UKF.Prediction_eq]
    funext r
    fin_cases r
    · simp only [UKF.z_pred, UKF.lidarZsig, UKF.predictedMean, Matrix.of_apply]
      exact Finset.sum_congr rfl (fun i _ => mul_comm _ _)
    · simp only [UKF.z_pred, UKF.lidarZsig, UKF.predictedMean, Matrix.of_apply]
      exact Finset.sum_congr rfl (fun i _ => mul_comm _ _)
  refine ⟨hz, ?_⟩
  have hwt : (UKF.Prediction m s dt).weights_ = s.weights_ := by
    rw [UKF.Prediction_eq]
  have hd0 : ∀ i, UKF.x_diff m (UKF.Prediction m s dt).Xsig_pred_ (UKF.Prediction m s dt).x_ i 0
      = (UKF.Prediction m s dt).Xsig_pred_ 0 i - (UKF.Prediction m s dt).x_ 0 := by
    intro i
    simp [UKF.x_diff]
  have hd1 : ∀ i, UKF.x_diff m (UKF.Prediction m s dt).Xsig_pred_ (UKF.Prediction m s dt).x_ i 1
      = (UKF.Prediction m s dt).Xsig_pred_ 1 i - (UKF.Prediction m s dt).x_ 1 := by
    intro i
    simp [UKF.x_diff]
  simp only [UKF.lidarS, hz]
  congr 1
  rw [UKF.Prediction_P_eq, hwt]
  ext a b
  simp only [UKF.predictedCov, UKF.lidarZsig, Matrix.of_apply]
  refine Finset.sum_congr rfl (fun i _ => ?_)
  fin_cases a <;> fin_cases b
  · show _ = UKF.x_diff m _ _ i 0 * UKF.x_diff m _ _ i 0 * s.weights_ i
    rw [hd0]
    simp
    ring
  · show _ = UKF.x_diff m _ _ i 0 * UKF.x_diff m _ _ i 1 * s.weights_ i
    rw [hd0, hd1]
    simp
    ring
  · show _ = UKF.x_diff m _ _ i 1 * UKF.x_diff m _ _ i 0 * s.weights_ i
    rw [hd0, hd1]
    simp
    ring
  · show _ = UKF.x_diff m _ _ i 1 * UKF.x_diff m _ _ i 1 * s.weights_ i
    rw [hd1]
    simp
    ring

/-- C18: at every state left by `Prediction` (any prior state, any `delta_t`, any numeric
routines, so whatever the yaw normalisation did), the predicted measurement `z_pred` of
`UpdateLidar` is `(x_(0), x_(1))` and its innovation covariance `S` is the top-left
2×2 block of `P_` plus `R_LIDAR_`. -/
theorem UKF.lidar_projection_is_linear {F : Type} [LinearOrderedField F] [FloorRing F]
    (m : Numerics F) (s : UKF F) (delta_t : F) :
    UKF.z_pred (UKF.Prediction m s delta_t).weights_
        (UKF.lidarZsig (UKF.Prediction m s delta_t).Xsig_pred_)
      = ![(UKF.Prediction m s delta_t).x_ 0, (UKF.Prediction m s delta_t).x_ 1] ∧
    UKF.lidarS (UKF.Prediction m s delta_t)
      = !![(UKF.Prediction m s delta_t).P_ 0 0, (UKF.Prediction m s delta_t).P_ 0 1;
           (UKF.Prediction m s delta_t).P_ 1 0, (UKF.Prediction m s delta_t).P_ 1 1]
        + (UKF.Prediction m s delta_t).R_LIDAR_ := by
  obtain ⟨hz, hS⟩ := UKF.lidar_after_Prediction m s delta_t
  refine ⟨hz, ?_⟩
  rw [hS]
  congr 1
  ext a b
  fin_cases a <;> fin_cases b <;> rfl

/-- A positive-definite matrix has a non-zero determinant. -/
theorem IsPD.det_ne_zero {F : Type} [LinearOrderedField F] {n : Nat}
    (S : Matrix (Fin n) (Fin n) F) (h : IsPD S) : S.det ≠ 0 := by
  intro hdet
  obtain ⟨v, hv, hSv⟩ := Matrix.exists_mulVec_eq_zero_iff.mpr hdet
  have := h v hv
  rw [hSv, Matrix.dotProduct_zero] at this
  exact lt_irrefl _ this

/-- The quadratic form of the inverse of a positive-definite matrix is non-negative:
`zᵀ S⁻¹ z = uᵀ S u` for `u = S⁻¹ z`. -/
theorem IsPD.inverse_form_nonneg {F : Type} [LinearOrderedField F] {n : Nat}
    (S : Matrix (Fin n) (Fin n) F) (h : IsPD S) (z : Fin n → F) :
    0 ≤ Matrix.dotProduct (Matrix.vecMul z (S.det⁻¹ • S.adjugate)) z := by
  have hdet := IsPD.det_ne_zero S h
  have hmul : S * (S.det⁻¹ • S.adjugate) = 1 := by
    rw [Matrix.mul_smul, Matrix.mul_adjugate, smul_smul, inv_mul_cancel₀ hdet, one_smul]
  have hz : S.mulVec ((S.det⁻¹ • S.adjugate).mulVec z) = z := by
    rw [Matrix.mulVec_mulVec, hmul, Matrix.one_mulVec]
  rw [← Matrix.dotProduct_mulVec]
  by_cases hu : (S.det⁻¹ • S.adjugate).mulVec z = 0
  · rw [hu, Matrix.dotProduct_zero]
  · have := h _ hu
    rw [hz, Matrix.dotProduct_comm] at this
    exact this.le

/-- The sum of a positive semi-definite 2×2 block and `diag(r, r)` with `r > 0` is
positive definite. -/
theorem isPD_block_add_diag {F : Type} [LinearOrderedField F]
    (P : Matrix (Fin 5) (Fin 5) F) (hP : IsPSD P) (r : F) (hr : 0 < r) :
    IsPD (!![P 0 0, P 0 1; P 1 0, P 1 1] + !![r, 0; 0, r]) := by
  intro v hv
  have h1 := hP ![v 0, v 1, 0, 0, 0]
  simp [Matrix.dotProduct, Matrix.mulVec, Fin.sum_univ_succ] at h1
  have hv2 : 0 < v 0 * v 0 + v 1 * v 1 := by
    by_contra hcon
    apply hv
    have e0 : v 0 = 0 := by nlinarith [mul_self_nonneg (v 0), mul_self_nonneg (v 1)]
    have e1 : v 1 = 0 := by nlinarith [mul_self_nonneg (v 0), mul_self_nonneg (v 1)]
    funext i
    fin_cases i
    · exact e0
    · exact e1
  simp [Matrix.dotProduct, Matrix.mulVec, Fin.sum_univ_succ]
  nlinarith [mul_pos hr hv2]

/-- C17: at a state left by `Prediction` from a state with the constructor's
`R_LIDAR_ = diag(0.15², 0.15²)`, if the covariance `P_` left by `Prediction` is positive
semi-definite then the matrix `S` of `UpdateLidar` is positive definite, its
determinant is not zero, `UpdateLidar` returns a state, and the `NIS_LIDAR_` of that
state is non-negative. -/
theorem UKF.lidarS_positive_definite {F : Type} [LinearOrderedField F] [FloorRing F]
    (m : Numerics F) (s : UKF F) (delta_t : F) (meas_package : MeasurementPackage F)
    (hR : s.R_LIDAR_ = (UKF.new 0 0 : UKF F).R_LIDAR_)
    (hP : IsPSD (UKF.Prediction m s delta_t).P_) :
    IsPD (UKF.lidarS (UKF.Prediction m s delta_t)) ∧
    (UKF.lidarS (UKF.Prediction m s delta_t)).det ≠ 0 ∧
    ∃ s2 : UKF F, UKF.UpdateLidar (UKF.Prediction m s delta_t) meas_package = some s2 ∧
      0 ≤ s2.NIS_LIDAR_ := by
  have hR2 : (UKF.Prediction m s delta_t).R_LIDAR_ = !![9 / 400, 0; 0, 9 / 400] := by
    have e : (UKF.Prediction m s delta_t).R_LIDAR_ = s.R_LIDAR_ := by
      rw [UKF.Prediction_eq]
    rw [e, hR]
    ext i j
    fin_cases i <;> fin_cases j <;> simp [UKF.new] <;> norm_num
  have hS : UKF.lidarS (UKF.Prediction m s delta_t)
      = !![(UKF.Prediction m s delta_t).P_ 0 0, (UKF.Prediction m s delta_t).P_ 0 1;
           (UKF.Prediction m s delta_t).P_ 1 0, (UKF.Prediction m s delta_t).P_ 1 1]
        + !![9 / 400, 0; 0, 9 / 400] := by
    rw [(UKF.lidar_after_Prediction m s delta_t).2, hR2]
    congr 1
    ext a b
    fin_cases a <;> fin_cases b <;> rfl
  have hpd : IsPD (UKF.lidarS (UKF.Prediction m s delta_t)) := by
    rw [hS]
    exact isPD_block_add_diag _ hP _ (by norm_num)
  have hdet := IsPD.det_ne_zero _ hpd
  refine ⟨hpd, hdet, _, UKF.UpdateLidar_eq_some _ meas_package hdet, ?_⟩
  exact IsPD.inverse_form_nonneg _ hpd _

/-- C17 at a concrete input: the state left by `Prediction` with `delta_t = 0` from the
constructed filter over the reals, whose covariance is the identity. -/
theorem UKF.lidarS_positive_definite_witness :
    IsPSD (UKF.Prediction
      ⟨Real.sqrt, Real.sin, Real.cos, fun y x => Complex.arg ⟨x, y⟩, Real.pi, id, fun _ => 1⟩
      (UKF.new 0 0 : UKF ℝ) 0).P_ ∧
    IsPD (UKF.lidarS (UKF.Prediction
      ⟨Real.sqrt, Real.sin, Real.cos, fun y x => Complex.arg ⟨x, y⟩, Real.pi, id, fun _ => 1⟩
      (UKF.new 0 0 : UKF ℝ) 0)) ∧
    ∃ s2 : UKF ℝ, UKF.UpdateLidar (UKF.Prediction
      ⟨Real.sqrt, Real.sin, Real.cos, fun y x => Complex.arg ⟨x, y⟩, Real.pi, id, fun _ => 1⟩
      (UKF.new 0 0 : UKF ℝ) 0) ⟨0, SensorType.LASER, ![1, 1, 0]⟩ = some s2 ∧
      0 ≤ s2.NIS_LIDAR_ := by
  have hP : (UKF.Prediction
      ⟨Real.sqrt, Real.sin, Real.cos, fun y x => Complex.arg ⟨x, y⟩, Real.pi, id, fun _ => 1⟩
      (UKF.new 0 0 : UKF ℝ) 0).P_ = 1 := by
    have h3 : Real.sqrt 3 ≤ Real.pi := by
      have h1 : Real.sqrt 3 ≤ 3 := by
        rw [Real.sqrt_le_left (by norm_num)]
        norm_num
      linarith [Real.pi_gt_three]
    have e : UKF.P_aug (UKF.new 0 0 : UKF ℝ).P_ (UKF.new 0 0 : UKF ℝ).std_a_
        (UKF.new 0 0 : UKF ℝ).std_yawdd_ = 1 := by
      rw [UKF.new_P]
      exact UKF.P_aug_one
    rw [UKF.Prediction_zero_P _ _ (UKF.new_hasCtorConstants 0 0)
      (Real.mul_self_sqrt (by norm_num)) (by simp [e]), UKF.new_P]
    intro i
    show |Real.sqrt 3 * (1 : Matrix (Fin 7) (Fin 7) ℝ) 3 i| ≤ Real.pi
    by_cases h : (3 : Fin 7) = i
    · rw [← h, Matrix.one_apply_eq, mul_one, abs_of_nonneg (Real.sqrt_nonneg 3)]
      exact h3
    · rw [Matrix.one_apply_ne h, mul_zero, abs_zero]
      exact Real.pi_pos.le
  have hpsd : IsPSD (UKF.Prediction
      ⟨Real.sqrt, Real.sin, Real.cos, fun y x => Complex.arg ⟨x, y⟩, Real.pi, id, fun _ => 1⟩
      (UKF.new 0 0 : UKF ℝ) 0).P_ := by
    rw [hP]
    intro v
    rw [Matrix.one_mulVec]
    exact Finset.sum_nonneg (fun i _ => mul_self_nonneg (v i))
  obtain ⟨h1, -, h2⟩ := UKF.lidarS_positive_definite
    ⟨Real.sqrt, Real.sin, Real.cos, fun y x => Complex.arg ⟨x, y⟩, Real.pi, id, fun _ => 1⟩
    (UKF.new 0 0 : UKF ℝ) 0 ⟨0, SensorType.LASER, ![1, 1, 0]⟩ rfl hpsd
  exact ⟨hpsd, h1, h2⟩

/-- The radar projection of the point `(rho cos phi, rho sin phi)` with zero speed, for
`rho > 0` and `phi` in `(-π, π]`, with the exact real functions. -/
theorem UKF.radarPoint_polar (m : Numerics ℝ) (hm : m.Exact) (rho phi yaw yawd : ℝ)
    (hrho : 0 < rho) (h1 : -Real.pi < phi) (h2 : phi ≤ Real.pi) :
    UKF.radarPoint m ![rho * Real.cos phi, rho * Real.sin phi, 0, yaw, yawd]
      = some ![rho, phi, 0] := by
  obtain ⟨hsqrt, hsin, hcos, hatan, -⟩ := hm
  have hr : Real.sqrt (rho * Real.cos phi * (rho * Real.cos phi)
      + rho * Real.sin phi * (rho * Real.sin phi)) = rho := by
    have e : rho * Real.cos phi * (rho * Real.cos phi)
        + rho * Real.sin phi * (rho * Real.sin phi) = rho ^ 2 := by
      nlinarith [Real.sin_sq_add_cos_sq phi]
    rw [e, Real.sqrt_sq hrho.le]
  have ha : Complex.arg ⟨rho * Real.cos phi, rho * Real.sin phi⟩ = phi := by
    have e : (⟨rho * Real.cos phi, rho * Real.sin phi⟩ : ℂ)
        = (rho : ℂ) * (Complex.cos phi + Complex.sin phi * Complex.I) := by
      apply Complex.ext
      · simp [← Complex.ofReal_cos, ← Complex.ofReal_sin]
      · simp [← Complex.ofReal_cos, ← Complex.ofReal_sin]
    rw [e]
    exact Complex.arg_mul_cos_add_sin_mul_I hrho ⟨h1, h2⟩
  have hne : rho ≠ 0 := ne_of_gt hrho
  simp [UKF.radarPoint, checkedDiv, hsqrt, hatan, hr, ha, hne]

/-- An entry of `L * Lᵀ` for a lower-triangular `L`: the columns after `j` do not
contribute. -/
theorem IsCholeskyFactor.mul_transpose_apply {F : Type} [LinearOrderedField F] {n : Nat}
    (L : Matrix (Fin n) (Fin n) F) (hup : ∀ i j, i < j → L i j = 0) (i j : Fin n) :
    (L * L.transpose) i j
      = (∑ k : Fin n, if k < j then L i k * L j k else 0) + L i j * L j j := by
  rw [Matrix.mul_apply]
  have h : ∀ k : Fin n, L i k * L.transpose k j
      = (if k < j then L i k * L j k else 0) + (if k = j then L i j * L j j else 0) := by
    intro k
    rw [Matrix.transpose_apply]
    rcases lt_trichotomy k j with hlt | heq | hgt
    · rw [if_pos hlt, if_neg (ne_of_lt hlt), add_zero]
    · subst heq
      rw [if_neg (lt_irrefl _), if_pos rfl, zero_add]
    · rw [if_neg (not_lt_of_gt hgt), if_neg (ne_of_gt hgt), hup j k hgt, mul_zero, add_zero]
  simp only [h, Finset.sum_add_distrib, Finset.sum_ite_eq', Finset.mem_univ, if_true]

/-- A matrix has at most one Cholesky factor. -/
theorem IsCholeskyFactor.unique {F : Type} [LinearOrderedField F] {n : Nat}
    (L L2 A : Matrix (Fin n) (Fin n) F) (h : IsCholeskyFactor L A)
    (h2 : IsCholeskyFactor L2 A) : L = L2 := by
  obtain ⟨hup, hpos, hmul⟩ := h
  obtain ⟨hup2, hpos2, hmul2⟩ := h2
  have key : ∀ (k : Nat) (j : Fin n), j.val = k → ∀ i : Fin n, L i j = L2 i j := by
    intro k
    induction k using Nat.strong_induction_on with
    | _ k ih =>
      intro j hj i
      have hprev : ∀ c : Fin n, c < j → ∀ i : Fin n, L i c = L2 i c :=
        fun c hc i => ih c.val (by rw [← hj]; exact hc) c rfl i
      have hsum : ∀ i : Fin n, (∑ c : Fin n, if c < j then L i c * L j c else 0)
          = ∑ c : Fin n, if c < j then L2 i c * L2 j c else 0 := by
        intro i
        refine Finset.sum_congr rfl (fun c _ => ?_)
        by_cases hc : c < j
        · rw [if_pos hc, if_pos hc, hprev c hc i, hprev c hc j]
        · rw [if_neg hc, if_neg hc]
      have hrow : ∀ i : Fin n, L i j * L j j = L2 i j * L2 j j := by
        intro i
        have e1 := IsCholeskyFactor.mul_transpose_apply L hup i j
        have e2 := IsCholeskyFactor.mul_transpose_apply L2 hup2 i j
        rw [hmul] at e1
        rw [hmul2, ← hsum i] at e2
        have := e1.symm.trans e2
        exact add_left_cancel this
      have hjj : L j j = L2 j j := by
        have h1 := hrow j
        have hp := hpos j
        have hp2 := hpos2 j
        nlinarith
      have h1 := hrow i
      rw [hjj] at h1
      exact mul_right_cancel₀ (ne_of_gt (hpos2 j)) h1
  ext i j
  exact key j.val j rfl i

/-- An angle in `(pi, 3 pi]` is brought down by one turn. -/
theorem normalizeAngle_sub_turn {F : Type} [LinearOrderedField F] [FloorRing F] (pi a : F)
    (hpi : 0 < pi) (h1 : pi < a) (h2 : a ≤ 3 * pi) : normalizeAngle pi a = a - 2 * pi := by
  have h := normalizeLoops_angleFuel pi hpi a (angleFuel pi a + 1) (Nat.le_succ _)
  have ha : ¬ (a - 2 * pi > pi) := not_lt.mpr (by linarith)
  have hb : ¬ (a - 2 * pi < -pi) := not_lt.mpr (by linarith)
  have e1 : whileAbovePi pi (angleFuel pi a + 1) a = some (a - 2 * pi) := by
    rw [whileAbovePi, if_pos h1]
    cases angleFuel pi a <;> simp [whileAbovePi, ha]
  have e2 : whileBelowNegPi pi (angleFuel pi a + 1) (a - 2 * pi) = some (a - 2 * pi) := by
    rw [whileBelowNegPi, if_neg hb]
  rw [normalizeLoops, e1, Option.some_bind, e2] at h
  exact (Option.some.inj h).symm

/-- An angle in `[-3 pi, -pi)` is brought up by one turn. -/
theorem normalizeAngle_add_turn {F : Type} [LinearOrderedField F] [FloorRing F] (pi a : F)
    (hpi : 0 < pi) (h1 : a < -pi) (h2 : -(3 * pi) ≤ a) : normalizeAngle pi a = a + 2 * pi := by
  have h := normalizeLoops_angleFuel pi hpi a (angleFuel pi a + 1) (Nat.le_succ _)
  have ha : ¬ (a > pi) := not_lt.mpr (by linarith)
  have hb : ¬ (a + 2 * pi < -pi) := not_lt.mpr (by linarith)
  have e1 : whileAbovePi pi (angleFuel pi a + 1) a = some a := by
    rw [whileAbovePi, if_neg ha]
  have e2 : whileBelowNegPi pi (angleFuel pi a + 1) a = some (a + 2 * pi) := by
    rw [whileBelowNegPi, if_pos h1]
    cases angleFuel pi a <;> simp [whileBelowNegPi, hb]
  rw [normalizeLoops, e1, Option.some_bind, e2] at h
  exact (Option.some.inj h).symm

/-- Entry 5 of a vector literal of length 7. -/
theorem vecCons_five_of_seven {α : Type} (x : α) (u : Fin 6 → α) :
    Matrix.vecCons x u (5 : Fin 7) = u 4 := rfl

/-- Entry 6 of a vector literal of length 7. -/
theorem vecCons_six_of_seven {α : Type} (x : α) (u : Fin 6 → α) :
    Matrix.vecCons x u (6 : Fin 7) = u 5 := rfl

/-- Entry 5 of a vector literal of length 6. -/
theorem vecCons_five_of_six {α : Type} (x : α) (u : Fin 5 → α) :
    Matrix.vecCons x u (5 : Fin 6) = u 4 := rfl

/-- The recombined covariance of sigma points `x`, `x ± q C(:, j)` around their mean `x`,
with the constructor's weights, `q² = 3` and no yaw difference outside `[-M_PI, M_PI]`:
it is `C * Cᵀ`. -/
theorem UKF.predictedCov_of_columns {F : Type} [LinearOrderedField F] [FloorRing F]
    (m : Numerics F) (w : Fin 15 → F) (hw : w = (UKF.new 0 0 : UKF F).weights_)
    (X : Matrix (Fin 5) (Fin 15) F) (x : Fin 5 → F) (q : F) (C : Matrix (Fin 5) (Fin 7) F)
    (h0 : ∀ r, X r 0 = x r)
    (hp : ∀ r j, X r (UKF.colPlus j) = x r + q * C r j)
    (hn : ∀ r j, X r (UKF.colMinus j) = x r + -q * C r j)
    (hq : q * q = 3) (hb : ∀ j : Fin 7, |q * C 3 j| ≤ m.M_PI) :
    UKF.predictedCov m w X x = C * C.transpose := by
  have hpi : 0 ≤ m.M_PI := le_trans (abs_nonneg _) (hb 0)
  have d0 : ∀ r, UKF.x_diff m X x 0 r = 0 := by
    intro r
    have e : X r 0 - x r = 0 := by rw [h0, sub_self]
    simp only [UKF.x_diff, e]
    split
    · exact normalizeAngle_eq_self _ _ (by linarith) hpi
    · rfl
  have dp : ∀ (j : Fin 7) (r : Fin 5), UKF.x_diff m X x (UKF.colPlus j) r = q * C r j := by
    intro j r
    have e : X r (UKF.colPlus j) - x r = q * C r j := by
      rw [hp]
      ring
    simp only [UKF.x_diff, e]
    split
    · next h =>
      subst h
      have := abs_le.mp (hb j)
      exact normalizeAngle_eq_self _ _ this.1 this.2
    · rfl
  have dm : ∀ (j : Fin 7) (r : Fin 5), UKF.x_diff m X x (UKF.colMinus j) r = -(q * C r j) := by
    intro j r
    have e : X r (UKF.colMinus j) - x r = -(q * C r j) := by
      rw [hn]
      ring
    simp only [UKF.x_diff, e]
    split
    · next h =>
      subst h
      have := abs_le.mp (hb j)
      exact normalizeAngle_eq_self _ _ (neg_le_neg this.2) (neg_le.mp this.1)
    · rfl
  ext a b
  simp only [UKF.predictedCov, Matrix.of_apply]
  rw [UKF.sum_sigma_columns]
  simp only [d0, dp, dm, hw, UKF.new_weights_zero, UKF.new_weights_colPlus,
    UKF.new_weights_colMinus]
  rw [← Finset.sum_add_distrib, Matrix.mul_apply]
  have hterm : ∀ j : Fin 7,
      q * C a j * (q * C b j) * (1 / 6) + -(q * C a j) * -(q * C b j) * (1 / 6)
        = C a j * C.transpose j b := by
    intro j
    rw [Matrix.transpose_apply]
    linear_combination (1 / 3 * C a j * C b j) * hq
  simp only [hterm]
  rw [mul_zero, zero_mul, zero_add]

/-- The columns of `Xsig_pred_` after the first `Prediction` from `(px, py, 0, 0, 0)`
with the identity covariance, as the mean plus or minus `sqrt(3)` times the columns of a
5×7 matrix. -/
theorem UKF.Prediction_first_columns {F : Type} [LinearOrderedField F] [FloorRing F]
    (m : Numerics F) (s : UKF F) (hs : s.HasCtorConstants) (hP : s.P_ = 1)
    (hL : IsCholeskyFactor (m.llt 1) 1) (hsin : m.sin 0 = 0) (hcos : m.cos 0 = 1)
    (px py : F) (hx : s.x_ = ![px, py, 0, 0, 0]) (dt : F) :
    (∀ r, (UKF.Prediction m s dt).Xsig_pred_ r 0 = ![px, py, 0, 0, 0] r) ∧
    ∀ (e : F) (r : Fin 5) (j : Fin 7),
      UKF.predictPoint m dt (fun k => UKF.x_aug ![px, py, 0, 0, 0] k
          + e * (1 : Matrix (Fin 7) (Fin 7) F) k j) r
        = ![px, py, 0, 0, 0] r
          + e * (!![1, 0, dt, 0, 0, 1 / 2 * dt * dt, 0;
                    0, 1, 0, 0, 0, 0, 0;
                    0, 0, 1, 0, 0, dt, 0;
                    0, 0, 0, 1, dt, 0, 1 / 2 * dt * dt;
                    0, 0, 0, 0, 1, 0, dt] : Matrix (Fin 5) (Fin 7) F) r j := by
  refine ⟨(UKF.Prediction_first_Xsig m s hs hP hL hsin hcos px py hx dt).1, ?_⟩
  intro e r j
  obtain ⟨-, p0, p1, p2, p3, p4, p5, p6⟩ := UKF.predictPoint_first m hsin hcos px py dt e
  fin_cases j
  · rw [show ((⟨0, by decide⟩ : Fin 7)) = 0 from rfl, p0]
    fin_cases r <;>
    simp only [Matrix.of_apply, Matrix.cons_val', Matrix.transpose_apply,
      Matrix.cons_val_zero, Matrix.cons_val_one, Matrix.cons_val_two, Matrix.cons_val_three,
      Matrix.cons_val_four, Matrix.head_cons, Matrix.empty_val', Matrix.cons_val_fin_one,
      Matrix.cons_val_succ, vecCons_five_of_seven, vecCons_six_of_seven, vecCons_five_of_six,
      Matrix.vecHead, Matrix.vecTail, Function.comp, Fin.succ_zero_eq_one, Fin.succ_one_eq_two,
      Fin.zero_eta, Fin.mk_one, Fin.reduceFinMk] <;> ring
  · rw [show ((⟨1, by decide⟩ : Fin 7)) = 1 from rfl, p1]
    fin_cases r <;>
    simp only [Matrix.of_apply, Matrix.cons_val', Matrix.transpose_apply,
      Matrix.cons_val_zero, Matrix.cons_val_one, Matrix.cons_val_two, Matrix.cons_val_three,
      Matrix.cons_val_four, Matrix.head_cons, Matrix.empty_val', Matrix.cons_val_fin_one,
      Matrix.cons_val_succ, vecCons_five_of_seven, vecCons_six_of_seven, vecCons_five_of_six,
      Matrix.vecHead, Matrix.vecTail, Function.comp, Fin.succ_zero_eq_one, Fin.succ_one_eq_two,
      Fin.zero_eta, Fin.mk_one, Fin.reduceFinMk] <;> ring
  · rw [show ((⟨2, by decide⟩ : Fin 7)) = 2 from rfl, p2]
    fin_cases r <;>
    simp only [Matrix.of_apply, Matrix.cons_val', Matrix.transpose_apply,
      Matrix.cons_val_zero, Matrix.cons_val_one, Matrix.cons_val_two, Matrix.cons_val_three,
      Matrix.cons_val_four, Matrix.head_cons, Matrix.empty_val', Matrix.cons_val_fin_one,
      Matrix.cons_val_succ, vecCons_five_of_seven, vecCons_six_of_seven, vecCons_five_of_six,
      Matrix.vecHead, Matrix.vecTail, Function.comp, Fin.succ_zero_eq_one, Fin.succ_one_eq_two,
      Fin.zero_eta, Fin.mk_one, Fin.reduceFinMk] <;> ring
  · rw [show ((⟨3, by decide⟩ : Fin 7)) = 3 from rfl, p3]
    fin_cases r <;>
    simp only [Matrix.of_apply, Matrix.cons_val', Matrix.transpose_apply,
      Matrix.cons_val_zero, Matrix.cons_val_one, Matrix.cons_val_two, Matrix.cons_val_three,
      Matrix.cons_val_four, Matrix.head_cons, Matrix.empty_val', Matrix.cons_val_fin_one,
      Matrix.cons_val_succ, vecCons_five_of_seven, vecCons_six_of_seven, vecCons_five_of_six,
      Matrix.vecHead, Matrix.vecTail, Function.comp, Fin.succ_zero_eq_one, Fin.succ_one_eq_two,
      Fin.zero_eta, Fin.mk_one, Fin.reduceFinMk] <;> ring
  · rw [show ((⟨4, by decide⟩ : Fin 7)) = 4 from rfl, p4]
    fin_cases r <;>
    simp only [Matrix.of_apply, Matrix.cons_val', Matrix.transpose_apply,
      Matrix.cons_val_zero, Matrix.cons_val_one, Matrix.cons_val_two, Matrix.cons_val_three,
      Matrix.cons_val_four, Matrix.head_cons, Matrix.empty_val', Matrix.cons_val_fin_one,
      Matrix.cons_val_succ, vecCons_five_of_seven, vecCons_six_of_seven, vecCons_five_of_six,
      Matrix.vecHead, Matrix.vecTail, Function.comp, Fin.succ_zero_eq_one, Fin.succ_one_eq_two,
      Fin.zero_eta, Fin.mk_one, Fin.reduceFinMk] <;> ring
  · rw [show ((⟨5, by decide⟩ : Fin 7)) = 5 from rfl, p5]
    fin_cases r <;>
    simp only [Matrix.of_apply, Matrix.cons_val', Matrix.transpose_apply,
      Matrix.cons_val_zero, Matrix.cons_val_one, Matrix.cons_val_two, Matrix.cons_val_three,
      Matrix.cons_val_four, Matrix.head_cons, Matrix.empty_val', Matrix.cons_val_fin_one,
      Matrix.cons_val_succ, vecCons_five_of_seven, vecCons_six_of_seven, vecCons_five_of_six,
      Matrix.vecHead, Matrix.vecTail, Function.comp, Fin.succ_zero_eq_one, Fin.succ_one_eq_two,
      Fin.zero_eta, Fin.mk_one, Fin.reduceFinMk] <;> ring
  · rw [show ((⟨6, by decide⟩ : Fin 7)) = 6 from rfl, p6]
    fin_cases r <;>
    simp only [Matrix.of_apply, Matrix.cons_val', Matrix.transpose_apply,
      Matrix.cons_val_zero, Matrix.cons_val_one, Matrix.cons_val_two, Matrix.cons_val_three,
      Matrix.cons_val_four, Matrix.head_cons, Matrix.empty_val', Matrix.cons_val_fin_one,
      Matrix.cons_val_succ, vecCons_five_of_seven, vecCons_six_of_seven, vecCons_five_of_six,
      Matrix.vecHead, Matrix.vecTail, Function.comp, Fin.succ_zero_eq_one, Fin.succ_one_eq_two,
      Fin.zero_eta, Fin.mk_one, Fin.reduceFinMk] <;> ring

/-- The product `C * Cᵀ` for the matrix `C` of `UKF.Prediction_first_columns`. -/
theorem UKF.first_columns_mul_transpose {F : Type} [LinearOrderedField F] (dt : F) :
    (!![1, 0, dt, 0, 0, 1 / 2 * dt * dt, 0;
        0, 1, 0, 0, 0, 0, 0;
        0, 0, 1, 0, 0, dt, 0;
        0, 0, 0, 1, dt, 0, 1 / 2 * dt * dt;
        0, 0, 0, 0, 1, 0, dt] : Matrix (Fin 5) (Fin 7) F)
      * (!![1, 0, dt, 0, 0, 1 / 2 * dt * dt, 0;
        0, 1, 0, 0, 0, 0, 0;
        0, 0, 1, 0, 0, dt, 0;
        0, 0, 0, 1, dt, 0, 1 / 2 * dt * dt;
        0, 0, 0, 0, 1, 0, dt] : Matrix (Fin 5) (Fin 7) F).transpose
      = !![1 + dt ^ 2 + dt ^ 4 / 4, 0, dt + dt ^ 3 / 2, 0, 0;
           0, 1, 0, 0, 0;
           dt + dt ^ 3 / 2, 0, 1 + dt ^ 2, 0, 0;
           0, 0, 0, 1 + dt ^ 2 + dt ^ 4 / 4, dt + dt ^ 3 / 2;
           0, 0, 0, dt + dt ^ 3 / 2, 1 + dt ^ 2] := by
  ext a b
  rw [Matrix.mul_apply, Fin.sum_univ_seven]
  fin_cases a <;> fin_cases b <;>
    simp only [Matrix.of_apply, Matrix.cons_val', Matrix.transpose_apply, Matrix.cons_val_zero,
      Matrix.cons_val_one, Matrix.cons_val_two, Matrix.cons_val_three, Matrix.cons_val_four,
      Matrix.head_cons, Matrix.empty_val', Matrix.cons_val_fin_one, Matrix.cons_val_succ,
      vecCons_five_of_seven, vecCons_six_of_seven, vecCons_five_of_six,
      Matrix.vecHead, Matrix.vecTail, Function.comp, Fin.succ_zero_eq_one, Fin.succ_one_eq_two,
      Fin.zero_eta, Fin.mk_one, Fin.reduceFinMk] <;>
    ring

/-- The covariance left by the first `Prediction` from `(px, py, 0, 0, 0)` with the
identity covariance, when no yaw difference leaves `[-M_PI, M_PI]`. -/
theorem UKF.Prediction_first_P {F : Type} [LinearOrderedField F] [FloorRing F]
    (m : Numerics F) (s : UKF F) (hs : s.HasCtorConstants) (hP : s.P_ = 1)
    (hL : IsCholeskyFactor (m.llt 1) 1) (hsin : m.sin 0 = 0) (hcos : m.cos 0 = 1)
    (hq : m.sqrt 3 * m.sqrt 3 = 3)
    (px py : F) (hx : s.x_ = ![px, py, 0, 0, 0]) (dt : F)
    (hb1 : |m.sqrt 3| ≤ m.M_PI) (hb2 : |m.sqrt 3 * dt| ≤ m.M_PI)
    (hb3 : |1 / 2 * m.sqrt 3 * dt * dt| ≤ m.M_PI) :
    (UKF.Prediction m s dt).P_
      = !![1 + dt ^ 2 + dt ^ 4 / 4, 0, dt + dt ^ 3 / 2, 0, 0;
           0, 1, 0, 0, 0;
           dt + dt ^ 3 / 2, 0, 1 + dt ^ 2, 0, 0;
           0, 0, 0, 1 + dt ^ 2 + dt ^ 4 / 4, dt + dt ^ 3 / 2;
           0, 0, 0, dt + dt ^ 3 / 2, 1 + dt ^ 2] := by
  obtain ⟨c0, hcol⟩ := UKF.Prediction_first_columns m s hs hP hL hsin hcos px py hx dt
  have hmean := UKF.Prediction_first_mean m s hs hP hL hsin hcos px py hx dt
  have hX : (UKF.Prediction m s dt).Xsig_pred_
      = UKF.propagated m dt (UKF.Xsig_aug (UKF.x_aug ![px, py, 0, 0, 0]) (m.sqrt 3) 1) := by
    rw [UKF.Prediction_eq, UKF.sigmaPoints_of_P_one m s hs hP hL, hx]
  have hpi : 0 ≤ m.M_PI := le_trans (abs_nonneg _) hb1
  rw [UKF.Prediction_P_eq, hmean]
  rw [UKF.predictedCov_of_columns m s.weights_ hs.1 _ _ (m.sqrt 3) _ c0
    (fun r j => by rw [hX, UKF.propagated_colPlus]; exact hcol _ r j)
    (fun r j => by rw [hX, UKF.propagated_colMinus]; exact hcol _ r j) hq]
  · exact UKF.first_columns_mul_transpose dt
  · intro j
    have e : m.sqrt 3 * (1 / 2 * dt * dt) = 1 / 2 * m.sqrt 3 * dt * dt := by ring
    fin_cases j
    · show |m.sqrt 3 * 0| ≤ m.M_PI
      rw [mul_zero, abs_zero]
      exact hpi
    · show |m.sqrt 3 * 0| ≤ m.M_PI
      rw [mul_zero, abs_zero]
      exact hpi
    · show |m.sqrt 3 * 0| ≤ m.M_PI
      rw [mul_zero, abs_zero]
      exact hpi
    · show |m.sqrt 3 * 1| ≤ m.M_PI
      rw [mul_one]
      exact hb1
    · exact hb2
    · show |m.sqrt 3 * 0| ≤ m.M_PI
      rw [mul_zero, abs_zero]
      exact hpi
    · show |m.sqrt 3 * (1 / 2 * dt * dt)| ≤ m.M_PI
      rw [e]
      exact hb3

/-- `sqrt 3` lies between `1.732` and `1.7321`. -/
theorem sqrt_three_bounds : 1732 / 1000 < Real.sqrt 3 ∧ Real.sqrt 3 < 17321 / 10000 := by
  constructor
  · rw [Real.lt_sqrt (by norm_num)]
    norm_num
  · rw [Real.sqrt_lt' (by norm_num)]
    norm_num

set_option maxHeartbeats 4000000 in
/-- The run LASER `(1, 0)` at `t = 0`, LASER `(2, 0)` at `t = 1000000` on a constructed
filter, in exact real arithmetic: the state after the second package. -/
theorem UKF.two_laser_state (m : Numerics ℝ) (hm : m.Exact)
    (hL : IsCholeskyFactor (m.llt 1) 1) (X0 : Matrix (Fin 5) (Fin 15) ℝ) (t0 : Int)
    (u1 u2 : ℝ) :
    ∃ s1 s2 : UKF ℝ,
      UKF.ProcessMeasurement m (UKF.new X0 t0) ⟨0, SensorType.LASER, ![1, 0, u1]⟩ = some s1 ∧
      UKF.ProcessMeasurement m s1 ⟨1000000, SensorType.LASER, ![2, 0, u2]⟩ = some s2 ∧
      s2.HasCtorConstants ∧ s2.is_initialized_ = true ∧ s2.use_laser_ = true ∧
      s2.time_us_ = 1000000 ∧
      s2.x_ = ![201 / 101, 0, 200 / 303, 0, 0] ∧
      s2.P_ = !![9 / 404, 0, 3 / 202, 0, 0;
                 0, 9 / 409, 0, 0, 0;
                 3 / 202, 0, 102 / 101, 0, 0;
                 0, 0, 0, 9 / 4, 3 / 2;
                 0, 0, 0, 3 / 2, 2] := by
  obtain ⟨hsqrt, hsin, hcos, -, hpi⟩ := hm
  have hsin0 : m.sin 0 = 0 := by rw [hsin, Real.sin_zero]
  have hcos0 : m.cos 0 = 1 := by rw [hcos, Real.cos_zero]
  have hq : m.sqrt 3 * m.sqrt 3 = 3 := by
    rw [hsqrt]
    exact Real.mul_self_sqrt (by norm_num)
  obtain ⟨hqlo, hqhi⟩ := sqrt_three_bounds
  have hb1 : |m.sqrt 3| ≤ m.M_PI := by
    rw [hsqrt, hpi, abs_of_nonneg (Real.sqrt_nonneg 3)]
    linarith [Real.pi_gt_three]
  have hb2 : |m.sqrt 3 * 1| ≤ m.M_PI := by rwa [mul_one]
  have hb3 : |1 / 2 * m.sqrt 3 * 1 * 1| ≤ m.M_PI := by
    rw [hsqrt, hpi, mul_one, mul_one, abs_of_nonneg (by positivity)]
    linarith [Real.pi_gt_three]
  have hc1 : (UKF.seed m (UKF.new X0 t0) ⟨0, SensorType.LASER, ![1, 0, u1]⟩).HasCtorConstants :=
    UKF.seed_hasCtorConstants m _ _ (UKF.new_hasCtorConstants X0 t0)
  have hx1 : (UKF.seed m (UKF.new X0 t0) ⟨0, SensorType.LASER, ![1, 0, u1]⟩).x_
      = ![1, 0, 0, 0, 0] := by
    simp [UKF.seed]
  have hP1 : (UKF.seed m (UKF.new X0 t0) ⟨0, SensorType.LASER, ![1, 0, u1]⟩).P_ = 1 := by
    simpa [UKF.seed] using UKF.new_P X0 t0
  have hpm1 : UKF.ProcessMeasurement m (UKF.new X0 t0) ⟨0, SensorType.LASER, ![1, 0, u1]⟩
      = some (UKF.seed m (UKF.new X0 t0) ⟨0, SensorType.LASER, ![1, 0, u1]⟩) := rfl
  have hi1 : (UKF.seed m (UKF.new X0 t0) ⟨0, SensorType.LASER, ![1, 0, u1]⟩).is_initialized_
      = true := rfl
  have ht1 : (UKF.seed m (UKF.new X0 t0) ⟨0, SensorType.LASER, ![1, 0, u1]⟩).time_us_ = 0 := rfl
  have hu1 : (UKF.seed m (UKF.new X0 t0) ⟨0, SensorType.LASER, ![1, 0, u1]⟩).use_laser_
      = true := rfl
  generalize UKF.seed m (UKF.new X0 t0) ⟨0, SensorType.LASER, ![1, 0, u1]⟩ = s1 at *
  have hc2 : ({ s1 with time_us_ := 1000000 } : UKF ℝ).HasCtorConstants := hc1
  obtain ⟨hz, hS, hT⟩ := UKF.Prediction_first_lidar m { s1 with time_us_ := 1000000 } hc2 hP1 hL
    hsin0 hcos0 hq 1 0 hx1 1
  have hmean := UKF.Prediction_first_mean m { s1 with time_us_ := 1000000 } hc2 hP1 hL
    hsin0 hcos0 1 0 hx1 1
  have hPp := UKF.Prediction_first_P m { s1 with time_us_ := 1000000 } hc2 hP1 hL
    hsin0 hcos0 hq 1 0 hx1 1 hb1 hb2 hb3
  have hc3 := UKF.Prediction_hasCtorConstants m { s1 with time_us_ := 1000000 } 1 hc2
  have hdt : (((1000000 : Int) - s1.time_us_ : Int) : ℝ) / 1000000 = 1 := by
    rw [ht1]
    norm_num
  have hu : (UKF.Prediction m { s1 with time_us_ := 1000000 } 1).use_laser_ = true := by
    rw [UKF.Prediction_eq]
    exact hu1
  have hi : (UKF.Prediction m { s1 with time_us_ := 1000000 } 1).is_initialized_ = true := by
    rw [UKF.Prediction_eq]
    exact hi1
  have htm : (UKF.Prediction m { s1 with time_us_ := 1000000 } 1).time_us_ = 1000000 := by
    rw [UKF.Prediction_eq]
  have hpm2 : UKF.ProcessMeasurement m s1 ⟨1000000, SensorType.LASER, ![2, 0, u2]⟩
      = UKF.UpdateLidar (UKF.Prediction m { s1 with time_us_ := 1000000 } 1)
          ⟨1000000, SensorType.LASER, ![2, 0, u2]⟩ := by
    simp only [UKF.ProcessMeasurement, hi1, Bool.not_true, Bool.false_eq_true, if_false, hdt]
    exact UKF.updateBySensor_laser m _ _ rfl hu
  have hS2 : UKF.lidarS (UKF.Prediction m { s1 with time_us_ := 1000000 } 1)
      = !![909 / 400, 0; 0, 409 / 400] := by
    rw [hS]
    norm_num
  have hT2 : UKF.lidarT (UKF.Prediction m { s1 with time_us_ := 1000000 } 1)
      = !![9 / 4, 0; 0, 1; 3 / 2, 0; 0, 0; 0, 0] := by
    rw [hT]
    norm_num
  have hP2 : (UKF.Prediction m { s1 with time_us_ := 1000000 } 1).P_
      = !![9 / 4, 0, 3 / 2, 0, 0;
           0, 1, 0, 0, 0;
           3 / 2, 0, 2, 0, 0;
           0, 0, 0, 9 / 4, 3 / 2;
           0, 0, 0, 3 / 2, 2] := by
    rw [hPp]
    norm_num
  have hdet : (UKF.lidarS (UKF.Prediction m { s1 with time_us_ := 1000000 } 1)).det ≠ 0 := by
    rw [hS2, Matrix.det_fin_two_of]
    norm_num
  clear hS hT hPp
  generalize UKF.Prediction m { s1 with time_us_ := 1000000 } 1 = sp at *
  have h2 := UKF.UpdateLidar_eq_some sp ⟨1000000, SensorType.LASER, ![2, 0, u2]⟩ hdet
  have key : ∀ s2 : UKF ℝ, UKF.UpdateLidar sp ⟨1000000, SensorType.LASER, ![2, 0, u2]⟩ = some s2 →
      s2.HasCtorConstants ∧ s2.is_initialized_ = true ∧ s2.use_laser_ = true ∧
      s2.time_us_ = 1000000 ∧
      s2.x_ = ![201 / 101, 0, 200 / 303, 0, 0] ∧
      s2.P_ = !![9 / 404, 0, 3 / 202, 0, 0;
                 0, 9 / 409, 0, 0, 0;
                 3 / 202, 0, 102 / 101, 0, 0;
                 0, 0, 0, 9 / 4, 3 / 2;
                 0, 0, 0, 3 / 2, 2] := by
    intro s2 h
    rw [h2] at h
    have e := Option.some.inj h
    have hx2 : s2.x_ = sp.x_ + (UKF.lidarT sp * ((UKF.lidarS sp).det⁻¹
        • (UKF.lidarS sp).adjugate)).mulVec
          (![2, 0] - UKF.z_pred sp.weights_ (UKF.lidarZsig sp.Xsig_pred_)) := by
      rw [← e]
      rfl
    have hP3 : s2.P_ = sp.P_ - (UKF.lidarT sp * ((UKF.lidarS sp).det⁻¹
        • (UKF.lidarS sp).adjugate)) * UKF.lidarS sp
        * (UKF.lidarT sp * ((UKF.lidarS sp).det⁻¹ • (UKF.lidarS sp).adjugate)).transpose := by
      rw [← e]
    have hSinv : ((!![909 / 400, 0; 0, 409 / 400] : Matrix (Fin 2) (Fin 2) ℝ).det⁻¹
        • (!![909 / 400, 0; 0, 409 / 400] : Matrix (Fin 2) (Fin 2) ℝ).adjugate)
        = !![400 / 909, 0; 0, 400 / 409] := by
      rw [Matrix.det_fin_two_of, Matrix.adjugate_fin_two_of]
      ext a b
      fin_cases a <;> fin_cases b <;>
        simp only [Matrix.smul_apply, Matrix.of_apply, Matrix.cons_val', Matrix.cons_val_zero,
          Matrix.cons_val_one, Matrix.head_cons, Matrix.empty_val', Matrix.cons_val_fin_one,
          Fin.zero_eta, Fin.mk_one, smul_eq_mul] <;>
        norm_num
    have hK : (!![9 / 4, 0; 0, 1; 3 / 2, 0; 0, 0; 0, 0] : Matrix (Fin 5) (Fin 2) ℝ)
        * (!![400 / 909, 0; 0, 400 / 409] : Matrix (Fin 2) (Fin 2) ℝ)
        = !![100 / 101, 0; 0, 400 / 409; 200 / 303, 0; 0, 0; 0, 0] := by
      ext a b
      rw [Matrix.mul_apply, Fin.sum_univ_two]
      fin_cases a <;> fin_cases b <;>
        simp only [Matrix.of_apply, Matrix.cons_val', Matrix.cons_val_zero,
          Matrix.cons_val_one, Matrix.cons_val_two, Matrix.cons_val_three, Matrix.cons_val_four,
          Matrix.head_cons, Matrix.empty_val', Matrix.cons_val_fin_one, Matrix.cons_val_succ,
          Matrix.vecHead, Matrix.vecTail, Function.comp, Fin.succ_zero_eq_one, Fin.succ_one_eq_two, Fin.zero_eta, Fin.mk_one,
          Fin.reduceFinMk] <;>
        norm_num
    refine ⟨?_, ?_, ?_, ?_, ?_, ?_⟩
    · rw [← e]
      exact hc3
    · rw [← e]
      exact hi
    · rw [← e]
      exact hu
    · rw [← e]
      exact htm
    · rw [hx2, hz, hT2, hS2, hmean, hSinv, hK]
      funext r
      rw [Pi.add_apply, Matrix.mulVec, Matrix.dotProduct, Fin.sum_univ_two]
      fin_cases r <;>
        simp only [Matrix.of_apply, Matrix.cons_val', Matrix.cons_val_zero,
          Matrix.cons_val_one, Matrix.cons_val_two, Matrix.cons_val_three, Matrix.cons_val_four,
          Matrix.head_cons, Matrix.empty_val', Matrix.cons_val_fin_one, Matrix.cons_val_succ,
          Matrix.vecHead, Matrix.vecTail, Function.comp, Fin.succ_zero_eq_one, Fin.succ_one_eq_two, Fin.zero_eta, Fin.mk_one,
          Fin.reduceFinMk, Pi.sub_apply] <;>
        norm_num
    · rw [hP3, mul_inverse_mul_cancel _ _ hdet, hP2, hT2, hS2, hSinv, hK]
      ext a b
      rw [Matrix.sub_apply, Matrix.mul_apply, Fin.sum_univ_two]
      fin_cases a <;> fin_cases b <;>
        simp only [Matrix.of_apply, Matrix.cons_val', Matrix.transpose_apply,
          Matrix.cons_val_zero,
          Matrix.cons_val_one, Matrix.cons_val_two, Matrix.cons_val_three, Matrix.cons_val_four,
          Matrix.head_cons, Matrix.empty_val', Matrix.cons_val_fin_one, Matrix.cons_val_succ,
          Matrix.vecHead, Matrix.vecTail, Function.comp, Fin.succ_zero_eq_one, Fin.succ_one_eq_two, Fin.zero_eta, Fin.mk_one,
          Fin.reduceFinMk] <;>
        norm_num
  exact ⟨s1, _, hpm1, hpm2.trans h2, key _ h2⟩

/-- The augmented covariance of a 5×5 covariance given by its entries, with unit
process noise. -/
theorem UKF.P_aug_literal {F : Type} [LinearOrderedField F]
    (p00 p01 p02 p03 p04 p10 p11 p12 p13 p14 p20 p21 p22 p23 p24 p30 p31 p32 p33 p34
      p40 p41 p42 p43 p44 : F) :
    UKF.P_aug !![p00, p01, p02, p03, p04;
                 p10, p11, p12, p13, p14;
                 p20, p21, p22, p23, p24;
                 p30, p31, p32, p33, p34;
                 p40, p41, p42, p43, p44] 1 1
      = !![p00, p01, p02, p03, p04, 0, 0;
           p10, p11, p12, p13, p14, 0, 0;
           p20, p21, p22, p23, p24, 0, 0;
           p30, p31, p32, p33, p34, 0, 0;
           p40, p41, p42, p43, p44, 0, 0;
           0, 0, 0, 0, 0, 1 * 1, 0;
           0, 0, 0, 0, 0, 0, 1 * 1] := by
  ext i j
  fin_cases i <;> fin_cases j <;> rfl

set_option maxHeartbeats 4000000 in
/-- The Cholesky factor of the augmented covariance met at the third package of the run
of `UKF.two_laser_state`; `a = sqrt(9/404)` and `b = sqrt(9/409)`. -/
theorem isCholeskyFactor_two_laser (a b : ℝ) (ha0 : 0 < a) (ha : a * a = 9 / 404)
    (hb0 : 0 < b) (hb : b * b = 9 / 409) :
    IsCholeskyFactor
      (!![a, 0, 0, 0, 0, 0, 0;
          0, b, 0, 0, 0, 0, 0;
          3 / 202 / a, 0, 1, 0, 0, 0, 0;
          0, 0, 0, 3 / 2, 0, 0, 0;
          0, 0, 0, 1, 1, 0, 0;
          0, 0, 0, 0, 0, 1, 0;
          0, 0, 0, 0, 0, 0, 1] : Matrix (Fin 7) (Fin 7) ℝ)
      (UKF.P_aug
        !![9 / 404, 0, 3 / 202, 0, 0;
           0, 9 / 409, 0, 0, 0;
           3 / 202, 0, 102 / 101, 0, 0;
           0, 0, 0, 9 / 4, 3 / 2;
           0, 0, 0, 3 / 2, 2] 1 1) := by
  have hane : a ≠ 0 := ne_of_gt ha0
  have hc : 3 / 202 / a * a = 3 / 202 := div_mul_cancel₀ _ hane
  have hc2 : a * (3 / 202 / a) = 3 / 202 := by rw [mul_comm]; exact hc
  have hcc : 3 / 202 / a * (3 / 202 / a) + 1 = 102 / 101 := by
    field_simp
    nlinarith
  refine ⟨?_, ?_, ?_⟩
  · intro i j h
    fin_cases i <;> fin_cases j <;> first | rfl | exact absurd h (by decide)
  · intro i
    fin_cases i
    · exact ha0
    · exact hb0
    · exact one_pos
    · show (0 : ℝ) < 3 / 2
      norm_num
    · exact one_pos
    · exact one_pos
    · exact one_pos
  · rw [UKF.P_aug_literal]
    ext i j
    rw [Matrix.mul_apply, Fin.sum_univ_seven]
    fin_cases i <;> fin_cases j <;>
      simp only [Matrix.of_apply, Matrix.cons_val', Matrix.transpose_apply, Matrix.cons_val_zero,
        Matrix.cons_val_one, Matrix.cons_val_two, Matrix.cons_val_three, Matrix.cons_val_four,
        Matrix.head_cons, Matrix.empty_val', Matrix.cons_val_fin_one,
        vecCons_five_of_seven, vecCons_six_of_seven, vecCons_five_of_six,
        Matrix.vecHead, Matrix.vecTail, Function.comp, Fin.succ_zero_eq_one, Fin.succ_one_eq_two,
        mul_zero, zero_mul, add_zero, zero_add, mul_one, one_mul, ha, hb, hc, hc2, hcc] <;>
      norm_num [ha, hb, hc, hc2, hcc]

/-- The yaw entry of the propagated point (lines 220 and 228). -/
theorem UKF.predictPoint_yaw {F : Type} [LinearOrderedField F] (m : Numerics F)
    (delta_t : F) (p : Fin 7 → F) :
    UKF.predictPoint m delta_t p 3 = p 3 + p 4 * delta_t + 1 / 2 * p 6 * delta_t * delta_t := by
  simp [UKF.predictPoint]

/-- The augmented sigma points of a state with the constructor's constants. -/
theorem UKF.sigmaPoints_eq {F : Type} [LinearOrderedField F] (m : Numerics F)
    (s : UKF F) (hs : s.HasCtorConstants) :
    UKF.sigmaPoints m s = UKF.Xsig_aug (UKF.x_aug s.x_) (m.sqrt 3) (m.llt (UKF.P_aug s.P_ 1 1)) := by
  obtain ⟨-, hlam, hn, -, ha, hy, -⟩ := hs
  have h3 : s.lambda_ + (s.n_aug_ : F) = 3 := by
    rw [hlam, hn]
    simp [UKF.new]
    norm_num
  simp only [UKF.sigmaPoints, ha, hy, h3]

/-- The difference between the cross-covariance of `UpdateLidar` and the one with the
yaw difference normalised, entry by entry. -/
theorem UKF.lidarT_sub_lidarTWrapped {F : Type} [LinearOrderedField F] [FloorRing F]
    (m : Numerics F) (s : UKF F) (a : Fin 5) (b : Fin 2) :
    UKF.lidarT s a b - UKF.lidarTWrapped m s a b
      = ∑ i : Fin 15, s.weights_ i
          * ((s.Xsig_pred_ a i - s.x_ a) - UKF.x_diff m s.Xsig_pred_ s.x_ i a)
          * (UKF.lidarZsig s.Xsig_pred_ b i
              - UKF.z_pred s.weights_ (UKF.lidarZsig s.Xsig_pred_) b) := by
  simp only [UKF.lidarT, UKF.lidarTWrapped, Matrix.of_apply]
  rw [← Finset.sum_sub_distrib]
  refine Finset.sum_congr rfl (fun i _ => ?_)
  ring

/-- The yaw row of `Xsig_pred_` and the yaw entry of `x_` after `Prediction` with
`delta_t = 1` from a state `(X, 0, V, 0, 0)` whose factor `L` has the rows 3, 4 and 6 of
the run of `UKF.two_laser_state`. -/
theorem UKF.third_step_yaw (m : Numerics ℝ) (hm : m.Exact) (s : UKF ℝ)
    (hs : s.HasCtorConstants) (X V : ℝ) (hx : s.x_ = ![X, 0, V, 0, 0])
    (r3 : ∀ j : Fin 7, m.llt (UKF.P_aug s.P_ 1 1) 3 j = ![0, 0, 0, 3 / 2, 0, 0, 0] j)
    (r4 : ∀ j : Fin 7, m.llt (UKF.P_aug s.P_ 1 1) 4 j = ![0, 0, 0, 1, 1, 0, 0] j)
    (r6 : ∀ j : Fin 7, m.llt (UKF.P_aug s.P_ 1 1) 6 j = ![0, 0, 0, 0, 0, 0, 1] j) :
    (UKF.Prediction m s 1).Xsig_pred_ 3 0 = 0 ∧
    (∀ j : Fin 7, (UKF.Prediction m s 1).Xsig_pred_ 3 (UKF.colPlus j)
      = ![0, 0, 0, 5 / 2 * Real.sqrt 3, Real.sqrt 3, 0, 1 / 2 * Real.sqrt 3] j) ∧
    (∀ j : Fin 7, (UKF.Prediction m s 1).Xsig_pred_ 3 (UKF.colMinus j)
      = -(![0, 0, 0, 5 / 2 * Real.sqrt 3, Real.sqrt 3, 0, 1 / 2 * Real.sqrt 3] : Fin 7 → ℝ) j) ∧
    (UKF.Prediction m s 1).x_ 3 = 0 := by
  obtain ⟨hsqrt, hsin, hcos, -, hpi⟩ := hm
  have hX : (UKF.Prediction m s 1).Xsig_pred_
      = UKF.propagated m 1 (UKF.Xsig_aug (UKF.x_aug ![X, 0, V, 0, 0]) (Real.sqrt 3)
          (m.llt (UKF.P_aug s.P_ 1 1))) := by
    rw [UKF.Prediction_eq, UKF.sigmaPoints_eq m s hs, hx, hsqrt]
  obtain ⟨a0, a1, a2, a3, a4, a5, a6⟩ := UKF.x_aug_apply (![X, 0, V, 0, 0] : Fin 5 → ℝ)
  have y0 : (UKF.Prediction m s 1).Xsig_pred_ 3 0 = 0 := by
    rw [hX, UKF.propagated_zero, UKF.predictPoint_yaw, a3, a4, a6]
    simp
  have yP : ∀ j : Fin 7, (UKF.Prediction m s 1).Xsig_pred_ 3 (UKF.colPlus j)
      = ![0, 0, 0, 5 / 2 * Real.sqrt 3, Real.sqrt 3, 0, 1 / 2 * Real.sqrt 3] j := by
    intro j
    rw [hX, UKF.propagated_colPlus, UKF.predictPoint_yaw, a3, a4, a6, r3, r4, r6]
    fin_cases j <;> simp [vecCons_five_of_seven, vecCons_six_of_seven, vecCons_five_of_six]
    ring
  have yM : ∀ j : Fin 7, (UKF.Prediction m s 1).Xsig_pred_ 3 (UKF.colMinus j)
      = -(![0, 0, 0, 5 / 2 * Real.sqrt 3, Real.sqrt 3, 0, 1 / 2 * Real.sqrt 3] : Fin 7 → ℝ) j := by
    intro j
    rw [hX, UKF.propagated_colMinus, UKF.predictPoint_yaw, a3, a4, a6, r3, r4, r6]
    fin_cases j <;> simp [vecCons_five_of_seven, vecCons_six_of_seven, vecCons_five_of_six]
    ring
  refine ⟨y0, yP, yM, ?_⟩
  have hmean : (UKF.Prediction m s 1).x_
      = UKF.predictedMean s.weights_ (UKF.Prediction m s 1).Xsig_pred_ := by
    rw [UKF.Prediction_eq]
  rw [hmean]
  simp only [UKF.predictedMean]
  rw [UKF.sum_sigma_columns]
  simp only [y0, yP, yM, hs.1, UKF.new_weights_zero, UKF.new_weights_colPlus,
    UKF.new_weights_colMinus]
  rw [← Finset.sum_add_distrib]
  simp

/-- The `py` entries of the two columns of `Xsig_pred_` whose yaw difference leaves
`[-π, π]`, for the state of `UKF.third_step_yaw`. -/
theorem UKF.third_step_py (m : Numerics ℝ) (hm : m.Exact) (s : UKF ℝ)
    (hs : s.HasCtorConstants) (X V : ℝ) (hx : s.x_ = ![X, 0, V, 0, 0])
    (c3 : ∀ r : Fin 7, m.llt (UKF.P_aug s.P_ 1 1) r 3 = ![0, 0, 0, 3 / 2, 1, 0, 0] r) :
    (UKF.Prediction m s 1).Xsig_pred_ 1 (UKF.colPlus 3)
      = V / Real.sqrt 3 * (Real.cos (3 / 2 * Real.sqrt 3) - Real.cos (5 / 2 * Real.sqrt 3)) ∧
    (UKF.Prediction m s 1).Xsig_pred_ 1 (UKF.colMinus 3)
      = -(V / Real.sqrt 3
          * (Real.cos (3 / 2 * Real.sqrt 3) - Real.cos (5 / 2 * Real.sqrt 3))) := by
  obtain ⟨hsqrt, hsin, hcos, -, hpi⟩ := hm
  have hX : (UKF.Prediction m s 1).Xsig_pred_
      = UKF.propagated m 1 (UKF.Xsig_aug (UKF.x_aug ![X, 0, V, 0, 0]) (Real.sqrt 3)
          (m.llt (UKF.P_aug s.P_ 1 1))) := by
    rw [UKF.Prediction_eq, UKF.sigmaPoints_eq m s hs, hx, hsqrt]
  obtain ⟨a0, a1, a2, a3, a4, a5, a6⟩ := UKF.x_aug_apply (![X, 0, V, 0, 0] : Fin 5 → ℝ)
  obtain ⟨hqlo, hqhi⟩ := sqrt_three_bounds
  have hbr : (1000 : ℝ)⁻¹ < |Real.sqrt 3| := by
    rw [abs_of_nonneg (Real.sqrt_nonneg 3)]
    norm_num
    linarith
  have e1 : Real.sqrt 3 * (3 / 2) = 3 / 2 * Real.sqrt 3 := by ring
  have e2 : Real.sqrt 3 * (3 / 2) + Real.sqrt 3 = 5 / 2 * Real.sqrt 3 := by ring
  have e3 : -(Real.sqrt 3 * (3 / 2)) + -Real.sqrt 3 = -(5 / 2 * Real.sqrt 3) := by ring
  constructor
  · rw [hX, UKF.propagated_colPlus, (UKF.predictPoint_position m 1 _).2]
    simp only [a1, a2, a3, a4, a5, c3]
    simp [vecCons_five_of_seven, UKF.turnPosition, hcos]
    rw [if_pos hbr, e2, e1]
  · rw [hX, UKF.propagated_colMinus, (UKF.predictPoint_position m 1 _).2]
    simp only [a1, a2, a3, a4, a5, c3]
    simp [vecCons_five_of_seven, UKF.turnPosition, hcos]
    rw [if_pos hbr, e3, Real.cos_neg, e1, div_neg, neg_mul]

/-- The entry `(3, 1)` of the cross-covariance of `UpdateLidar` minus the same entry with
the yaw difference normalised, for the state of `UKF.third_step_yaw`: the two columns
whose yaw difference is `± 5/2 sqrt 3`, outside `[-π, π]`, contribute. -/
theorem UKF.third_step_cross_covariance (m : Numerics ℝ) (hm : m.Exact) (s : UKF ℝ)
    (hs : s.HasCtorConstants) (X V : ℝ) (hx : s.x_ = ![X, 0, V, 0, 0])
    (r3 : ∀ j : Fin 7, m.llt (UKF.P_aug s.P_ 1 1) 3 j = ![0, 0, 0, 3 / 2, 0, 0, 0] j)
    (r4 : ∀ j : Fin 7, m.llt (UKF.P_aug s.P_ 1 1) 4 j = ![0, 0, 0, 1, 1, 0, 0] j)
    (r6 : ∀ j : Fin 7, m.llt (UKF.P_aug s.P_ 1 1) 6 j = ![0, 0, 0, 0, 0, 0, 1] j)
    (c3 : ∀ r : Fin 7, m.llt (UKF.P_aug s.P_ 1 1) r 3 = ![0, 0, 0, 3 / 2, 1, 0, 0] r) :
    UKF.lidarT (UKF.Prediction m s 1) 3 1 - UKF.lidarTWrapped m (UKF.Prediction m s 1) 3 1
      = Real.pi / 3 * (2 * (V / Real.sqrt 3
          * (Real.cos (3 / 2 * Real.sqrt 3) - Real.cos (5 / 2 * Real.sqrt 3)))) := by
  obtain ⟨y0, yP, yM, hm3⟩ := UKF.third_step_yaw m hm s hs X V hx r3 r4 r6
  obtain ⟨pP, pM⟩ := UKF.third_step_py m hm s hs X V hx c3
  have hpi : m.M_PI = Real.pi := hm.2.2.2.2
  obtain ⟨hqlo, hqhi⟩ := sqrt_three_bounds
  have hp3 := Real.pi_gt_three
  have hp4 := Real.pi_lt_d2
  have n0 : normalizeAngle Real.pi 0 = 0 :=
    normalizeAngle_eq_self _ _ (by linarith) (by linarith)
  have n1 : normalizeAngle Real.pi (Real.sqrt 3) = Real.sqrt 3 :=
    normalizeAngle_eq_self _ _ (by linarith) (by linarith)
  have n2 : normalizeAngle Real.pi (1 / 2 * Real.sqrt 3) = 1 / 2 * Real.sqrt 3 :=
    normalizeAngle_eq_self _ _ (by linarith) (by linarith)
  have n3 : normalizeAngle Real.pi (5 / 2 * Real.sqrt 3) = 5 / 2 * Real.sqrt 3 - 2 * Real.pi :=
    normalizeAngle_sub_turn _ _ Real.pi_pos (by linarith) (by linarith)
  have n1m : normalizeAngle Real.pi (-Real.sqrt 3) = -Real.sqrt 3 :=
    normalizeAngle_eq_self _ _ (by linarith) (by linarith)
  have n2m : normalizeAngle Real.pi (-(1 / 2 * Real.sqrt 3)) = -(1 / 2 * Real.sqrt 3) :=
    normalizeAngle_eq_self _ _ (by linarith) (by linarith)
  have n3m : normalizeAngle Real.pi (-(5 / 2 * Real.sqrt 3))
      = -(5 / 2 * Real.sqrt 3) + 2 * Real.pi :=
    normalizeAngle_add_turn _ _ Real.pi_pos (by linarith) (by linarith)
  have n0m : normalizeAngle Real.pi (-0) = -0 := by rw [neg_zero]; exact n0
  have d0 : ((UKF.Prediction m s 1).Xsig_pred_ 3 0 - (UKF.Prediction m s 1).x_ 3)
      - UKF.x_diff m (UKF.Prediction m s 1).Xsig_pred_ (UKF.Prediction m s 1).x_ 0 3 = 0 := by
    simp only [UKF.x_diff, if_true, y0, hm3, sub_zero, hpi, n0]
  have dP : ∀ j : Fin 7,
      ((UKF.Prediction m s 1).Xsig_pred_ 3 (UKF.colPlus j) - (UKF.Prediction m s 1).x_ 3)
        - UKF.x_diff m (UKF.Prediction m s 1).Xsig_pred_ (UKF.Prediction m s 1).x_
            (UKF.colPlus j) 3
      = ![0, 0, 0, 2 * Real.pi, 0, 0, 0] j := by
    intro j
    simp only [UKF.x_diff, if_true, yP, hm3, sub_zero, hpi]
    fin_cases j
    · show (0 : ℝ) - normalizeAngle Real.pi 0 = 0
      rw [n0, sub_zero]
    · show (0 : ℝ) - normalizeAngle Real.pi 0 = 0
      rw [n0, sub_zero]
    · show (0 : ℝ) - normalizeAngle Real.pi 0 = 0
      rw [n0, sub_zero]
    · show 5 / 2 * Real.sqrt 3 - normalizeAngle Real.pi (5 / 2 * Real.sqrt 3) = 2 * Real.pi
      rw [n3]
      ring
    · show Real.sqrt 3 - normalizeAngle Real.pi (Real.sqrt 3) = 0
      rw [n1, sub_self]
    · show (0 : ℝ) - normalizeAngle Real.pi 0 = 0
      rw [n0, sub_zero]
    · show 1 / 2 * Real.sqrt 3 - normalizeAngle Real.pi (1 / 2 * Real.sqrt 3) = 0
      rw [n2, sub_self]
  have dM : ∀ j : Fin 7,
      ((UKF.Prediction m s 1).Xsig_pred_ 3 (UKF.colMinus j) - (UKF.Prediction m s 1).x_ 3)
        - UKF.x_diff m (UKF.Prediction m s 1).Xsig_pred_ (UKF.Prediction m s 1).x_
            (UKF.colMinus j) 3
      = ![0, 0, 0, -(2 * Real.pi), 0, 0, 0] j := by
    intro j
    simp only [UKF.x_diff, if_true, yM, hm3, sub_zero, hpi]
    fin_cases j
    · show -(0 : ℝ) - normalizeAngle Real.pi (-0) = 0
      rw [n0m, sub_self]
    · show -(0 : ℝ) - normalizeAngle Real.pi (-0) = 0
      rw [n0m, sub_self]
    · show -(0 : ℝ) - normalizeAngle Real.pi (-0) = 0
      rw [n0m, sub_self]
    · show -(5 / 2 * Real.sqrt 3) - normalizeAngle Real.pi (-(5 / 2 * Real.sqrt 3))
          = -(2 * Real.pi)
      rw [n3m]
      ring
    · show -Real.sqrt 3 - normalizeAngle Real.pi (-Real.sqrt 3) = 0
      rw [n1m, sub_self]
    · show -(0 : ℝ) - normalizeAngle Real.pi (-0) = 0
      rw [n0m, sub_self]
    · show -(1 / 2 * Real.sqrt 3) - normalizeAngle Real.pi (-(1 / 2 * Real.sqrt 3)) = 0
      rw [n2m, sub_self]
  have hw : (UKF.Prediction m s 1).weights_ = (UKF.new 0 0 : UKF ℝ).weights_ :=
    (UKF.Prediction_hasCtorConstants m s 1 hs).1
  have hZ : ∀ i, UKF.lidarZsig (UKF.Prediction m s 1).Xsig_pred_ 1 i
      = (UKF.Prediction m s 1).Xsig_pred_ 1 i := by
    intro i
    simp [UKF.lidarZsig]
  rw [UKF.lidarT_sub_lidarTWrapped, UKF.sum_sigma_columns]
  simp only [d0, dP, dM, hZ]
  rw [Fin.sum_univ_seven, Fin.sum_univ_seven]
  simp only [hw, UKF.new_weights_zero, UKF.new_weights_colPlus, UKF.new_weights_colMinus]
  simp [vecCons_five_of_seven, vecCons_six_of_seven, vecCons_five_of_six]
  rw [pP, pM]
  ring

/-- C14 (what the code does): in exact real arithmetic with `llt` the Cholesky
factorisation, on the run LASER `(1, 0)` at `t = 0`, LASER `(2, 0)` at `t = 1000000`,
LASER `z` at `t = 2000000` on a constructed filter, the third call runs `UpdateLidar` on
the state left by `Prediction` with `delta_t = 1`. There the sigma points 4 and 11 have
the yaw differences `± 5/2 sqrt 3`, outside `[-π, π]`, and the cross-covariance `T` of
`UpdateLidar` (lines 317-322, which do not normalise the yaw difference) differs from the
cross-covariance with the yaw difference normalised as in `Prediction` and `UpdateRadar`:
the entry `(3, 1)` is smaller by `(π/3) * 2 * (200/303) / sqrt 3 *
(cos(5/2 sqrt 3) - cos(3/2 sqrt 3)) > 0`. -/
theorem UKF.lidarT_yaw_not_normalised (m : Numerics ℝ) (hm : m.Exact)
    (hL : ∀ A L : Matrix (Fin 7) (Fin 7) ℝ, IsCholeskyFactor L A → m.llt A = L)
    (X0 : Matrix (Fin 5) (Fin 15) ℝ) (t0 : Int) (u1 u2 : ℝ) (z : Fin 3 → ℝ) :
    ∃ s1 s2 : UKF ℝ,
      UKF.ProcessMeasurement m (UKF.new X0 t0) ⟨0, SensorType.LASER, ![1, 0, u1]⟩ = some s1 ∧
      UKF.ProcessMeasurement m s1 ⟨1000000, SensorType.LASER, ![2, 0, u2]⟩ = some s2 ∧
      UKF.ProcessMeasurement m s2 ⟨2000000, SensorType.LASER, z⟩
        = UKF.UpdateLidar (UKF.Prediction m { s2 with time_us_ := 2000000 } 1)
            ⟨2000000, SensorType.LASER, z⟩ ∧
      UKF.lidarT (UKF.Prediction m { s2 with time_us_ := 2000000 } 1) 3 1
          - UKF.lidarTWrapped m (UKF.Prediction m { s2 with time_us_ := 2000000 } 1) 3 1
        = Real.pi / 3 * (2 * (200 / 303 / Real.sqrt 3
            * (Real.cos (3 / 2 * Real.sqrt 3) - Real.cos (5 / 2 * Real.sqrt 3)))) ∧
      UKF.lidarT (UKF.Prediction m { s2 with time_us_ := 2000000 } 1) 3 1
        < UKF.lidarTWrapped m (UKF.Prediction m { s2 with time_us_ := 2000000 } 1) 3 1 ∧
      UKF.lidarT (UKF.Prediction m { s2 with time_us_ := 2000000 } 1)
        ≠ UKF.lidarTWrapped m (UKF.Prediction m { s2 with time_us_ := 2000000 } 1) := by
  have hL1 : IsCholeskyFactor (m.llt 1) 1 := by
    rw [hL 1 1 IsCholeskyFactor.one]
    exact IsCholeskyFactor.one
  obtain ⟨s1, s2, h1, h2, hc, hi, hu, ht, hx, hP⟩ := UKF.two_laser_state m hm hL1 X0 t0 u1 u2
  have hLs : m.llt (UKF.P_aug ({ s2 with time_us_ := 2000000 } : UKF ℝ).P_ 1 1)
      = !![Real.sqrt (9 / 404), 0, 0, 0, 0, 0, 0;
           0, Real.sqrt (9 / 409), 0, 0, 0, 0, 0;
           3 / 202 / Real.sqrt (9 / 404), 0, 1, 0, 0, 0, 0;
           0, 0, 0, 3 / 2, 0, 0, 0;
           0, 0, 0, 1, 1, 0, 0;
           0, 0, 0, 0, 0, 1, 0;
           0, 0, 0, 0, 0, 0, 1] := by
    show m.llt (UKF.P_aug s2.P_ 1 1) = _
    rw [hP]
    exact hL _ _ (isCholeskyFactor_two_laser _ _ (Real.sqrt_pos.mpr (by norm_num))
      (Real.mul_self_sqrt (by norm_num)) (Real.sqrt_pos.mpr (by norm_num))
      (Real.mul_self_sqrt (by norm_num)))
  have hc2 : ({ s2 with time_us_ := 2000000 } : UKF ℝ).HasCtorConstants := hc
  have hx2 : ({ s2 with time_us_ := 2000000 } : UKF ℝ).x_ = ![201 / 101, 0, 200 / 303, 0, 0] := hx
  have hD := UKF.third_step_cross_covariance m hm { s2 with time_us_ := 2000000 } hc2
    (201 / 101) (200 / 303) hx2
    (fun j => by rw [hLs]; rfl) (fun j => by rw [hLs]; rfl) (fun j => by rw [hLs]; rfl)
    (fun r => by rw [hLs]; fin_cases r <;> rfl)
  obtain ⟨hqlo, hqhi⟩ := sqrt_three_bounds
  have hp3 := Real.pi_gt_three
  have hp4 := Real.pi_lt_d2
  have hcos : Real.cos (3 / 2 * Real.sqrt 3) < Real.cos (5 / 2 * Real.sqrt 3) := by
    rw [← Real.cos_two_pi_sub (5 / 2 * Real.sqrt 3)]
    exact Real.cos_lt_cos_of_nonneg_of_le_pi (by linarith) (by linarith) (by linarith)
  have hneg : Real.pi / 3 * (2 * (200 / 303 / Real.sqrt 3
      * (Real.cos (3 / 2 * Real.sqrt 3) - Real.cos (5 / 2 * Real.sqrt 3)))) < 0 := by
    have hq0 : 0 < Real.sqrt 3 := by linarith
    have h1 : 0 < Real.pi / 3 * (2 * (200 / 303 / Real.sqrt 3)) := by positivity
    have h2 : Real.cos (3 / 2 * Real.sqrt 3) - Real.cos (5 / 2 * Real.sqrt 3) < 0 := by linarith
    have := mul_neg_of_pos_of_neg h1 h2
    calc Real.pi / 3 * (2 * (200 / 303 / Real.sqrt 3
          * (Real.cos (3 / 2 * Real.sqrt 3) - Real.cos (5 / 2 * Real.sqrt 3))))
        = Real.pi / 3 * (2 * (200 / 303 / Real.sqrt 3))
          * (Real.cos (3 / 2 * Real.sqrt 3) - Real.cos (5 / 2 * Real.sqrt 3)) := by ring
      _ < 0 := this
  have hdt : (((2000000 : Int) - s2.time_us_ : Int) : ℝ) / 1000000 = 1 := by
    rw [ht]
    norm_num
  have hpm3 : UKF.ProcessMeasurement m s2 ⟨2000000, SensorType.LASER, z⟩
      = UKF.UpdateLidar (UKF.Prediction m { s2 with time_us_ := 2000000 } 1)
          ⟨2000000, SensorType.LASER, z⟩ := by
    have hu3 : (UKF.Prediction m { s2 with time_us_ := 2000000 } 1).use_laser_ = true := by
      rw [UKF.Prediction_eq]
      exact hu
    simp only [UKF.ProcessMeasurement, hi, Bool.not_true, Bool.false_eq_true, if_false, hdt]
    exact UKF.updateBySensor_laser m _ _ rfl hu3
  refine ⟨s1, s2, h1, h2, hpm3, hD, ?_, ?_⟩
  · have := hD.trans_lt hneg
    linarith
  · intro heq
    rw [heq, sub_self] at hD
    rw [← hD] at hneg
    exact lt_irrefl _ hneg

/-- C14 at a concrete input: the real functions with `llt` a choice of the Cholesky
factor (which is unique), a filter constructed with a zero `Xsig_pred_`, third readings
`0` and the third package LASER `(3, 0)`. -/
theorem UKF.lidarT_yaw_not_normalised_witness :
    (∀ A L : Matrix (Fin 7) (Fin 7) ℝ, IsCholeskyFactor L A →
      Classical.epsilon (fun L2 => IsCholeskyFactor L2 A) = L) ∧
    ∃ s1 s2 : UKF ℝ,
      UKF.ProcessMeasurement
        ⟨Real.sqrt, Real.sin, Real.cos, fun y x => Complex.arg ⟨x, y⟩, Real.pi, id,
          fun A => Classical.epsilon (fun L2 => IsCholeskyFactor L2 A)⟩
        (UKF.new 0 0) ⟨0, SensorType.LASER, ![1, 0, 0]⟩ = some s1 ∧
      UKF.ProcessMeasurement
        ⟨Real.sqrt, Real.sin, Real.cos, fun y x => Complex.arg ⟨x, y⟩, Real.pi, id,
          fun A => Classical.epsilon (fun L2 => IsCholeskyFactor L2 A)⟩
        s1 ⟨1000000, SensorType.LASER, ![2, 0, 0]⟩ = some s2 ∧
      UKF.lidarT (UKF.Prediction
        ⟨Real.sqrt, Real.sin, Real.cos, fun y x => Complex.arg ⟨x, y⟩, Real.pi, id,
          fun A => Classical.epsilon (fun L2 => IsCholeskyFactor L2 A)⟩
        { s2 with time_us_ := 2000000 } 1)
        ≠ UKF.lidarTWrapped
          ⟨Real.sqrt, Real.sin, Real.cos, fun y x => Complex.arg ⟨x, y⟩, Real.pi, id,
            fun A => Classical.epsilon (fun L2 => IsCholeskyFactor L2 A)⟩
          (UKF.Prediction
            ⟨Real.sqrt, Real.sin, Real.cos, fun y x => Complex.arg ⟨x, y⟩, Real.pi, id,
              fun A => Classical.epsilon (fun L2 => IsCholeskyFactor L2 A)⟩
            { s2 with time_us_ := 2000000 } 1) := by
  have hE : ∀ A L : Matrix (Fin 7) (Fin 7) ℝ, IsCholeskyFactor L A →
      Classical.epsilon (fun L2 => IsCholeskyFactor L2 A) = L := fun A L h =>
    IsCholeskyFactor.unique (Classical.epsilon (fun L2 => IsCholeskyFactor L2 A)) L A
      (@Classical.epsilon_spec _ (fun L2 => IsCholeskyFactor L2 A) ⟨L, h⟩) h
  obtain ⟨s1, s2, h1, h2, -, -, -, h3⟩ := UKF.lidarT_yaw_not_normalised
    ⟨Real.sqrt, Real.sin, Real.cos, fun y x => Complex.arg ⟨x, y⟩, Real.pi, id,
      fun A => Classical.epsilon (fun L2 => IsCholeskyFactor L2 A)⟩
    ⟨fun _ => rfl, fun _ => rfl, fun _ => rfl, fun _ _ => rfl, rfl⟩ hE 0 0 0 0 ![3, 0, 0]
  exact ⟨hE, s1, s2, h1, h2, h3⟩

/-- The nearest integer is the floor or the floor plus one. -/
theorem roundHalfEven_floor {F : Type} [LinearOrderedField F] [FloorRing F] (x : F) :
    ⌊x⌋ ≤ roundHalfEven x ∧ roundHalfEven x ≤ ⌊x⌋ + 1 := by
  unfold roundHalfEven
  split_ifs <;> omega

/-- The nearest integer is within one half of `x`. -/
theorem roundHalfEven_sub {F : Type} [LinearOrderedField F] [FloorRing F] (x : F) :
    |(roundHalfEven x : F) - x| ≤ 1 / 2 := by
  have h0 : (⌊x⌋ : F) = x - Int.fract x := by
    rw [← Int.self_sub_floor]
    ring
  have h1 := Int.fract_nonneg x
  have h2 := Int.fract_lt_one x
  rw [abs_le]
  unfold roundHalfEven
  split_ifs with ha hb hc
  · rw [h0]
    constructor <;> linarith
  · push_cast
    rw [h0]
    constructor <;> linarith
  · have he : Int.fract x = 1 / 2 := le_antisymm (not_lt.mp hb) (not_lt.mp ha)
    rw [h0, he]
    constructor <;> linarith
  · have he : Int.fract x = 1 / 2 := le_antisymm (not_lt.mp hb) (not_lt.mp ha)
    push_cast
    rw [h0, he]
    constructor <;> linarith

/-- An integer is its own nearest integer. -/
theorem roundHalfEven_intCast {F : Type} [LinearOrderedField F] [FloorRing F] (n : Int) :
    roundHalfEven (n : F) = n := by
  unfold roundHalfEven
  rw [Int.fract_intCast, Int.floor_intCast]
  norm_num

/-- The integer within less than one half of `x` is the nearest integer of `x`. -/
theorem roundHalfEven_eq_of_near {F : Type} [LinearOrderedField F] [FloorRing F] (x : F)
    (n : Int) (h1 : (n : F) - 1 / 2 < x) (h2 : x < n + 1 / 2) : roundHalfEven x = n := by
  have h := abs_le.mp (roundHalfEven_sub x)
  have h3 : ((roundHalfEven x - n : Int) : F) < 1 := by
    push_cast
    linarith
  have h4 : ((-1 : Int) : F) < ((roundHalfEven x - n : Int) : F) := by
    push_cast
    linarith
  have h5 : roundHalfEven x - n < 1 := by exact_mod_cast h3
  have h6 : -1 < roundHalfEven x - n := by exact_mod_cast h4
  omega

/-- Rounding to the nearest integer is monotone. -/
theorem roundHalfEven_mono {F : Type} [LinearOrderedField F] [FloorRing F] (x y : F)
    (h : x ≤ y) : roundHalfEven x ≤ roundHalfEven y := by
  have hf : ⌊x⌋ ≤ ⌊y⌋ := Int.floor_mono h
  rcases lt_or_eq_of_le hf with hlt | heq
  · have h1 := (roundHalfEven_floor x).2
    have h2 := (roundHalfEven_floor y).1
    omega
  · have hfr : Int.fract x ≤ Int.fract y := by
      have e1 : Int.fract x = x - ⌊x⌋ := (Int.self_sub_floor x).symm
      have e2 : Int.fract y = y - ⌊y⌋ := (Int.self_sub_floor y).symm
      rw [e1, e2, heq]
      linarith
    unfold roundHalfEven
    rw [heq]
    split_ifs <;> first | omega | (exfalso; linarith)

/-- Rounding to the nearest integer, ties to even, commutes with negation. -/
theorem roundHalfEven_neg {F : Type} [LinearOrderedField F] [FloorRing F] (x : F) :
    roundHalfEven (-x) = -roundHalfEven x := by
  by_cases h0 : Int.fract x = 0
  · have hx : x = ((⌊x⌋ : Int) : F) := by
      have := Int.self_sub_floor x
      rw [h0] at this
      linarith
    rw [hx, ← Int.cast_neg, roundHalfEven_intCast, roundHalfEven_intCast]
  · have hfr : Int.fract (-x) = 1 - Int.fract x := Int.fract_neg h0
    have h1 := Int.fract_nonneg x
    have h2 := Int.fract_lt_one x
    have hpos : 0 < Int.fract x := lt_of_le_of_ne h1 (Ne.symm h0)
    have e1 : Int.fract x = x - ⌊x⌋ := (Int.self_sub_floor x).symm
    have hfl : ⌊-x⌋ = -⌊x⌋ - 1 := by
      rw [Int.floor_eq_iff]
      push_cast
      constructor <;> linarith
    unfold roundHalfEven
    rw [hfr, hfl]
    split_ifs <;> first | omega | (exfalso; linarith)

/-- The exponent of the power of two at or below a positive number. -/
theorem int_log_two_eq {F : Type} [LinearOrderedField F] [FloorRing F] (r : F) (j : Int)
    (h1 : (2 : F) ^ j ≤ r) (h2 : r < (2 : F) ^ (j + 1)) : Int.log 2 r = j := by
  have hr : 0 < r := lt_of_lt_of_le (zpow_pos (by norm_num) j) h1
  have a : j ≤ Int.log 2 r := by
    rw [← Int.zpow_le_iff_le_log (by norm_num) hr]
    simpa using h1
  have b : Int.log 2 r < j + 1 := by
    rw [← Int.lt_zpow_iff_log_lt (by norm_num) hr]
    simpa using h2
  omega

/-- A number in the binade `[2 ^ j, 2 ^ (j + 1))` whose scaled value is within less than
one half of the integer `n` is rounded to `n * 2 ^ (j - (p - 1))`. -/
theorem roundBinary_eq_of_near {F : Type} [LinearOrderedField F] [FloorRing F] (p : Nat)
    (x : F) (j n : Int) (h1 : (2 : F) ^ j ≤ |x|) (h2 : |x| < (2 : F) ^ (j + 1))
    (h3 : (n : F) - 1 / 2 < x / (2 : F) ^ (j - ((p : Int) - 1)))
    (h4 : x / (2 : F) ^ (j - ((p : Int) - 1)) < n + 1 / 2) :
    roundBinary p x = n * (2 : F) ^ (j - ((p : Int) - 1)) := by
  unfold roundBinary
  simp only [int_log_two_eq |x| j h1 h2]
  rw [roundHalfEven_eq_of_near _ n h3 h4]

/-- Zero is rounded to zero. -/
theorem roundBinary_zero {F : Type} [LinearOrderedField F] [FloorRing F] (p : Nat) :
    roundBinary p (0 : F) = 0 := by
  unfold roundBinary
  simp only [zero_div]
  rw [show (0 : F) = ((0 : Int) : F) by norm_num, roundHalfEven_intCast]
  simp

/-- Rounding commutes with negation. -/
theorem roundBinary_neg {F : Type} [LinearOrderedField F] [FloorRing F] (p : Nat) (x : F) :
    roundBinary p (-x) = -roundBinary p x := by
  unfold roundBinary
  simp only [abs_neg, neg_div, roundHalfEven_neg, Int.cast_neg, neg_mul]

/-- The rounding error is at most half the spacing of the format at `x`. -/
theorem roundBinary_abs_sub {F : Type} [LinearOrderedField F] [FloorRing F] (p : Nat) (x : F) :
    |roundBinary p x - x| ≤ (2 : F) ^ (Int.log 2 |x| - (p : Int)) := by
  have hg : (0 : F) < (2 : F) ^ (Int.log 2 |x| - ((p : Int) - 1)) := zpow_pos (by norm_num) _
  have h := roundHalfEven_sub (x / (2 : F) ^ (Int.log 2 |x| - ((p : Int) - 1)))
  have e1 : roundBinary p x - x
      = ((roundHalfEven (x / (2 : F) ^ (Int.log 2 |x| - ((p : Int) - 1))) : F)
          - x / (2 : F) ^ (Int.log 2 |x| - ((p : Int) - 1)))
        * (2 : F) ^ (Int.log 2 |x| - ((p : Int) - 1)) := by
    unfold roundBinary
    field_simp
  have e2 : (2 : F) ^ (Int.log 2 |x| - (p : Int))
      = 1 / 2 * (2 : F) ^ (Int.log 2 |x| - ((p : Int) - 1)) := by
    rw [show Int.log 2 |x| - ((p : Int) - 1) = (Int.log 2 |x| - (p : Int)) + 1 by ring,
      zpow_add_one₀ (by norm_num)]
    ring
  rw [e1, e2, abs_mul, abs_of_pos hg]
  exact mul_le_mul_of_nonneg_right h hg.le

/-- The rounding error of a number of magnitude at most `2 ^ k` is at most
`2 ^ (k - p)`. -/
theorem roundBinary_error_le {F : Type} [LinearOrderedField F] [FloorRing F] (p : Nat) (x : F)
    (k : Int) (hx : |x| ≤ (2 : F) ^ k) : |roundBinary p x - x| ≤ (2 : F) ^ (k - (p : Int)) := by
  by_cases h0 : x = 0
  · subst h0
    rw [roundBinary_zero, sub_zero, abs_zero]
    exact (zpow_pos (by norm_num) _).le
  · have hpos : 0 < |x| := abs_pos.mpr h0
    have h1 : ((2 : Nat) : F) ^ Int.log 2 |x| ≤ |x| := Int.zpow_log_le_self (by norm_num) hpos
    have h2 : (2 : F) ^ Int.log 2 |x| ≤ (2 : F) ^ k := by
      refine le_trans ?_ hx
      simpa using h1
    have h3 : Int.log 2 |x| ≤ k := (zpow_le_zpow_iff_right₀ (by norm_num)).mp h2
    refine le_trans (roundBinary_abs_sub p x) ?_
    exact zpow_le_zpow_right₀ (by norm_num) (by omega)

/-- A positive number is rounded within its binade, the upper end included. -/
theorem roundBinary_binade {F : Type} [LinearOrderedField F] [FloorRing F] (p : Nat)
    (hp : 1 ≤ p) (x : F) (hx : 0 < x) :
    (2 : F) ^ Int.log 2 x ≤ roundBinary p x ∧ roundBinary p x ≤ (2 : F) ^ (Int.log 2 x + 1) := by
  obtain ⟨q, rfl⟩ : ∃ q, p = q + 1 := ⟨p - 1, by omega⟩
  have he : ((q + 1 : Nat) : Int) - 1 = (q : Int) := by push_cast; ring
  have hg : (0 : F) < (2 : F) ^ (Int.log 2 x - (q : Int)) := zpow_pos (by norm_num) _
  have h1 : (2 : F) ^ Int.log 2 x ≤ x := by
    have := Int.zpow_log_le_self (b := 2) (by norm_num) hx
    simpa using this
  have h2 : x < (2 : F) ^ (Int.log 2 x + 1) := by
    have := Int.lt_zpow_succ_log_self (b := 2) (by norm_num) x
    simpa using this
  have e1 : (2 : F) ^ Int.log 2 x = (((2 : Int) ^ q : Int) : F) * (2 : F) ^ (Int.log 2 x - (q : Int)) := by
    push_cast
    rw [← zpow_natCast, ← zpow_add₀ (by norm_num)]
    congr 1
    ring
  have e2 : (2 : F) ^ (Int.log 2 x + 1)
      = (((2 : Int) ^ (q + 1) : Int) : F) * (2 : F) ^ (Int.log 2 x - (q : Int)) := by
    push_cast
    rw [← zpow_natCast, ← zpow_add₀ (by norm_num)]
    congr 1
    push_cast
    ring
  have m1 : (((2 : Int) ^ q : Int) : F) ≤ x / (2 : F) ^ (Int.log 2 x - (q : Int)) := by
    rw [le_div_iff₀ hg, ← e1]
    exact h1
  have m2 : x / (2 : F) ^ (Int.log 2 x - (q : Int)) ≤ (((2 : Int) ^ (q + 1) : Int) : F) := by
    rw [div_le_iff₀ hg, ← e2]
    exact h2.le
  have r1 := roundHalfEven_mono _ _ m1
  have r2 := roundHalfEven_mono _ _ m2
  rw [roundHalfEven_intCast] at r1 r2
  unfold roundBinary
  simp only [abs_of_pos hx, he]
  rw [e1, e2]
  constructor
  · exact mul_le_mul_of_nonneg_right (by exact_mod_cast r1) hg.le
  · exact mul_le_mul_of_nonneg_right (by exact_mod_cast r2) hg.le

/-- A number that is not negative is rounded to one that is not negative. -/
theorem roundBinary_nonneg {F : Type} [LinearOrderedField F] [FloorRing F] (p : Nat)
    (x : F) (hx : 0 ≤ x) : 0 ≤ roundBinary p x := by
  have hg : (0 : F) < (2 : F) ^ (Int.log 2 |x| - ((p : Int) - 1)) := zpow_pos (by norm_num) _
  have m1 : (((0 : Int) : Int) : F) ≤ x / (2 : F) ^ (Int.log 2 |x| - ((p : Int) - 1)) := by
    rw [Int.cast_zero]
    exact div_nonneg hx hg.le
  have r1 := roundHalfEven_mono _ _ m1
  rw [roundHalfEven_intCast] at r1
  unfold roundBinary
  exact mul_nonneg (by exact_mod_cast r1) hg.le

/-- Rounding is monotone on the positive numbers. -/
theorem roundBinary_mono_pos {F : Type} [LinearOrderedField F] [FloorRing F] (p : Nat)
    (hp : 1 ≤ p) (x y : F) (hx : 0 < x) (h : x ≤ y) : roundBinary p x ≤ roundBinary p y := by
  have hy : 0 < y := lt_of_lt_of_le hx h
  have hl : Int.log 2 x ≤ Int.log 2 y := Int.log_mono_right hx h
  rcases lt_or_eq_of_le hl with hlt | heq
  · have b1 := (roundBinary_binade p hp x hx).2
    have b2 := (roundBinary_binade p hp y hy).1
    have b3 : (2 : F) ^ (Int.log 2 x + 1) ≤ (2 : F) ^ Int.log 2 y :=
      zpow_le_zpow_right₀ (by norm_num) (by omega)
    exact le_trans b1 (le_trans b3 b2)
  · have hg : (0 : F) < (2 : F) ^ (Int.log 2 y - ((p : Int) - 1)) := zpow_pos (by norm_num) _
    have m : x / (2 : F) ^ (Int.log 2 y - ((p : Int) - 1))
        ≤ y / (2 : F) ^ (Int.log 2 y - ((p : Int) - 1)) := div_le_div_of_nonneg_right h hg.le
    have r := roundHalfEven_mono _ _ m
    unfold roundBinary
    simp only [abs_of_pos hx, abs_of_pos hy, heq]
    exact mul_le_mul_of_nonneg_right (by exact_mod_cast r) hg.le

/-- Rounding to nearest is monotone. -/
theorem roundBinary_mono {F : Type} [LinearOrderedField F] [FloorRing F] (p : Nat)
    (hp : 1 ≤ p) (x y : F) (h : x ≤ y) : roundBinary p x ≤ roundBinary p y := by
  rcases lt_or_le 0 x with hx | hx
  · exact roundBinary_mono_pos p hp x y hx h
  · have hx2 : roundBinary p x ≤ 0 := by
      have := roundBinary_nonneg p (-x) (by linarith)
      rw [roundBinary_neg] at this
      linarith
    rcases le_or_lt 0 y with hy | hy
    · exact le_trans hx2 (roundBinary_nonneg p y hy)
    · have := roundBinary_mono_pos p hp (-y) (-x) (by linarith) (by linarith)
      rw [roundBinary_neg, roundBinary_neg] at this
      linarith

/-- A value at most `pi` leaves the first loop at once. -/
theorem whileAbovePiRounded_of_le {F : Type} [LinearOrderedField F] (fl : F → F) (pi a : F)
    (h : a ≤ pi) (fuel : Nat) : whileAbovePiRounded fl pi fuel a = some a := by
  cases fuel <;> simp [whileAbovePiRounded, not_lt.mpr h]

/-- A value at least `-pi` leaves the second loop at once. -/
theorem whileBelowNegPiRounded_of_le {F : Type} [LinearOrderedField F] (fl : F → F) (pi a : F)
    (h : -pi ≤ a) (fuel : Nat) : whileBelowNegPiRounded fl pi fuel a = some a := by
  cases fuel <;> simp [whileBelowNegPiRounded, not_lt.mpr h]

/-- The first loop on values above `pi`, for a monotone rounding that keeps `-pi` and
`2 * pi` and has an error of at most `δ ≤ pi` on the magnitudes up to `B + 2 * pi`: from
`a ≤ B` it stops within `n` iterations when `a ≤ pi + pi * n`, in `[-pi, pi]`, having
subtracted `2 * pi` some `k ≥ 1` times with an error of at most `δ` each time. -/
theorem whileAbovePiRounded_spec {F : Type} [LinearOrderedField F] (fl : F → F)
    (pi δ B : F) (hpi : 0 < pi) (hmono : ∀ x y, x ≤ y → fl x ≤ fl y)
    (hfixn : fl (-pi) = -pi) (htwo : fl (2 * pi) = 2 * pi) (hδ : δ ≤ pi)
    (herr : ∀ x, |x| ≤ B + 2 * pi → |fl x - x| ≤ δ) (n : Nat) :
    ∀ a : F, pi < a → a ≤ B → a ≤ pi + pi * n → ∀ fuel : Nat, n ≤ fuel →
      ∃ (r : F) (k : Nat), whileAbovePiRounded fl pi fuel a = some r ∧ -pi ≤ r ∧ r ≤ pi ∧
        1 ≤ k ∧ |r - (a - 2 * pi * k)| ≤ k * δ := by
  induction n with
  | zero =>
    intro a h1 _ h3
    simp only [Nat.cast_zero, mul_zero, add_zero] at h3
    exact absurd h1 (not_lt.mpr h3)
  | succ n ih =>
    intro a h1 h2 h3 fuel hfuel
    obtain ⟨f, rfl⟩ : ∃ f, fuel = f + 1 := ⟨fuel - 1, by omega⟩
    have hab : |a - 2 * pi| ≤ B + 2 * pi := by
      rw [abs_le]
      constructor <;> linarith
    have he := abs_le.mp (herr _ hab)
    have hlow : -pi ≤ fl (a - 2 * pi) := by
      have := hmono (-pi) (a - 2 * pi) (by linarith)
      rwa [hfixn] at this
    have hstep : whileAbovePiRounded fl pi (f + 1) a
        = whileAbovePiRounded fl pi f (fl (a - 2 * pi)) := by
      rw [whileAbovePiRounded, if_pos h1, htwo]
    push_cast at h3
    by_cases hdone : fl (a - 2 * pi) ≤ pi
    · refine ⟨fl (a - 2 * pi), 1, ?_, hlow, hdone, le_rfl, ?_⟩
      · rw [hstep, whileAbovePiRounded_of_le fl pi _ hdone]
      · simpa using herr _ hab
    · push_neg at hdone
      obtain ⟨r, k, hr, hr1, hr2, hk, hrk⟩ := ih (fl (a - 2 * pi)) hdone (by linarith)
        (by linarith) f (by omega)
      refine ⟨r, k + 1, ?_, hr1, hr2, by omega, ?_⟩
      · rw [hstep, hr]
      · have hrk2 := abs_le.mp hrk
        push_cast
        rw [abs_le]
        constructor <;> linarith

/-- The second loop on values below `-pi`, under the conditions of
`whileAbovePiRounded_spec`: it stops in `[-pi, pi]`, having added `2 * pi` some
`k ≥ 1` times with an error of at most `δ` each time. -/
theorem whileBelowNegPiRounded_spec {F : Type} [LinearOrderedField F] (fl : F → F)
    (pi δ B : F) (hpi : 0 < pi) (hmono : ∀ x y, x ≤ y → fl x ≤ fl y)
    (hfix : fl pi = pi) (htwo : fl (2 * pi) = 2 * pi) (hδ : δ ≤ pi)
    (herr : ∀ x, |x| ≤ B + 2 * pi → |fl x - x| ≤ δ) (n : Nat) :
    ∀ a : F, a < -pi → -B ≤ a → -a ≤ pi + pi * n → ∀ fuel : Nat, n ≤ fuel →
      ∃ (r : F) (k : Nat), whileBelowNegPiRounded fl pi fuel a = some r ∧ -pi ≤ r ∧ r ≤ pi ∧
        1 ≤ k ∧ |r - (a + 2 * pi * k)| ≤ k * δ := by
  induction n with
  | zero =>
    intro a h1 _ h3
    simp only [Nat.cast_zero, mul_zero, add_zero] at h3
    exact absurd h1 (not_lt.mpr (by linarith))
  | succ n ih =>
    intro a h1 h2 h3 fuel hfuel
    obtain ⟨f, rfl⟩ : ∃ f, fuel = f + 1 := ⟨fuel - 1, by omega⟩
    have hab : |a + 2 * pi| ≤ B + 2 * pi := by
      rw [abs_le]
      constructor <;> linarith
    have he := abs_le.mp (herr _ hab)
    have hup : fl (a + 2 * pi) ≤ pi := by
      have := hmono (a + 2 * pi) pi (by linarith)
      rwa [hfix] at this
    have hstep : whileBelowNegPiRounded fl pi (f + 1) a
        = whileBelowNegPiRounded fl pi f (fl (a + 2 * pi)) := by
      rw [whileBelowNegPiRounded, if_pos h1, htwo]
    push_cast at h3
    by_cases hdone : -pi ≤ fl (a + 2 * pi)
    · refine ⟨fl (a + 2 * pi), 1, ?_, hdone, hup, le_rfl, ?_⟩
      · rw [hstep, whileBelowNegPiRounded_of_le fl pi _ hdone]
      · simpa using herr _ hab
    · push_neg at hdone
      obtain ⟨r, k, hr, hr1, hr2, hk, hrk⟩ := ih (fl (a + 2 * pi)) hdone (by linarith)
        (by linarith) f (by omega)
      refine ⟨r, k + 1, ?_, hr1, hr2, by omega, ?_⟩
      · rw [hstep, hr]
      · have hrk2 := abs_le.mp hrk
        push_cast
        rw [abs_le]
        constructor <;> linarith

/-- Running `whileAbovePiRounded` with one more iteration allowed does not change a
result. -/
theorem whileAbovePiRounded_succ {F : Type} [LinearOrderedField F] (fl : F → F) (pi : F)
    (fuel : Nat) (a r : F) (h : whileAbovePiRounded fl pi fuel a = some r) :
    whileAbovePiRounded fl pi (fuel + 1) a = some r := by
  induction fuel generalizing a with
  | zero =>
    by_cases ha : a > pi
    · simp [whileAbovePiRounded, ha] at h
    · simp [whileAbovePiRounded, ha] at h ⊢
      exact h
  | succ n ih =>
    by_cases ha : a > pi
    · rw [whileAbovePiRounded, if_pos ha] at h
      rw [whileAbovePiRounded, if_pos ha]
      exact ih _ h
    · rw [whileAbovePiRounded, if_neg ha] at h
      rw [whileAbovePiRounded, if_neg ha]
      exact h

/-- Running `whileBelowNegPiRounded` with one more iteration allowed does not change a
result. -/
theorem whileBelowNegPiRounded_succ {F : Type} [LinearOrderedField F] (fl : F → F) (pi : F)
    (fuel : Nat) (a r : F) (h : whileBelowNegPiRounded fl pi fuel a = some r) :
    whileBelowNegPiRounded fl pi (fuel + 1) a = some r := by
  induction fuel generalizing a with
  | zero =>
    by_cases ha : a < -pi
    · simp [whileBelowNegPiRounded, ha] at h
    · simp [whileBelowNegPiRounded, ha] at h ⊢
      exact h
  | succ n ih =>
    by_cases ha : a < -pi
    · rw [whileBelowNegPiRounded, if_pos ha] at h
      rw [whileBelowNegPiRounded, if_pos ha]
      exact ih _ h
    · rw [whileBelowNegPiRounded, if_neg ha] at h
      rw [whileBelowNegPiRounded, if_neg ha]
      exact h

/-- A result of the two rounded loops is kept by every larger bound on the number of
iterations. -/
theorem normalizeLoopsRounded_mono {F : Type} [LinearOrderedField F] (fl : F → F) (pi : F)
    (fuel fuel2 : Nat) (a r : F) (hle : fuel ≤ fuel2)
    (h : normalizeLoopsRounded fl pi fuel a = some r) :
    normalizeLoopsRounded fl pi fuel2 a = some r := by
  induction hle with
  | refl => exact h
  | @step m _ ih =>
    simp only [normalizeLoopsRounded] at ih ⊢
    cases h1 : whileAbovePiRounded fl pi m a with
    | none => simp [h1] at ih
    | some r1 =>
      rw [h1] at ih
      simp only [Option.some_bind] at ih
      rw [whileAbovePiRounded_succ fl pi m a r1 h1]
      simp only [Option.some_bind]
      exact whileBelowNegPiRounded_succ fl pi m r1 r ih

/-- The two loops under a rounding `fl` that is monotone, keeps `pi`, `-pi` and `2 * pi`,
and has an error of at most `δ ≤ pi` on the magnitudes up to `|a| + 2 * pi`: they stop
within `n` iterations when `|a| ≤ pi * n`, with a result in `[-pi, pi]` that differs from
`a + 2 * pi * k`, `k` an integer, by at most `|k| * δ`. -/
theorem normalizeLoopsRounded_spec {F : Type} [LinearOrderedField F] (fl : F → F)
    (pi δ : F) (hpi : 0 < pi) (hmono : ∀ x y, x ≤ y → fl x ≤ fl y) (hfix : fl pi = pi)
    (hfixn : fl (-pi) = -pi) (htwo : fl (2 * pi) = 2 * pi) (hδ : δ ≤ pi) (a : F)
    (herr : ∀ x, |x| ≤ |a| + 2 * pi → |fl x - x| ≤ δ) (n : Nat) (hn : |a| ≤ pi * n) :
    ∃ (r : F) (k : Int),
      (∀ fuel : Nat, n ≤ fuel → normalizeLoopsRounded fl pi fuel a = some r) ∧
      -pi ≤ r ∧ r ≤ pi ∧ |r - (a + 2 * pi * k)| ≤ |(k : F)| * δ := by
  have ha1 : a ≤ |a| := le_abs_self a
  have ha2 : -a ≤ |a| := neg_le_abs a
  by_cases h1 : pi < a
  · obtain ⟨r, k, hr, hr1, hr2, -, hrk⟩ := whileAbovePiRounded_spec fl pi δ |a| hpi hmono hfixn
      htwo hδ herr n a h1 ha1 (by linarith) n le_rfl
    refine ⟨r, -(k : Int), fun fuel hfuel => ?_, hr1, hr2, ?_⟩
    · refine normalizeLoopsRounded_mono fl pi n fuel a r hfuel ?_
      simp only [normalizeLoopsRounded, hr, Option.some_bind]
      exact whileBelowNegPiRounded_of_le fl pi r hr1 n
    · push_cast
      rw [abs_neg, Nat.abs_cast]
      have e : a + 2 * pi * -(k : F) = a - 2 * pi * k := by ring
      rw [e]
      exact hrk
  · push_neg at h1
    have hd : whileAbovePiRounded fl pi n a = some a := whileAbovePiRounded_of_le fl pi a h1 n
    by_cases h2 : a < -pi
    · obtain ⟨r, k, hr, hr1, hr2, -, hrk⟩ := whileBelowNegPiRounded_spec fl pi δ |a| hpi hmono
        hfix htwo hδ herr n a h2 (by linarith) (by linarith) n le_rfl
      refine ⟨r, (k : Int), fun fuel hfuel => ?_, hr1, hr2, ?_⟩
      · refine normalizeLoopsRounded_mono fl pi n fuel a r hfuel ?_
        simp only [normalizeLoopsRounded, hd, Option.some_bind]
        exact hr
      · push_cast
        rw [Nat.abs_cast]
        exact hrk
    · push_neg at h2
      refine ⟨a, 0, fun fuel hfuel => ?_, h2, h1, ?_⟩
      · refine normalizeLoopsRounded_mono fl pi n fuel a a hfuel ?_
        simp only [normalizeLoopsRounded, hd, Option.some_bind]
        exact whileBelowNegPiRounded_of_le fl pi a h2 n
      · simp

/-- The rounding error is at most `2 ^ (-p)` times the magnitude. -/
theorem roundBinary_relative_error {F : Type} [LinearOrderedField F] [FloorRing F] (p : Nat)
    (x : F) : |roundBinary p x - x| ≤ |x| / 2 ^ p := by
  by_cases h0 : x = 0
  · subst h0
    rw [roundBinary_zero]
    simp
  · have hpos : 0 < |x| := abs_pos.mpr h0
    have h1 : (2 : F) ^ Int.log 2 |x| ≤ |x| := by
      have := Int.zpow_log_le_self (b := 2) (by norm_num) hpos
      simpa using this
    refine le_trans (roundBinary_abs_sub p x) ?_
    rw [zpow_sub₀ (by norm_num), zpow_natCast]
    exact div_le_div_of_nonneg_right h1 (by positivity)

/-- The constants `M_PI`, `-M_PI` and `2. * M_PI` are values of the format `double`. -/
theorem roundBinary_M_PI_double {F : Type} [LinearOrderedField F] [FloorRing F] :
    roundBinary 53 (M_PI_double : F) = M_PI_double ∧
    roundBinary 53 (-(M_PI_double : F)) = -M_PI_double ∧
    roundBinary 53 (2 * (M_PI_double : F)) = 2 * M_PI_double := by
  have h1 : roundBinary 53 (M_PI_double : F) = M_PI_double := by
    have h := roundBinary_eq_of_near 53 (M_PI_double : F) 1 7074237752028440
      (by unfold M_PI_double; rw [abs_of_pos (by norm_num)]; norm_num)
      (by unfold M_PI_double; rw [abs_of_pos (by norm_num)]; norm_num)
      (by unfold M_PI_double; norm_num) (by unfold M_PI_double; norm_num)
    rw [h]
    unfold M_PI_double
    norm_num
  have h2 : roundBinary 53 (2 * (M_PI_double : F)) = 2 * M_PI_double := by
    have h := roundBinary_eq_of_near 53 (2 * (M_PI_double : F)) 2 7074237752028440
      (by unfold M_PI_double; rw [abs_of_pos (by norm_num)]; norm_num)
      (by unfold M_PI_double; rw [abs_of_pos (by norm_num)]; norm_num)
      (by unfold M_PI_double; norm_num) (by unfold M_PI_double; norm_num)
    rw [h]
    unfold M_PI_double
    norm_num
  exact ⟨h1, by rw [roundBinary_neg, h1], h2⟩

/-- C3: the two normalisation loops as they run on `double` (each update rounded to the
nearest `double`, `M_PI` the `double` constant): for every angle difference `a` with
`|a| ≤ 2 ^ 54` they terminate, returning with every bound of at least `⌈|a| / M_PI⌉`
iterations one value `r` with `-M_PI ≤ r ≤ M_PI`; `r` differs from `a + 2 * M_PI * k`,
`k` an integer, by at most `|k|` rounding errors of `(|a| + 2 * M_PI) / 2 ^ 53`. -/
theorem normalizeLoops_double_terminate_in_range {F : Type} [LinearOrderedField F]
    [FloorRing F] (a : F) (ha : |a| ≤ 2 ^ 54) :
    ∃ (r : F) (k : Int),
      (∀ fuel : Nat, ⌈|a| / M_PI_double⌉₊ ≤ fuel →
        normalizeLoopsRounded (roundBinary 53) M_PI_double fuel a = some r) ∧
      -M_PI_double ≤ r ∧ r ≤ M_PI_double ∧
      |r - (a + 2 * M_PI_double * k)| ≤ |(k : F)| * ((|a| + 2 * M_PI_double) / 2 ^ 53) := by
  obtain ⟨f1, f2, f3⟩ := roundBinary_M_PI_double (F := F)
  have hpi : (0 : F) < M_PI_double := by unfold M_PI_double; norm_num
  have hpi3 : (3 : F) ≤ M_PI_double := by unfold M_PI_double; norm_num
  have hpi4 : (M_PI_double : F) ≤ 4 := by unfold M_PI_double; norm_num
  refine normalizeLoopsRounded_spec (roundBinary 53) M_PI_double
    ((|a| + 2 * M_PI_double) / 2 ^ 53) hpi (roundBinary_mono 53 (by norm_num)) f1 f2 f3 ?_ a
    ?_ _ ?_
  · rw [div_le_iff₀ (by positivity)]
    have : (2 : F) ^ 54 = 2 * 2 ^ 53 := by norm_num
    nlinarith [show (0 : F) < 2 ^ 53 by positivity]
  · intro x hx
    refine le_trans (roundBinary_relative_error 53 x) ?_
    exact div_le_div_of_nonneg_right hx (by positivity)
  · have := Nat.le_ceil (|a| / (M_PI_double : F))
    rw [div_le_iff₀ hpi] at this
    linarith

/-- C3 at a concrete input: the angle difference `30000.5`. -/
theorem normalizeLoops_double_terminate_in_range_witness :
    |(60001 / 2 : ℚ)| ≤ 2 ^ 54 ∧
    ∃ (r : ℚ) (k : Int),
      (∀ fuel : Nat, ⌈|(60001 / 2 : ℚ)| / M_PI_double⌉₊ ≤ fuel →
        normalizeLoopsRounded (roundBinary 53) M_PI_double fuel (60001 / 2 : ℚ) = some r) ∧
      -M_PI_double ≤ r ∧ r ≤ M_PI_double ∧
      |r - (60001 / 2 + 2 * M_PI_double * k)|
        ≤ |(k : ℚ)| * ((|(60001 / 2 : ℚ)| + 2 * M_PI_double) / 2 ^ 53) :=
  ⟨by rw [abs_of_pos (by norm_num)]; norm_num,
    normalizeLoops_double_terminate_in_range (60001 / 2 : ℚ)
      (by rw [abs_of_pos (by norm_num)]; norm_num)⟩

/-- The subtraction `1e17 - 2. * M_PI` gives `1e17` on `double`, and the addition
`-1e17 + 2. * M_PI` gives `-1e17`: `1e17` lies between `2 ^ 56` and `2 ^ 57`, where the
values of the format are the multiples of 16. -/
theorem roundBinary_stuck {F : Type} [LinearOrderedField F] [FloorRing F] :
    roundBinary 53 ((10 : F) ^ 17 - roundBinary 53 (2 * M_PI_double)) = 10 ^ 17 ∧
    roundBinary 53 (-(10 : F) ^ 17 + roundBinary 53 (2 * M_PI_double)) = -10 ^ 17 := by
  have h1 : roundBinary 53 ((10 : F) ^ 17 - 2 * M_PI_double) = 10 ^ 17 := by
    have h := roundBinary_eq_of_near 53 ((10 : F) ^ 17 - 2 * M_PI_double) 56 6250000000000000
      (by unfold M_PI_double; rw [abs_of_pos (by norm_num)]; norm_num)
      (by unfold M_PI_double; rw [abs_of_pos (by norm_num)]; norm_num)
      (by unfold M_PI_double; norm_num) (by unfold M_PI_double; norm_num)
    rw [h]
    norm_num
  have e : -(10 : F) ^ 17 + 2 * M_PI_double = -((10 : F) ^ 17 - 2 * M_PI_double) := by ring
  rw [roundBinary_M_PI_double.2.2, e, roundBinary_neg, h1]
  exact ⟨rfl, rfl⟩

/-- A value above `pi` that the rounded subtraction gives back is never left by the first
loop. -/
theorem whileAbovePiRounded_stuck {F : Type} [LinearOrderedField F] (fl : F → F) (pi a : F)
    (h1 : pi < a) (h2 : fl (a - fl (2 * pi)) = a) (fuel : Nat) :
    whileAbovePiRounded fl pi fuel a = none := by
  induction fuel with
  | zero => simp [whileAbovePiRounded, h1]
  | succ n ih => rw [whileAbovePiRounded, if_pos h1, h2, ih]

/-- A value below `-pi` that the rounded addition gives back is never left by the second
loop. -/
theorem whileBelowNegPiRounded_stuck {F : Type} [LinearOrderedField F] (fl : F → F)
    (pi a : F) (h1 : a < -pi) (h2 : fl (a + fl (2 * pi)) = a) (fuel : Nat) :
    whileBelowNegPiRounded fl pi fuel a = none := by
  induction fuel with
  | zero => simp [whileBelowNegPiRounded, h1]
  | succ n ih => rw [whileBelowNegPiRounded, if_pos h1, h2, ih]

/-- C3 as stated fails on `double`: for the angle difference `1e17` (a `double`) the
subtraction of `2. * M_PI` gives `1e17` again, so the first loop has not stopped after
any number of iterations, and neither has the second loop for `-1e17`. -/
theorem normalizeLoops_double_never_exit :
    (∀ fuel : Nat,
      normalizeLoopsRounded (roundBinary 53) M_PI_double fuel ((10 : ℚ) ^ 17) = none) ∧
    (∀ fuel : Nat,
      normalizeLoopsRounded (roundBinary 53) M_PI_double fuel (-(10 : ℚ) ^ 17) = none) := by
  have hpi4 : (M_PI_double : ℚ) ≤ 4 := by unfold M_PI_double; norm_num
  constructor
  · intro fuel
    rw [normalizeLoopsRounded, whileAbovePiRounded_stuck _ _ _ (by linarith [show (4:ℚ) < 10 ^ 17 by norm_num])
      roundBinary_stuck.1]
    rfl
  · intro fuel
    have h : whileAbovePiRounded (roundBinary 53) (M_PI_double : ℚ) fuel (-(10 : ℚ) ^ 17)
        = some (-(10 : ℚ) ^ 17) :=
      whileAbovePiRounded_of_le _ _ _ (by unfold M_PI_double; norm_num) fuel
    rw [normalizeLoopsRounded, h, Option.some_bind]
    exact whileBelowNegPiRounded_stuck _ _ _ (by unfold M_PI_double; norm_num)
      roundBinary_stuck.2 fuel

/-- With a rounding that loses nothing the rounded loops are the exact loops. -/
theorem normalizeLoopsRounded_id {F : Type} [LinearOrderedField F] (pi : F) (fuel : Nat)
    (a : F) : normalizeLoopsRounded id pi fuel a = normalizeLoops pi fuel a := by
  have h1 : ∀ (n : Nat) (x : F), whileAbovePiRounded id pi n x = whileAbovePi pi n x := by
    intro n
    induction n with
    | zero => intro x; rfl
    | succ n ih =>
      intro x
      rw [whileAbovePiRounded, whileAbovePi, ih]
      rfl
  have h2 : ∀ (n : Nat) (x : F), whileBelowNegPiRounded id pi n x = whileBelowNegPi pi n x := by
    intro n
    induction n with
    | zero => intro x; rfl
    | succ n ih =>
      intro x
      rw [whileBelowNegPiRounded, whileBelowNegPi, ih]
      rfl
  simp only [normalizeLoopsRounded, normalizeLoops, h1]
  congr 1
  funext x
  exact h2 fuel x

/-- Three conversions to `float`: `5` and `1` are kept, and `1 + 2 ^ (-30)`, a `double`
between the `float` values `1` and `1 + 2 ^ (-23)`, becomes `1`. -/
theorem roundBinary_single {F : Type} [LinearOrderedField F] [FloorRing F] :
    roundBinary 24 (5 : F) = 5 ∧ roundBinary 24 (1 : F) = 1 ∧
    roundBinary 24 (1 + 1 / 2 ^ 30 : F) = 1 := by
  refine ⟨?_, ?_, ?_⟩
  · have h := roundBinary_eq_of_near 24 (5 : F) 2 10485760
      (by rw [abs_of_pos (by norm_num)]; norm_num)
      (by rw [abs_of_pos (by norm_num)]; norm_num) (by norm_num) (by norm_num)
    rw [h]
    norm_num
  · have h := roundBinary_eq_of_near 24 (1 : F) 0 8388608
      (by rw [abs_of_pos (by norm_num)]; norm_num)
      (by rw [abs_of_pos (by norm_num)]; norm_num) (by norm_num) (by norm_num)
    rw [h]
    norm_num
  · have h := roundBinary_eq_of_near 24 (1 + 1 / 2 ^ 30 : F) 0 8388608
      (by rw [abs_of_pos (by norm_num)]; norm_num)
      (by rw [abs_of_pos (by norm_num)]; norm_num) (by norm_num) (by norm_num)
    rw [h]
    norm_num

/-- C6: on a freshly constructed filter `ProcessMeasurement` of a RADAR package with
readings `(rho, phi, rho_dot)` returns the state with
`x_ = [toFloat (rho * cos phi), toFloat (rho * sin phi), 0, 0, 0]`: the two products pass
through the `float` locals `px_init`, `py_init`. With the IEEE conversion to `float` the
readings `(5, 0, 0)` at `t = 0` give `[5, 0, 0, 0, 0]`, and the readings
`(1 + 2 ^ (-30), 0, rho_dot)` give `[1, 0, 0, 0, 0]`, which is not
`[rho * cos phi, rho * sin phi, 0, 0, 0]`. -/
theorem UKF.ProcessMeasurement_first_radar_narrowed {F : Type} [LinearOrderedField F]
    [FloorRing F] (m : Numerics F) (hf : m.NarrowsToFloat) (hcos : m.cos 0 = 1)
    (hsin : m.sin 0 = 0) (X0 : Matrix (Fin 5) (Fin 15) F) (t0 t : Int) (rho_dot : F) :
    (∀ rho phi : F, ∃ s : UKF F, UKF.ProcessMeasurement m (UKF.new X0 t0)
        ⟨t, SensorType.RADAR, ![rho, phi, rho_dot]⟩ = some s ∧
        s.x_ = ![m.toFloat (rho * m.cos phi), m.toFloat (rho * m.sin phi), 0, 0, 0] ∧
        s.is_initialized_ = true) ∧
    (∃ s : UKF F, UKF.ProcessMeasurement m (UKF.new X0 t0)
        ⟨0, SensorType.RADAR, ![5, 0, 0]⟩ = some s ∧ s.x_ = ![5, 0, 0, 0, 0]) ∧
    (∃ s : UKF F, UKF.ProcessMeasurement m (UKF.new X0 t0)
        ⟨t, SensorType.RADAR, ![1 + 1 / 2 ^ 30, 0, rho_dot]⟩ = some s ∧
        s.x_ = ![1, 0, 0, 0, 0] ∧
        s.x_ ≠ ![(1 + 1 / 2 ^ 30) * m.cos 0, (1 + 1 / 2 ^ 30) * m.sin 0, 0, 0, 0]) := by
  obtain ⟨hf0, hfn⟩ := hf
  obtain ⟨r5, -, r1⟩ := roundBinary_single (F := F)
  have e5 : m.toFloat 5 = 5 := by
    rw [hfn 5 (by rw [abs_of_pos (by norm_num)]; norm_num)
      (by rw [abs_of_pos (by norm_num)]; norm_num), r5]
  have e1 : m.toFloat (1 + 1 / 2 ^ 30) = 1 := by
    rw [hfn _ (by rw [abs_of_pos (by norm_num)]; norm_num)
      (by rw [abs_of_pos (by norm_num)]; norm_num), r1]
  refine ⟨fun rho phi => ⟨_, rfl, UKF.seed_radar m _ t rho phi rho_dot, rfl⟩, ⟨_, rfl, ?_⟩,
    ⟨_, rfl, ?_, ?_⟩⟩
  · rw [UKF.seed_radar, hcos, hsin, mul_one, mul_zero, e5, hf0]
  · rw [UKF.seed_radar, hcos, hsin, mul_one, mul_zero, e1, hf0]
  · rw [UKF.seed_radar, hcos, hsin, mul_one, mul_zero, e1, hf0]
    intro h
    have h0 := congrFun h 0
    simp only [Matrix.cons_val_zero] at h0
    have : (0 : F) < 1 / 2 ^ 30 := by positivity
    linarith

/-- C6 at a concrete input: the real functions with the IEEE conversion to `float`, the
constructed filter, and the range rate `3` at `t = 7`. -/
theorem UKF.ProcessMeasurement_first_radar_narrowed_witness :
    Numerics.NarrowsToFloat
      (⟨Real.sqrt, Real.sin, Real.cos, fun y x => Complex.arg ⟨x, y⟩, Real.pi, roundBinary 24,
        fun _ => 1⟩ : Numerics ℝ) ∧
    Real.cos 0 = 1 ∧ Real.sin 0 = 0 ∧
    ((∀ rho phi : ℝ, ∃ s : UKF ℝ, UKF.ProcessMeasurement
        ⟨Real.sqrt, Real.sin, Real.cos, fun y x => Complex.arg ⟨x, y⟩, Real.pi, roundBinary 24,
          fun _ => 1⟩
        (UKF.new 0 0) ⟨7, SensorType.RADAR, ![rho, phi, 3]⟩ = some s ∧
        s.x_ = ![roundBinary 24 (rho * Real.cos phi), roundBinary 24 (rho * Real.sin phi),
          0, 0, 0] ∧
        s.is_initialized_ = true) ∧
    (∃ s : UKF ℝ, UKF.ProcessMeasurement
        ⟨Real.sqrt, Real.sin, Real.cos, fun y x => Complex.arg ⟨x, y⟩, Real.pi, roundBinary 24,
          fun _ => 1⟩
        (UKF.new 0 0) ⟨0, SensorType.RADAR, ![5, 0, 0]⟩ = some s ∧ s.x_ = ![5, 0, 0, 0, 0]) ∧
    (∃ s : UKF ℝ, UKF.ProcessMeasurement
        ⟨Real.sqrt, Real.sin, Real.cos, fun y x => Complex.arg ⟨x, y⟩, Real.pi, roundBinary 24,
          fun _ => 1⟩
        (UKF.new 0 0) ⟨7, SensorType.RADAR, ![1 + 1 / 2 ^ 30, 0, 3]⟩ = some s ∧
        s.x_ = ![1, 0, 0, 0, 0] ∧
        s.x_ ≠ ![(1 + 1 / 2 ^ 30) * Real.cos 0, (1 + 1 / 2 ^ 30) * Real.sin 0, 0, 0, 0])) :=
  ⟨⟨roundBinary_zero 24, fun _ _ _ => rfl⟩, Real.cos_zero, Real.sin_zero,
    UKF.ProcessMeasurement_first_radar_narrowed
      (⟨Real.sqrt, Real.sin, Real.cos, fun y x => Complex.arg ⟨x, y⟩, Real.pi, roundBinary 24,
        fun _ => 1⟩ : Numerics ℝ)
      ⟨roundBinary_zero 24, fun _ _ _ => rfl⟩ Real.cos_zero Real.sin_zero 0 0 7 3⟩

/-- C19: with the exact real functions and the IEEE conversion to `float` of `px_init`,
`py_init`: a filter that is not initialised is seeded by the RADAR package
`(rho, phi, rd)`, `rho > 0` and `phi` in `(-π, π]`, and the radar projection of
`UpdateRadar` applied to the seeded state gives back `(rho, phi, 0)` when the two
products `rho cos phi`, `rho sin phi` are kept by the conversion; for the package
`(1 + 2 ^ (-30), 0, rd)` the seeded state is `[1, 0, 0, 0, 0]` and its projection is
`(1, 0, 0)`, not `(rho, phi, 0)`. -/
theorem UKF.radar_seed_projection_narrowed (m : Numerics ℝ) (hm : m.Exact)
    (hf : m.NarrowsToFloat) (s : UKF ℝ) (hi : s.is_initialized_ = false) (t : Int) (rd : ℝ) :
    (∀ rho phi : ℝ, 0 < rho → -Real.pi < phi → phi ≤ Real.pi →
      m.toFloat (rho * Real.cos phi) = rho * Real.cos phi →
      m.toFloat (rho * Real.sin phi) = rho * Real.sin phi →
      ∃ s1 : UKF ℝ,
        UKF.ProcessMeasurement m s ⟨t, SensorType.RADAR, ![rho, phi, rd]⟩ = some s1 ∧
        UKF.radarPoint m s1.x_ = some ![rho, phi, 0]) ∧
    (∃ s1 : UKF ℝ,
      UKF.ProcessMeasurement m s ⟨t, SensorType.RADAR, ![1 + 1 / 2 ^ 30, 0, rd]⟩ = some s1 ∧
      s1.x_ = ![1, 0, 0, 0, 0] ∧
      UKF.radarPoint m s1.x_ = some ![1, 0, 0] ∧
      UKF.radarPoint m s1.x_ ≠ some ![1 + 1 / 2 ^ 30, 0, 0]) := by
  obtain ⟨hf0, hfn⟩ := hf
  have e1 : m.toFloat (1 + 1 / 2 ^ 30) = 1 := by
    rw [hfn _ (by rw [abs_of_pos (by norm_num)]; norm_num)
      (by rw [abs_of_pos (by norm_num)]; norm_num), roundBinary_single.2.2]
  have hpm : ∀ rho phi : ℝ,
      UKF.ProcessMeasurement m s ⟨t, SensorType.RADAR, ![rho, phi, rd]⟩
        = some (UKF.seed m s ⟨t, SensorType.RADAR, ![rho, phi, rd]⟩) := by
    intro rho phi
    simp [UKF.ProcessMeasurement, hi]
  have hp1 : UKF.radarPoint m ![1, 0, 0, 0, 0] = some ![1, 0, 0] := by
    have h := UKF.radarPoint_polar m hm 1 0 0 0 (by norm_num) (by linarith [Real.pi_pos])
      Real.pi_pos.le
    simpa using h
  constructor
  · intro rho phi hrho h1 h2 k1 k2
    refine ⟨_, hpm rho phi, ?_⟩
    rw [UKF.seed_radar, hm.2.2.1, hm.2.1, k1, k2]
    exact UKF.radarPoint_polar m hm rho phi 0 0 hrho h1 h2
  · have hx : (UKF.seed m s ⟨t, SensorType.RADAR, ![1 + 1 / 2 ^ 30, 0, rd]⟩).x_
        = ![1, 0, 0, 0, 0] := by
      rw [UKF.seed_radar, hm.2.2.1, hm.2.1, Real.cos_zero, Real.sin_zero, mul_one, mul_zero,
        e1, hf0]
    refine ⟨_, hpm _ _, hx, ?_, ?_⟩
    · rw [hx]
      exact hp1
    · rw [hx, hp1]
      intro h
      have h0 := congrFun (Option.some.inj h) 0
      simp only [Matrix.cons_val_zero] at h0
      have : (0 : ℝ) < 1 / 2 ^ 30 := by positivity
      linarith

/-- C19 at a concrete input: the real functions with the IEEE conversion to `float`, the
constructed filter and the range rate `5`. -/
theorem UKF.radar_seed_projection_narrowed_witness :
    Numerics.Exact
      ⟨Real.sqrt, Real.sin, Real.cos, fun y x => Complex.arg ⟨x, y⟩, Real.pi, roundBinary 24,
        fun _ => 1⟩ ∧
    Numerics.NarrowsToFloat
      (⟨Real.sqrt, Real.sin, Real.cos, fun y x => Complex.arg ⟨x, y⟩, Real.pi, roundBinary 24,
        fun _ => 1⟩ : Numerics ℝ) ∧
    (UKF.new 0 0 : UKF ℝ).is_initialized_ = false ∧
    ((∀ rho phi : ℝ, 0 < rho → -Real.pi < phi → phi ≤ Real.pi →
      roundBinary 24 (rho * Real.cos phi) = rho * Real.cos phi →
      roundBinary 24 (rho * Real.sin phi) = rho * Real.sin phi →
      ∃ s1 : UKF ℝ,
        UKF.ProcessMeasurement
          ⟨Real.sqrt, Real.sin, Real.cos, fun y x => Complex.arg ⟨x, y⟩, Real.pi,
            roundBinary 24, fun _ => 1⟩
          (UKF.new 0 0) ⟨0, SensorType.RADAR, ![rho, phi, 5]⟩ = some s1 ∧
        UKF.radarPoint
          ⟨Real.sqrt, Real.sin, Real.cos, fun y x => Complex.arg ⟨x, y⟩, Real.pi,
            roundBinary 24, fun _ => 1⟩
          s1.x_ = some ![rho, phi, 0]) ∧
    (∃ s1 : UKF ℝ,
      UKF.ProcessMeasurement
        ⟨Real.sqrt, Real.sin, Real.cos, fun y x => Complex.arg ⟨x, y⟩, Real.pi,
          roundBinary 24, fun _ => 1⟩
        (UKF.new 0 0) ⟨0, SensorType.RADAR, ![1 + 1 / 2 ^ 30, 0, 5]⟩ = some s1 ∧
      s1.x_ = ![1, 0, 0, 0, 0] ∧
      UKF.radarPoint
        ⟨Real.sqrt, Real.sin, Real.cos, fun y x => Complex.arg ⟨x, y⟩, Real.pi,
          roundBinary 24, fun _ => 1⟩
        s1.x_ = some ![1, 0, 0] ∧
      UKF.radarPoint
        ⟨Real.sqrt, Real.sin, Real.cos, fun y x => Complex.arg ⟨x, y⟩, Real.pi,
          roundBinary 24, fun _ => 1⟩
        s1.x_ ≠ some ![1 + 1 / 2 ^ 30, 0, 0])) :=
  ⟨⟨fun _ => rfl, fun _ => rfl, fun _ => rfl, fun _ _ => rfl, rfl⟩,
    ⟨roundBinary_zero 24, fun _ _ _ => rfl⟩, rfl,
    UKF.radar_seed_projection_narrowed
      ⟨Real.sqrt, Real.sin, Real.cos, fun y x => Complex.arg ⟨x, y⟩, Real.pi, roundBinary 24,
        fun _ => 1⟩
      ⟨fun _ => rfl, fun _ => rfl, fun _ => rfl, fun _ _ => rfl, rfl⟩
      ⟨roundBinary_zero 24, fun _ _ _ => rfl⟩ (UKF.new 0 0) rfl 0 5⟩

/-- One iteration of the outer loop of `UKF.PredictionRounded`, in terms of the
propagated columns. -/
theorem UKF.predictionBodyRounded_eq {F : Type} [LinearOrderedField F] [FloorRing F]
    (fl : F → F) (fuel : Nat) (m : Numerics F) (delta_t : F)
    (Xa : Matrix (Fin 7) (Fin 15) F) (s : UKF F) (i : Fin 15) :
    UKF.predictionBodyRounded fl fuel m delta_t Xa s i =
      (UKF.predictedCovRounded fl fuel m s.weights_
        (Matrix.of fun r c =>
          if c ∈ [i] then UKF.propagated m delta_t Xa r c else s.Xsig_pred_ r c)
        (UKF.predictedMean s.weights_ (Matrix.of fun r c =>
          if c ∈ [i] then UKF.propagated m delta_t Xa r c else s.Xsig_pred_ r c))).map
        fun P =>
          { s with
            Xsig_pred_ := Matrix.of fun r c =>
              if c ∈ [i] then UKF.propagated m delta_t Xa r c else s.Xsig_pred_ r c
            x_ := UKF.predictedMean s.weights_ (Matrix.of fun r c =>
              if c ∈ [i] then UKF.propagated m delta_t Xa r c else s.Xsig_pred_ r c)
            P_ := P } := by
  have hX : (Matrix.of fun r c =>
      if c = i then UKF.predictPoint m delta_t (fun k => Xa k i) r else s.Xsig_pred_ r c)
      = (Matrix.of fun r c =>
          if c ∈ [i] then UKF.propagated m delta_t Xa r c else s.Xsig_pred_ r c) := by
    ext r c
    by_cases h : c = i
    · subst h
      simp [UKF.propagated]
    · simp [h]
  simp only [UKF.predictionBodyRounded, hX]

/-- When the outer loop of `UKF.PredictionRounded` has returned a state after the columns
in `i :: l`, that state has the propagated columns at the indices in `i :: l`, and the
mean and covariance recombined from that matrix. -/
theorem UKF.foldlM_predictionBodyRounded {F : Type} [LinearOrderedField F] [FloorRing F]
    (fl : F → F) (fuel : Nat) (m : Numerics F) (delta_t : F)
    (Xa : Matrix (Fin 7) (Fin 15) F) (l : List (Fin 15)) (s s2 : UKF F) (i : Fin 15)
    (h : (i :: l).foldlM (UKF.predictionBodyRounded fl fuel m delta_t Xa) s = some s2) :
    (UKF.predictedCovRounded fl fuel m s.weights_
        (Matrix.of fun r c =>
          if c ∈ i :: l then UKF.propagated m delta_t Xa r c else s.Xsig_pred_ r c)
        (UKF.predictedMean s.weights_ (Matrix.of fun r c =>
          if c ∈ i :: l then UKF.propagated m delta_t Xa r c else s.Xsig_pred_ r c))).map
        (fun P =>
          { s with
            Xsig_pred_ := Matrix.of fun r c =>
              if c ∈ i :: l then UKF.propagated m delta_t Xa r c else s.Xsig_pred_ r c
            x_ := UKF.predictedMean s.weights_ (Matrix.of fun r c =>
              if c ∈ i :: l then UKF.propagated m delta_t Xa r c else s.Xsig_pred_ r c)
            P_ := P }) = some s2 := by
  induction l generalizing s i with
  | nil =>
    simp only [List.foldlM_cons, List.foldlM_nil, bind_pure] at h
    rw [UKF.predictionBodyRounded_eq] at h
    exact h
  | cons j l ih =>
    rw [List.foldlM_cons] at h
    cases h1 : UKF.predictionBodyRounded fl fuel m delta_t Xa s i with
    | none => simp [h1] at h
    | some s1 =>
      rw [h1] at h
      have h2 := ih s1 j (by simpa using h)
      rw [UKF.predictionBodyRounded_eq] at h1
      cases hc : UKF.predictedCovRounded fl fuel m s.weights_
          (Matrix.of fun r c =>
            if c ∈ [i] then UKF.propagated m delta_t Xa r c else s.Xsig_pred_ r c)
          (UKF.predictedMean s.weights_ (Matrix.of fun r c =>
            if c ∈ [i] then UKF.propagated m delta_t Xa r c else s.Xsig_pred_ r c)) with
      | none =>
        rw [hc] at h1
        exact absurd h1 (by simp)
      | some P1 =>
      rw [hc, Option.map_some'] at h1
      have hs1 := Option.some.inj h1
      subst hs1
      have hX : (Matrix.of fun r c =>
          if c ∈ j :: l then UKF.propagated m delta_t Xa r c
          else (Matrix.of fun r c =>
            if c ∈ [i] then UKF.propagated m delta_t Xa r c else s.Xsig_pred_ r c) r c)
          = (Matrix.of fun r c =>
            if c ∈ i :: j :: l then UKF.propagated m delta_t Xa r c else s.Xsig_pred_ r c) := by
        ext r c
        by_cases h1 : c ∈ j :: l
        · have h2 : c ∈ i :: j :: l := List.mem_cons_of_mem _ h1
          simp only [Matrix.of_apply, if_pos h1, if_pos h2]
        · by_cases h3 : c = i
          · have h2 : c ∈ i :: j :: l := by rw [h3]; exact List.mem_cons_self _ _
            have h4 : c ∈ [i] := by rw [h3]; exact List.mem_singleton_self _
            simp only [Matrix.of_apply, if_neg h1, if_pos h4, if_pos h2]
          · have h2 : ¬ c ∈ i :: j :: l := by
              intro hc
              rcases List.mem_cons.mp hc with h | h
              · exact h3 h
              · exact h1 h
            have h4 : ¬ c ∈ [i] := by
              intro hc
              exact h3 (List.mem_singleton.mp hc)
            simp only [Matrix.of_apply, if_neg h1, if_neg h4, if_neg h2]
      simp only [hX] at h2
      exact h2

/-- Whenever `UKF.PredictionRounded` returns a state, the reference design returns the
same state. -/
theorem UKF.PredictionRounded_eq_reference {F : Type} [LinearOrderedField F] [FloorRing F]
    (fl : F → F) (fuel : Nat) (m : Numerics F) (s s2 : UKF F) (delta_t : F)
    (h : UKF.PredictionRounded fl fuel m s delta_t = some s2) :
    UKF.PredictionReferenceRounded fl fuel m s delta_t = some s2 := by
  have hl : List.finRange 15 = (0 : Fin 15) :: (List.finRange 15).tail := by
    rw [List.finRange_succ_eq_map]
    rfl
  have hmem : ∀ c : Fin 15, c ∈ (0 : Fin 15) :: (List.finRange 15).tail := by
    intro c
    rw [← hl]
    exact List.mem_finRange c
  simp only [UKF.PredictionRounded] at h
  rw [hl] at h
  have h2 := UKF.foldlM_predictionBodyRounded fl fuel m delta_t _ _ s s2 0 h
  simp only [hmem, if_true] at h2
  have hp : (Matrix.of fun r c => UKF.propagated m delta_t (UKF.sigmaPoints m s) r c)
      = UKF.propagated m delta_t (UKF.sigmaPoints m s) := rfl
  rw [hp] at h2
  exact h2

/-- The rounded recombination of sigma points whose yaw differences lie in
`[-M_PI, M_PI]`: no loop iterates, and the covariance is the weighted sum of the outer
products of the differences as they are. -/
theorem UKF.predictedCovRounded_in_range {F : Type} [LinearOrderedField F] [FloorRing F]
    (fl : F → F) (fuel : Nat) (m : Numerics F) (w : Fin 15 → F)
    (X : Matrix (Fin 5) (Fin 15) F) (x : Fin 5 → F)
    (hin : ∀ i : Fin 15, -m.M_PI ≤ X 3 i - x 3 ∧ X 3 i - x 3 ≤ m.M_PI) :
    UKF.predictedCovRounded fl fuel m w X x
      = some (Matrix.of fun a b => ∑ i : Fin 15, ((X a i - x a) * (X b i - x b)) * w i) := by
  have hd : ∀ i : Fin 15,
      UKF.x_diffRounded fl fuel m X x i = some (fun r => X r i - x r) := by
    intro i
    have h1 : normalizeLoopsRounded fl m.M_PI fuel (X 3 i - x 3) = some (X 3 i - x 3) := by
      rw [normalizeLoopsRounded, whileAbovePiRounded_of_le fl _ _ (hin i).2, Option.some_bind,
        whileBelowNegPiRounded_of_le fl _ _ (hin i).1]
    rw [UKF.x_diffRounded, h1, Option.map_some']
    congr 1
    funext r
    by_cases hr : r = 3
    · subst hr
      simp only [if_true]
    · simp only [if_neg hr]
  have hs : ∀ i : Fin 15, (UKF.x_diffRounded fl fuel m X x i).isSome := by
    intro i
    rw [hd i]
    rfl
  have hg : ∀ (i : Fin 15) (h : (UKF.x_diffRounded fl fuel m X x i).isSome),
      (UKF.x_diffRounded fl fuel m X x i).get h = fun r => X r i - x r :=
    fun i h => Option.some.inj ((Option.some_get h).trans (hd i))
  rw [UKF.predictedCovRounded, dif_pos hs]
  congr 1
  ext a b
  simp only [Matrix.of_apply, hg]

/-- The rounded recombination of sigma points one of whose yaw differences is never
left by the loops returns nothing. -/
theorem UKF.predictedCovRounded_none {F : Type} [LinearOrderedField F] [FloorRing F]
    (fl : F → F) (fuel : Nat) (m : Numerics F) (w : Fin 15 → F)
    (X : Matrix (Fin 5) (Fin 15) F) (x : Fin 5 → F) (c : Fin 15)
    (h : normalizeLoopsRounded fl m.M_PI fuel (X 3 c - x 3) = none) :
    UKF.predictedCovRounded fl fuel m w X x = none := by
  have hs : ¬ ∀ i : Fin 15, (UKF.x_diffRounded fl fuel m X x i).isSome := by
    intro hall
    have := hall c
    rw [UKF.x_diffRounded, h] at this
    simp at this
  rw [UKF.predictedCovRounded, dif_neg hs]

/-- C15: the in-loop recombination is more than an inefficiency. On a filter seeded at
`(px, py, 0, 0, 0)` with the identity covariance, whose `Xsig_pred_` still holds stale
yaw entries `-V` in column 13 and `V` in column 14 (zero in columns 1 to 12) with
`V > M_PI` so large that the rounded update `-V + 2. * M_PI` gives `-V` again,
`Prediction` with its loops as they run on `double` returns no state, however many
iterations are allowed: the first pass of the outer loop normalises the yaw difference
`-V` of the stale column 13. The reference design, which reads propagated columns only,
returns a state, with the mean `(px, py, 0, 0, 0)` (no yaw difference of a propagated
point leaves `[-M_PI, M_PI]` under the three bounds on `sqrt(3)` and `delta_t`). -/
theorem UKF.PredictionRounded_stale_yaw {F : Type} [LinearOrderedField F] [FloorRing F]
    (fl : F → F) (m : Numerics F) (s : UKF F) (hs : s.HasCtorConstants) (hP : s.P_ = 1)
    (hL : IsCholeskyFactor (m.llt 1) 1) (hsin : m.sin 0 = 0) (hcos : m.cos 0 = 1)
    (px py : F) (hx : s.x_ = ![px, py, 0, 0, 0]) (dt : F)
    (hb1 : |m.sqrt 3| ≤ m.M_PI) (hb2 : |m.sqrt 3 * dt| ≤ m.M_PI)
    (hb3 : |1 / 2 * m.sqrt 3 * dt * dt| ≤ m.M_PI)
    (V : F) (hV : m.M_PI < V) (hstuck : fl (-V + fl (2 * m.M_PI)) = -V)
    (hstale : ∀ c : Fin 15, c ≠ 0 →
      s.Xsig_pred_ 3 c = if c = 13 then -V else if c = 14 then V else 0) :
    (∀ fuel : Nat, UKF.PredictionRounded fl fuel m s dt = none) ∧
    (∀ fuel : Nat, ∃ s2 : UKF F, UKF.PredictionReferenceRounded fl fuel m s dt = some s2 ∧
      s2.x_ = ![px, py, 0, 0, 0] ∧
      s2.Xsig_pred_ = UKF.propagated m dt (UKF.sigmaPoints m s)) := by
  have hpi : 0 ≤ m.M_PI := le_trans (abs_nonneg _) hb1
  have b1 := abs_le.mp hb1
  have b2 := abs_le.mp hb2
  have b3 := abs_le.mp hb3
  constructor
  · intro fuel
    have hX0 : UKF.predictPoint m dt (fun r => UKF.sigmaPoints m s r 0) 3 = 0 := by
      rw [UKF.predictPoint_yaw]
      simp only [UKF.sigmaPoints, UKF.Xsig_aug_zero, UKF.x_aug_apply, hx]
      simp
    have hmean : UKF.predictedMean s.weights_ (Matrix.of fun r c =>
        if c = 0 then UKF.predictPoint m dt (fun r => UKF.sigmaPoints m s r 0) r
        else s.Xsig_pred_ r c) 3 = 0 := by
      obtain ⟨w0, w1, w2, w3, w4, w5, w6, w7, w8, w9, w10, w11, w12, w13, w14⟩ :=
        UKF.HasCtorConstants.weights s hs
      simp only [UKF.predictedMean, sum_univ_fifteen, Matrix.of_apply, if_true, hX0, w0, w1,
        w2, w3, w4, w5, w6, w7, w8, w9, w10, w11, w12, w13, w14]
      rw [if_neg (by decide), if_neg (by decide), if_neg (by decide), if_neg (by decide),
        if_neg (by decide), if_neg (by decide), if_neg (by decide), if_neg (by decide),
        if_neg (by decide), if_neg (by decide), if_neg (by decide), if_neg (by decide),
        if_neg (by decide), if_neg (by decide)]
      rw [hstale 1 (by decide), hstale 2 (by decide), hstale 3 (by decide),
        hstale 4 (by decide), hstale 5 (by decide), hstale 6 (by decide),
        hstale 7 (by decide), hstale 8 (by decide), hstale 9 (by decide),
        hstale 10 (by decide), hstale 11 (by decide), hstale 12 (by decide),
        hstale 13 (by decide), hstale 14 (by decide)]
      simp +decide
    have hloop : normalizeLoopsRounded fl m.M_PI fuel
        ((Matrix.of fun r c =>
          if c = 0 then UKF.predictPoint m dt (fun r => UKF.sigmaPoints m s r 0) r
          else s.Xsig_pred_ r c) 3 13
          - UKF.predictedMean s.weights_ (Matrix.of fun r c =>
            if c = 0 then UKF.predictPoint m dt (fun r => UKF.sigmaPoints m s r 0) r
            else s.Xsig_pred_ r c) 3) = none := by
      rw [hmean, sub_zero, Matrix.of_apply, if_neg (by decide), hstale 13 (by decide),
        if_pos rfl, normalizeLoopsRounded,
        whileAbovePiRounded_of_le fl _ _ (by linarith), Option.some_bind]
      exact whileBelowNegPiRounded_stuck fl _ _ (by linarith) hstuck fuel
    have hbody : UKF.predictionBodyRounded fl fuel m dt (UKF.sigmaPoints m s) s 0 = none := by
      simp only [UKF.predictionBodyRounded]
      rw [UKF.predictedCovRounded_none fl fuel m _ _ _ 13 hloop]
      rfl
    have hl : List.finRange 15 = (0 : Fin 15) :: (List.finRange 15).tail := by
      rw [List.finRange_succ_eq_map]
      rfl
    rw [UKF.PredictionRounded, hl, List.foldlM_cons, hbody]
    rfl
  · intro fuel
    have hXp : UKF.propagated m dt (UKF.sigmaPoints m s) = (UKF.Prediction m s dt).Xsig_pred_ := by
      rw [UKF.Prediction_eq]
    have hxp : UKF.predictedMean s.weights_ (UKF.propagated m dt (UKF.sigmaPoints m s))
        = (UKF.Prediction m s dt).x_ := by
      rw [UKF.Prediction_eq]
    have hmean := UKF.Prediction_first_mean m s hs hP hL hsin hcos px py hx dt
    obtain ⟨c0, c1, c2, c3, c4, c5, c6, c7, c8, c9, c10, c11, c12, c13, c14⟩ :=
      UKF.Prediction_first_Xsig m s hs hP hL hsin hcos px py hx dt
    have hin : ∀ i : Fin 15,
        -m.M_PI ≤ UKF.propagated m dt (UKF.sigmaPoints m s) 3 i
            - UKF.predictedMean s.weights_ (UKF.propagated m dt (UKF.sigmaPoints m s)) 3 ∧
          UKF.propagated m dt (UKF.sigmaPoints m s) 3 i
            - UKF.predictedMean s.weights_ (UKF.propagated m dt (UKF.sigmaPoints m s)) 3
            ≤ m.M_PI := by
      intro i
      rw [hxp, hXp, hmean]
      fin_cases i
      · show -m.M_PI ≤ (UKF.Prediction m s dt).Xsig_pred_ 3 0 - 0 ∧
          (UKF.Prediction m s dt).Xsig_pred_ 3 0 - 0 ≤ m.M_PI
        rw [show (UKF.Prediction m s dt).Xsig_pred_ 3 0 = 0 from c0 3, sub_zero]
        constructor <;> linarith only [b1.1, b1.2, b2.1, b2.2, b3.1, b3.2, hpi]
      · show -m.M_PI ≤ (UKF.Prediction m s dt).Xsig_pred_ 3 1 - 0 ∧
          (UKF.Prediction m s dt).Xsig_pred_ 3 1 - 0 ≤ m.M_PI
        rw [show (UKF.Prediction m s dt).Xsig_pred_ 3 1 = 0 from c1 3, sub_zero]
        constructor <;> linarith only [b1.1, b1.2, b2.1, b2.2, b3.1, b3.2, hpi]
      · show -m.M_PI ≤ (UKF.Prediction m s dt).Xsig_pred_ 3 2 - 0 ∧
          (UKF.Prediction m s dt).Xsig_pred_ 3 2 - 0 ≤ m.M_PI
        rw [show (UKF.Prediction m s dt).Xsig_pred_ 3 2 = 0 from c2 3, sub_zero]
        constructor <;> linarith only [b1.1, b1.2, b2.1, b2.2, b3.1, b3.2, hpi]
      · show -m.M_PI ≤ (UKF.Prediction m s dt).Xsig_pred_ 3 3 - 0 ∧
          (UKF.Prediction m s dt).Xsig_pred_ 3 3 - 0 ≤ m.M_PI
        rw [show (UKF.Prediction m s dt).Xsig_pred_ 3 3 = 0 from c3 3, sub_zero]
        constructor <;> linarith only [b1.1, b1.2, b2.1, b2.2, b3.1, b3.2, hpi]
      · show -m.M_PI ≤ (UKF.Prediction m s dt).Xsig_pred_ 3 4 - 0 ∧
          (UKF.Prediction m s dt).Xsig_pred_ 3 4 - 0 ≤ m.M_PI
        rw [show (UKF.Prediction m s dt).Xsig_pred_ 3 4 = m.sqrt 3 from c4 3, sub_zero]
        constructor <;> linarith only [b1.1, b1.2, b2.1, b2.2, b3.1, b3.2, hpi]
      · show -m.M_PI ≤ (UKF.Prediction m s dt).Xsig_pred_ 3 5 - 0 ∧
          (UKF.Prediction m s dt).Xsig_pred_ 3 5 - 0 ≤ m.M_PI
        rw [show (UKF.Prediction m s dt).Xsig_pred_ 3 5 = m.sqrt 3 * dt from c5 3, sub_zero]
        constructor <;> linarith only [b1.1, b1.2, b2.1, b2.2, b3.1, b3.2, hpi]
      · show -m.M_PI ≤ (UKF.Prediction m s dt).Xsig_pred_ 3 6 - 0 ∧
          (UKF.Prediction m s dt).Xsig_pred_ 3 6 - 0 ≤ m.M_PI
        rw [show (UKF.Prediction m s dt).Xsig_pred_ 3 6 = 0 from c6 3, sub_zero]
        constructor <;> linarith only [b1.1, b1.2, b2.1, b2.2, b3.1, b3.2, hpi]
      · show -m.M_PI ≤ (UKF.Prediction m s dt).Xsig_pred_ 3 7 - 0 ∧
          (UKF.Prediction m s dt).Xsig_pred_ 3 7 - 0 ≤ m.M_PI
        rw [show (UKF.Prediction m s dt).Xsig_pred_ 3 7 = 1 / 2 * m.sqrt 3 * dt * dt from c7 3, sub_zero]
        constructor <;> linarith only [b1.1, b1.2, b2.1, b2.2, b3.1, b3.2, hpi]
      · show -m.M_PI ≤ (UKF.Prediction m s dt).Xsig_pred_ 3 8 - 0 ∧
          (UKF.Prediction m s dt).Xsig_pred_ 3 8 - 0 ≤ m.M_PI
        rw [show (UKF.Prediction m s dt).Xsig_pred_ 3 8 = 0 from c8 3, sub_zero]
        constructor <;> linarith only [b1.1, b1.2, b2.1, b2.2, b3.1, b3.2, hpi]
      · show -m.M_PI ≤ (UKF.Prediction m s dt).Xsig_pred_ 3 9 - 0 ∧
          (UKF.Prediction m s dt).Xsig_pred_ 3 9 - 0 ≤ m.M_PI
        rw [show (UKF.Prediction m s dt).Xsig_pred_ 3 9 = 0 from c9 3, sub_zero]
        constructor <;> linarith only [b1.1, b1.2, b2.1, b2.2, b3.1, b3.2, hpi]
      · show -m.M_PI ≤ (UKF.Prediction m s dt).Xsig_pred_ 3 10 - 0 ∧
          (UKF.Prediction m s dt).Xsig_pred_ 3 10 - 0 ≤ m.M_PI
        rw [show (UKF.Prediction m s dt).Xsig_pred_ 3 10 = 0 from c10 3, sub_zero]
        constructor <;> linarith only [b1.1, b1.2, b2.1, b2.2, b3.1, b3.2, hpi]
      · show -m.M_PI ≤ (UKF.Prediction m s dt).Xsig_pred_ 3 11 - 0 ∧
          (UKF.Prediction m s dt).Xsig_pred_ 3 11 - 0 ≤ m.M_PI
        rw [show (UKF.Prediction m s dt).Xsig_pred_ 3 11 = -m.sqrt 3 from c11 3, sub_zero]
        constructor <;> linarith only [b1.1, b1.2, b2.1, b2.2, b3.1, b3.2, hpi]
      · show -m.M_PI ≤ (UKF.Prediction m s dt).Xsig_pred_ 3 12 - 0 ∧
          (UKF.Prediction m s dt).Xsig_pred_ 3 12 - 0 ≤ m.M_PI
        rw [show (UKF.Prediction m s dt).Xsig_pred_ 3 12 = -m.sqrt 3 * dt from c12 3, sub_zero]
        constructor <;> linarith only [b1.1, b1.2, b2.1, b2.2, b3.1, b3.2, hpi]
      · show -m.M_PI ≤ (UKF.Prediction m s dt).Xsig_pred_ 3 13 - 0 ∧
          (UKF.Prediction m s dt).Xsig_pred_ 3 13 - 0 ≤ m.M_PI
        rw [show (UKF.Prediction m s dt).Xsig_pred_ 3 13 = 0 from c13 3, sub_zero]
        constructor <;> linarith only [b1.1, b1.2, b2.1, b2.2, b3.1, b3.2, hpi]
      · show -m.M_PI ≤ (UKF.Prediction m s dt).Xsig_pred_ 3 14 - 0 ∧
          (UKF.Prediction m s dt).Xsig_pred_ 3 14 - 0 ≤ m.M_PI
        rw [show (UKF.Prediction m s dt).Xsig_pred_ 3 14 = 1 / 2 * -m.sqrt 3 * dt * dt from c14 3, sub_zero]
        constructor <;> linarith only [b1.1, b1.2, b2.1, b2.2, b3.1, b3.2, hpi]
    have hcov := UKF.predictedCovRounded_in_range fl fuel m s.weights_ _ _ hin
    have e : UKF.PredictionReferenceRounded fl fuel m s dt
        = (UKF.predictedCovRounded fl fuel m s.weights_
            (UKF.propagated m dt (UKF.sigmaPoints m s))
            (UKF.predictedMean s.weights_ (UKF.propagated m dt (UKF.sigmaPoints m s)))).map
          fun P =>
            { s with
              Xsig_pred_ := UKF.propagated m dt (UKF.sigmaPoints m s)
              x_ := UKF.predictedMean s.weights_ (UKF.propagated m dt (UKF.sigmaPoints m s))
              P_ := P } := rfl
    rw [e, hcov, Option.map_some']
    exact ⟨_, rfl, hxp.trans hmean, rfl⟩

/-- C15 at a concrete input: the real functions with `M_PI` the `double` constant and the
loops rounded to `double`; the constructed filter whose `Xsig_pred_` is left at
`-1e17` in entry `(3, 13)`, `1e17` in entry `(3, 14)` and zero elsewhere, seeded by the
LASER package `(1, 0)`; `delta_t = 1`. -/
theorem UKF.PredictionRounded_stale_yaw_witness :
    roundBinary 53 (-(10 : ℝ) ^ 17 + roundBinary 53 (2 * M_PI_double)) = -(10 : ℝ) ^ 17 ∧
    (∀ fuel : Nat, UKF.PredictionRounded (roundBinary 53) fuel
      ⟨Real.sqrt, Real.sin, Real.cos, fun y x => Complex.arg ⟨x, y⟩, M_PI_double,
        roundBinary 24, fun _ => 1⟩
      (UKF.seed
        ⟨Real.sqrt, Real.sin, Real.cos, fun y x => Complex.arg ⟨x, y⟩, M_PI_double,
          roundBinary 24, fun _ => 1⟩
        (UKF.new (Matrix.of fun r c =>
          if r = 3 then (if c = 13 then -(10 : ℝ) ^ 17 else if c = 14 then (10 : ℝ) ^ 17 else 0)
          else 0) 0)
        ⟨0, SensorType.LASER, ![1, 0, 0]⟩) 1 = none) ∧
    (∀ fuel : Nat, ∃ s2 : UKF ℝ, UKF.PredictionReferenceRounded (roundBinary 53) fuel
      ⟨Real.sqrt, Real.sin, Real.cos, fun y x => Complex.arg ⟨x, y⟩, M_PI_double,
        roundBinary 24, fun _ => 1⟩
      (UKF.seed
        ⟨Real.sqrt, Real.sin, Real.cos, fun y x => Complex.arg ⟨x, y⟩, M_PI_double,
          roundBinary 24, fun _ => 1⟩
        (UKF.new (Matrix.of fun r c =>
          if r = 3 then (if c = 13 then -(10 : ℝ) ^ 17 else if c = 14 then (10 : ℝ) ^ 17 else 0)
          else 0) 0)
        ⟨0, SensorType.LASER, ![1, 0, 0]⟩) 1 = some s2 ∧
      s2.x_ = ![1, 0, 0, 0, 0]) := by
  have hq : |Real.sqrt 3| ≤ (M_PI_double : ℝ) := by
    rw [abs_of_nonneg (Real.sqrt_nonneg 3)]
    have := sqrt_three_bounds.2
    unfold M_PI_double
    linarith
  have hq3 : |1 / 2 * Real.sqrt 3 * 1 * 1| ≤ (M_PI_double : ℝ) := by
    have h0 := Real.sqrt_nonneg 3
    rw [abs_of_nonneg (by linarith)]
    have := sqrt_three_bounds.2
    unfold M_PI_double
    linarith
  have key := UKF.PredictionRounded_stale_yaw (roundBinary 53)
    ⟨Real.sqrt, Real.sin, Real.cos, fun y x => Complex.arg ⟨x, y⟩, M_PI_double,
      roundBinary 24, fun _ => 1⟩
    (UKF.seed
      ⟨Real.sqrt, Real.sin, Real.cos, fun y x => Complex.arg ⟨x, y⟩, M_PI_double,
        roundBinary 24, fun _ => 1⟩
      (UKF.new (Matrix.of fun r c =>
        if r = 3 then (if c = 13 then -(10 : ℝ) ^ 17 else if c = 14 then (10 : ℝ) ^ 17 else 0)
        else 0) 0)
      ⟨0, SensorType.LASER, ![1, 0, 0]⟩)
    (UKF.seed_hasCtorConstants _ _ _ (UKF.new_hasCtorConstants _ _))
    (by ext i j; fin_cases i <;> fin_cases j <;> rfl) IsCholeskyFactor.one
    Real.sin_zero Real.cos_zero 1 0 (by simp [UKF.seed]) 1 hq (by rw [mul_one]; exact hq) hq3
    (10 ^ 17) (by show (M_PI_double : ℝ) < 10 ^ 17; unfold M_PI_double; norm_num)
    roundBinary_stuck.2 (by intro c hc; simp [UKF.seed, UKF.new])
  refine ⟨roundBinary_stuck.2, key.1, fun fuel => ?_⟩
  obtain ⟨s2, h1, h2, -⟩ := key.2 fuel
  exact ⟨s2, h1, h2⟩

end Theorems
